import Mathlib

/-!
# PowerShuffler2 client MCU (ATTINY_client_mcu/main.c)

A shallow embedding of the client firmware.  The microcontroller is a record of
the I/O registers the program touches, the analog input (the result of the k-th
conversion, supplied by the environment) and a chronological log of everything
the program does that is visible outside the CPU: register writes, delays,
watchdog resets, sleeps, conversions, and the entry of every function.

`int` and `unsigned int` are 16 bits wide on AVR; the conversions between them
are the explicit functions `toI16` and `toU16`.

Loops are structurally recursive on a fuel argument and answer `none` when the
fuel is used up while the loop condition still holds.
-/

namespace PowerShuffler

/-! ## Constants (main.c lines 14-27) -/

abbrev TRIGGERTIMEOUTUS : Nat := 255
abbrev TRANSMITDELAYUS : Nat := 32
abbrev POWERDEBOUNCEDELAYMS : Nat := 500
abbrev ADCITERATIONS : Int := 4
abbrev ADCREADDELAYMS : Nat := 10
abbrev MAXVOLTAGEADCVALUE : Nat := 232
abbrev MUXONDEBOUNCEDELAYMS : Nat := 125
abbrev RECHECKVOLTAGECOUNT : Int := 66
abbrev CHARGERDEBOUNCEDELAYMS : Nat := 500
abbrev MUXOFFDEBOUNCEDELAYMS : Nat := 500
abbrev WAITFORMASTERDELAYMS : Nat := 750
abbrev DISCHARGEWAITDELAYMS : Nat := 250

/-- The macro `RECHECKVOLTAGEFAST`, which expands to the token sequence
`RECHECKVOLTAGECOUNT/2` (no parentheses); C division of `int` truncates. -/
abbrev RECHECKVOLTAGEFAST : Int := Int.tdiv RECHECKVOLTAGECOUNT 2

/-! ## 16-bit integers -/

/-- Conversion of a mathematical integer to `unsigned int` (reduction modulo 2^16). -/
def toU16 (x : Int) : Nat := (x % 65536).toNat

/-- Conversion of an unsigned value to `int` (two's complement, as avr-gcc does). -/
def toI16 (n : Nat) : Int := ((n : Int) + 32768) % 65536 - 32768

/-- Subtraction of two `unsigned int` values. -/
def subU16 (a b : Nat) : Nat := (a % 65536 + (65536 - b % 65536)) % 65536

/-! ## The machine -/

/-- The I/O registers written by the program. -/
inductive Reg
  | CCP | CLKPSR | WDTCSR | SMCR | PUEB | PORTB | DDRB | ADCSRA | DIDR0 | SREG | PRR
  deriving DecidableEq, Repr

/-- The functions of main.c whose entry is logged. -/
inductive Fn
  | initializeRegisters | turnOnMux | turnOffMux | toggleMux
  | turnOnCharger | turnOffCharger
  | getAdcValueBusyWait | getAdcValueBusyWaitWithAveraging
  | transmitOneTick | triggerRead | outputDataError | transmitValue
  deriving DecidableEq, Repr

/-- What the program does, in the order it does it. -/
inductive Event
  /-- entry of a function, with its argument (0 for a function without one) -/
  | call (f : Fn) (arg : Nat)
  /-- a value stored to an I/O register -/
  | write (r : Reg) (v : Nat)
  | delay_ms (n : Nat)
  | delay_us (n : Nat)
  | wdt_reset
  | sleep_mode
  /-- one completed conversion and the value it latched in ADCL -/
  | adc (v : Nat)
  deriving DecidableEq, Repr

/-- State of the microcontroller. -/
structure MCU where
  CCP : Nat
  CLKPSR : Nat
  WDTCSR : Nat
  SMCR : Nat
  PUEB : Nat
  PORTB : Nat
  DDRB : Nat
  ADCSRA : Nat
  DIDR0 : Nat
  SREG : Nat
  PRR : Nat
  ADCL : Nat
  /-- the analog input: what the k-th conversion since power-on measures -/
  adcIn : Nat → Nat
  /-- number of conversions completed so far -/
  adcCount : Nat
  /-- log of events, oldest first -/
  trace : List Event

/-- The machine at power-on: every I/O register holds its reset value 0. -/
def reset (adcIn : Nat → Nat) : MCU :=
  { CCP := 0, CLKPSR := 0, WDTCSR := 0, SMCR := 0, PUEB := 0, PORTB := 0, DDRB := 0,
    ADCSRA := 0, DIDR0 := 0, SREG := 0, PRR := 0, ADCL := 0,
    adcIn := adcIn, adcCount := 0, trace := [] }

def log (e : Event) (s : MCU) : MCU := { s with trace := s.trace ++ [e] }

def setPUEB (v : Nat) (s : MCU) : MCU :=
  { s with PUEB := v, trace := s.trace ++ [Event.write Reg.PUEB v] }

def setPORTB (v : Nat) (s : MCU) : MCU :=
  { s with PORTB := v, trace := s.trace ++ [Event.write Reg.PORTB v] }

def setDDRB (v : Nat) (s : MCU) : MCU :=
  { s with DDRB := v, trace := s.trace ++ [Event.write Reg.DDRB v] }

def setADCSRA (v : Nat) (s : MCU) : MCU :=
  { s with ADCSRA := v, trace := s.trace ++ [Event.write Reg.ADCSRA v] }

def setPRR (v : Nat) (s : MCU) : MCU :=
  { s with PRR := v, trace := s.trace ++ [Event.write Reg.PRR v] }

def delay_ms (n : Nat) (s : MCU) : MCU := log (Event.delay_ms n) s

def delay_us (n : Nat) (s : MCU) : MCU := log (Event.delay_us n) s

def wdt_reset (s : MCU) : MCU := log Event.wdt_reset s

/-- The macro `sleep_mode()`: power-down until the watchdog interrupt, whose handler is
empty, wakes the CPU. -/
def sleep_mode (s : MCU) : MCU := log Event.sleep_mode s

/-! ## The functions of main.c -/

/-- main.c lines 35-68. -/
def initializeRegisters (s : MCU) : MCU :=
  let s := log (Event.call Fn.initializeRegisters 0) s
  let s := { s with CCP := 0xD8, trace := s.trace ++ [Event.write Reg.CCP 0xD8] }
  let s := { s with CLKPSR := 0x00, trace := s.trace ++ [Event.write Reg.CLKPSR 0x00] }
  let s := { s with WDTCSR := 0x60, trace := s.trace ++ [Event.write Reg.WDTCSR 0x60] }
  let s := { s with SMCR := 0x05, trace := s.trace ++ [Event.write Reg.SMCR 0x05] }
  let s := setPUEB (s.PUEB ||| 8) s    -- PUEB  |= _BV(3)
  let s := setPORTB (s.PORTB ||| 4) s  -- PORTB |= _BV(2)
  let s := setDDRB (s.DDRB ||| 2) s    -- DDRB  |= _BV(1)
  let s := setDDRB (s.DDRB ||| 4) s    -- DDRB  |= _BV(2)
  let s := delay_ms POWERDEBOUNCEDELAYMS s
  let s := wdt_reset s
  let s := setADCSRA 0x83 s
  let s := { s with DIDR0 := 0x0E, trace := s.trace ++ [Event.write Reg.DIDR0 0x0E] }
  { s with SREG := 0x80, trace := s.trace ++ [Event.write Reg.SREG 0x80] }

/-- main.c lines 70-73: 0 if the mux is off. -/
def isMuxOn (s : MCU) : Nat := s.PORTB &&& 2

/-- main.c lines 75-80. -/
def turnOnMux (s : MCU) : MCU :=
  let s := log (Event.call Fn.turnOnMux 0) s
  if isMuxOn s ≠ 0 then s
  else
    let s := setPORTB (s.PORTB ||| 2) s   -- PORTB |= _BV(1)
    delay_ms MUXONDEBOUNCEDELAYMS s

/-- main.c lines 82-87. -/
def turnOffMux (s : MCU) : MCU :=
  let s := log (Event.call Fn.turnOffMux 0) s
  if isMuxOn s = 0 then s
  else
    let s := setPORTB (s.PORTB &&& 0xFD) s   -- PORTB &= ~_BV(1)
    delay_ms MUXOFFDEBOUNCEDELAYMS s

/-- main.c lines 89-93. -/
def toggleMux (s : MCU) : MCU :=
  let s := log (Event.call Fn.toggleMux 0) s
  let s := turnOffMux s
  turnOnMux s

/-- main.c lines 95-98: 0 if the charger is off. -/
def isChargerOn (s : MCU) : Nat := s.DDRB &&& 8

/-- main.c lines 100-106. -/
def turnOnCharger (s : MCU) : MCU :=
  let s := log (Event.call Fn.turnOnCharger 0) s
  if isChargerOn s ≠ 0 then s
  else
    let s := setPUEB (s.PUEB &&& 0xF7) s   -- PUEB &= ~_BV(3)
    let s := setDDRB (s.DDRB ||| 8) s      -- DDRB |= _BV(3)
    delay_ms CHARGERDEBOUNCEDELAYMS s

/-- main.c lines 108-114. -/
def turnOffCharger (s : MCU) : MCU :=
  let s := log (Event.call Fn.turnOffCharger 0) s
  if isChargerOn s = 0 then s
  else
    let s := setPUEB (s.PUEB ||| 8) s      -- PUEB |= _BV(3)
    let s := setDDRB (s.DDRB &&& 0xF7) s   -- DDRB &= ~_BV(3)
    delay_ms DISCHARGEWAITDELAYMS s

/-- main.c lines 116-119. -/
def startADC (s : MCU) : MCU := setADCSRA (s.ADCSRA ||| 0x40) s

/-- main.c lines 121-124. -/
def adcInProgress (s : MCU) : Nat := s.ADCSRA &&& 0x40

/-- main.c lines 126-132. -/
def adcValue (s : MCU) : Nat := s.ADCL

/-- The converter finishing the conversion in progress: the 8-bit result is latched in
ADCL and the hardware clears ADSC, which is what ends the busy-wait of line 137. -/
def adcComplete (s : MCU) : MCU :=
  { s with ADCL := s.adcIn s.adcCount % 256,
           ADCSRA := s.ADCSRA &&& 0xBF,
           adcCount := s.adcCount + 1,
           trace := s.trace ++ [Event.adc (s.adcIn s.adcCount % 256)] }

/-- main.c lines 134-139.  The loop `while(adcInProgress());` has an empty body and
leaves when the converter completes. -/
def getAdcValueBusyWait (s : MCU) : Nat × MCU :=
  let s := log (Event.call Fn.getAdcValueBusyWait 0) s
  let s := startADC s
  let s := adcComplete s
  (adcValue s, s)

/-- main.c lines 141-147. -/
def transmitOneTick (s : MCU) : MCU :=
  let s := log (Event.call Fn.transmitOneTick 0) s
  let s := setPORTB (s.PORTB &&& 0xFB) s   -- PORTB &= ~_BV(2)
  let s := delay_us TRANSMITDELAYUS s
  let s := setPORTB (s.PORTB ||| 4) s      -- PORTB |= _BV(2)
  delay_us TRANSMITDELAYUS s

/-- main.c lines 149-155. -/
def triggerRead (s : MCU) : MCU :=
  let s := log (Event.call Fn.triggerRead 0) s
  let s := setPORTB (s.PORTB &&& 0xFB) s   -- PORTB &= ~_BV(2)
  let s := delay_us TRIGGERTIMEOUTUS s
  let s := setPORTB (s.PORTB ||| 4) s      -- PORTB |= _BV(2)
  delay_us TRANSMITDELAYUS s

/-- main.c lines 157-160. -/
def outputDataError (s : MCU) : MCU :=
  let s := log (Event.call Fn.outputDataError 0) s
  setPORTB (s.PORTB &&& 0xFB) s            -- PORTB &= ~_BV(2)

/-- The loop of main.c lines 165-169, entered with loop variable `i` and accumulator
`adcvalue`. -/
def averagingLoop : Nat → Int → Nat → MCU → Option (Nat × MCU)
  | 0, i, adcvalue, s => if i < ADCITERATIONS then none else some (adcvalue, s)
  | fuel + 1, i, adcvalue, s =>
    if i < ADCITERATIONS then
      let s := if i ≠ 0 then delay_ms ADCREADDELAYMS s else s
      let r := getAdcValueBusyWait s
      averagingLoop fuel (i + 1) ((adcvalue + r.1) % 65536) r.2
    else some (adcvalue, s)

/-- main.c lines 162-172. -/
def getAdcValueBusyWaitWithAveraging (s : MCU) : Option (Nat × MCU) :=
  let s := log (Event.call Fn.getAdcValueBusyWaitWithAveraging 0) s
  match averagingLoop 4 0 0 s with
  | none => none
  | some (adcvalue, s) => some (adcvalue / 4, s)

/-- The loop of main.c lines 184-187, entered with loop variable `j`. -/
def transmitLoop (adcvalue : Nat) : Nat → Nat → MCU → Option MCU
  | 0, j, s => if j < adcvalue then none else some s
  | fuel + 1, j, s =>
    if j < adcvalue then transmitLoop adcvalue fuel ((j + 1) % 65536) (transmitOneTick s)
    else some s

/-- main.c lines 174-190: 0 on success, 1 on error.  The parameter is an
`unsigned int`. -/
def transmitValue (adcvalue : Nat) (s : MCU) : Option (Nat × MCU) :=
  let s := log (Event.call Fn.transmitValue adcvalue) s
  if adcvalue ≥ MAXVOLTAGEADCVALUE ∨ adcvalue = 0 then
    some (1, outputDataError s)
  else
    match transmitLoop adcvalue adcvalue 0 (triggerRead s) with
    | none => none
    | some s => some (0, s)

/-! ## The main loop (main.c lines 204-252) -/

/-- Result of the probe-and-select step: the locals `adcInitialValue0`,
`adcFloatingValue`, `adcInitialValue1` and the machine. -/
structure Probe where
  adcInitialValue0 : Int
  adcFloatingValue : Int
  adcInitialValue1 : Int
  mcu : MCU

/-- main.c lines 206-218. -/
def probeAndSelect (s : MCU) : Probe :=
  let s := wdt_reset s
  let s := turnOnMux s
  let r0 := getAdcValueBusyWait s
  let adcInitialValue0 := toI16 r0.1
  let s := turnOffMux r0.2
  let rF := getAdcValueBusyWait s
  let adcFloatingValue := toI16 rF.1
  let s := turnOnMux rF.2
  let r1 := getAdcValueBusyWait s
  let adcInitialValue1 := toI16 r1.1
  let s := r1.2
  let s :=
    if adcInitialValue1 ≤ adcFloatingValue ∨
       (adcInitialValue0 < adcInitialValue1 ∧ adcInitialValue0 > adcFloatingValue)
    then toggleMux s else s
  { adcInitialValue0 := adcInitialValue0, adcFloatingValue := adcFloatingValue,
    adcInitialValue1 := adcInitialValue1, mcu := s }

/-- main.c lines 221-222: the value of `recheckMaxCount` after the two assignments.  The
operands are readings in [0,255], so the subtraction stays within `int`. -/
def recheckMaxCountOf (adcInitialValue0 adcInitialValue1 : Int) : Int :=
  let recheckMaxCount := adcInitialValue0 - adcInitialValue1
  if recheckMaxCount > 1 ∨ recheckMaxCount < -1 then RECHECKVOLTAGECOUNT
  else Int.tdiv RECHECKVOLTAGECOUNT 2

/-- main.c lines 239-243 without the test of `i`: watchdog reset, the averaged sample
less the offset held in `adcInitialValue0`, and the frame for it.  The result is what
`transmitValue` returns. -/
def monitorReport (adcInitialValue0 : Int) (s : MCU) : Option (Nat × MCU) :=
  let s := wdt_reset s
  match getAdcValueBusyWaitWithAveraging s with
  | none => none
  | some (a, s) =>
    let adcvalue : Int := toI16 (subU16 a (toU16 adcInitialValue0))
    transmitValue (toU16 adcvalue) s

/-- main.c lines 244-249: the power-down sleep between two reports. -/
def powerDownSleep (s : MCU) : MCU :=
  let s := setADCSRA (s.ADCSRA &&& 0x7F) s
  let s := setPRR 0x03 s
  let s := wdt_reset s
  let s := sleep_mode s
  let s := setPRR 0x00 s
  setADCSRA (s.ADCSRA ||| 0x80) s

/-- The loop of main.c lines 237-250, entered with loop variable `i`; the local
`adcInitialValue0` holds the offset. -/
def monitorLoop (recheckMaxCount adcInitialValue0 : Int) : Nat → Int → MCU → Option MCU
  | 0, i, s => if i ≤ recheckMaxCount then none else some s
  | fuel + 1, i, s =>
    if i ≤ recheckMaxCount then
      (monitorReport adcInitialValue0 s).bind fun r =>
        if r.1 ≠ 0 ∨ i = recheckMaxCount then some r.2   -- break
        else monitorLoop recheckMaxCount adcInitialValue0 fuel (i + 1) (powerDownSleep r.2)
    else some s

/-- main.c lines 231-251, the part of an iteration that follows a valid baseline: the
baseline report, the wait for the master, the charger switched on, the offset sample,
the monitoring loop and the charger switched off.  On entry `adcInitialValue0` holds
the baseline. -/
def chargeAndMonitor (recheckMaxCount adcInitialValue0 : Int) (s : MCU) : Option MCU :=
  let s := wdt_reset s
  (transmitValue (toU16 adcInitialValue0) s).bind fun r =>
    let s := delay_ms WAITFORMASTERDELAYMS r.2
    let s := turnOnCharger s
    (getAdcValueBusyWaitWithAveraging s).bind fun r =>
      let adcInitialValue0 : Int := toI16 (subU16 r.1 (toU16 adcInitialValue0))
      (monitorLoop recheckMaxCount adcInitialValue0 recheckMaxCount.toNat 1 r.2).bind fun s =>
        some (turnOffCharger s)

/-- One iteration of `while(1)`, main.c lines 206-251. -/
def cycle (s : MCU) : Option MCU :=
  let p := probeAndSelect s
  let recheckMaxCount := recheckMaxCountOf p.adcInitialValue0 p.adcInitialValue1
  (getAdcValueBusyWaitWithAveraging p.mcu).bind fun r =>
    let adcInitialValue0 : Int := toI16 r.1
    if adcInitialValue0 ≥ MAXVOLTAGEADCVALUE ∨ adcInitialValue0 = 0 then
      some (outputDataError r.2)   -- continue
    else chargeAndMonitor recheckMaxCount adcInitialValue0 r.2

/-- The first `n` iterations of `while(1)`. -/
def mainLoop : Nat → MCU → Option MCU
  | 0, s => some s
  | n + 1, s => (cycle s).bind (mainLoop n)

/-- main.c lines 198-253 up to the end of the n-th iteration of the loop. -/
def main (n : Nat) (s : MCU) : Option MCU := mainLoop n (initializeRegisters s)

/-! ## Reading the log -/

/-- The kind of an event: the event without its numeric argument. -/
inductive Kind
  | call (f : Fn)
  | write (r : Reg)
  | delay_ms | delay_us | wdt_reset | sleep_mode | adc
  deriving DecidableEq, Repr

def Event.kind : Event → Kind
  | Event.call f _ => Kind.call f
  | Event.write r _ => Kind.write r
  | Event.delay_ms _ => Kind.delay_ms
  | Event.delay_us _ => Kind.delay_us
  | Event.wdt_reset => Kind.wdt_reset
  | Event.sleep_mode => Kind.sleep_mode
  | Event.adc _ => Kind.adc

/-- The events logged between state `s` and a later state `t`. -/
def newEvents (s t : MCU) : List Event := t.trace.drop s.trace.length

/-- The content of register `r` after the events `evs`, when it held `d` before them. -/
def lastWrite (r : Reg) : Nat → List Event → Nat
  | d, [] => d
  | d, Event.write q v :: evs => lastWrite r (if q = r then v else d) evs
  | d, _ :: evs => lastWrite r d evs

/-- Number of conversions among the events. -/
def conversions (evs : List Event) : Nat := evs.countP (fun e => e.kind = Kind.adc)

/-- State `t` is reached from `s` by a run of the program: the log of `t` extends that
of `s`, the port registers of `t` are what the logged writes make of those of `s`, and
the conversions are the logged ones, on the same analog input. -/
structure Run (s t : MCU) : Prop where
  trace : t.trace = s.trace ++ newEvents s t
  PORTB : t.PORTB = lastWrite Reg.PORTB s.PORTB (newEvents s t)
  DDRB : t.DDRB = lastWrite Reg.DDRB s.DDRB (newEvents s t)
  PUEB : t.PUEB = lastWrite Reg.PUEB s.PUEB (newEvents s t)
  adcIn : t.adcIn = s.adcIn
  adcCount : t.adcCount = s.adcCount + conversions (newEvents s t)

/-- Every event logged between `s` and `t` has its kind in `K`. -/
def Within (K : List Kind) (s t : MCU) : Prop := ∀ e ∈ newEvents s t, e.kind ∈ K

/-- The arguments of the calls of `transmitValue` among the events, in order. -/
def transmitArgs (evs : List Event) : List Nat :=
  evs.filterMap fun e =>
    match e with
    | Event.call Fn.transmitValue v => some v
    | _ => none

/-- The truncated mean of the four conversions number `k`, `k+1`, `k+2`, `k+3`. -/
def avgAt (adcIn : Nat → Nat) (k : Nat) : Nat :=
  (adcIn k % 256 + adcIn (k + 1) % 256 + adcIn (k + 2) % 256 + adcIn (k + 3) % 256) / 4

/-- The kinds of events of `turnOnMux` and `turnOffMux`. -/
abbrev muxKinds : List Kind :=
  [Kind.call Fn.turnOnMux, Kind.call Fn.turnOffMux, Kind.write Reg.PORTB, Kind.delay_ms]

/-- The kinds of events of the two sampling functions. -/
abbrev adcKinds : List Kind :=
  [Kind.call Fn.getAdcValueBusyWait, Kind.call Fn.getAdcValueBusyWaitWithAveraging,
   Kind.write Reg.ADCSRA, Kind.adc, Kind.delay_ms]

/-- The kinds of events of `transmitValue` and the functions it calls. -/
abbrev frameKinds : List Kind :=
  [Kind.call Fn.transmitValue, Kind.call Fn.outputDataError, Kind.call Fn.triggerRead,
   Kind.call Fn.transmitOneTick, Kind.write Reg.PORTB, Kind.delay_us]

/-- The kinds of events of the monitoring loop: sampling, frames, and the power-down
sleep of lines 244-249. -/
abbrev monitorKinds : List Kind :=
  adcKinds ++ frameKinds ++
    [Kind.wdt_reset, Kind.write Reg.PRR, Kind.sleep_mode]

/-- The kinds of events of the probe-and-select step. -/
abbrev probeKinds : List Kind :=
  [Kind.wdt_reset, Kind.call Fn.turnOnMux, Kind.call Fn.turnOffMux, Kind.write Reg.PORTB,
   Kind.delay_ms, Kind.call Fn.getAdcValueBusyWait, Kind.write Reg.ADCSRA, Kind.adc]

/-- The events of one trigger pulse (`triggerRead`) when PORTB holds `p` before it. -/
def triggerEvents (p : Nat) : List Event :=
  [Event.call Fn.triggerRead 0, Event.write Reg.PORTB (p &&& 0xFB),
   Event.delay_us TRIGGERTIMEOUTUS, Event.write Reg.PORTB (p &&& 0xFB ||| 4),
   Event.delay_us TRANSMITDELAYUS]

/-- The events of one data pulse (`transmitOneTick`) when PORTB holds `p` before it. -/
def tickEvents (p : Nat) : List Event :=
  [Event.call Fn.transmitOneTick 0, Event.write Reg.PORTB (p &&& 0xFB),
   Event.delay_us TRANSMITDELAYUS, Event.write Reg.PORTB (p &&& 0xFB ||| 4),
   Event.delay_us TRANSMITDELAYUS]

/-- The events of the error signal (`outputDataError`) when PORTB holds `p` before it. -/
def errorEvents (p : Nat) : List Event :=
  [Event.call Fn.outputDataError 0, Event.write Reg.PORTB (p &&& 0xFB)]

/-- What a monitoring iteration hands to `transmitValue` when its averaged sample is made
of the conversions `k` to `k+3` and the offset is `off`: the 16-bit computation of
main.c line 240 followed by the conversion to the `unsigned int` parameter. -/
def compensated (off : Int) (adcIn : Nat → Nat) (k : Nat) : Nat :=
  toU16 (toI16 (subU16 (avgAt adcIn k) (toU16 off)))

/-- The validity rule of `transmitValue` and of main.c line 225. -/
abbrev Invalid (v : Nat) : Prop := v = 0 ∨ 232 ≤ v

/-- The events of `transmitValue v` when PORTB holds `p` before it: the entry of the
function, then the error signal or the trigger pulse and `v` data pulses. -/
def frameEvents (p v : Nat) : List Event :=
  Event.call Fn.transmitValue v ::
    (if v = 0 ∨ 232 ≤ v then errorEvents p
     else triggerEvents p ++ (List.replicate v (tickEvents p)).flatten)

/-- The events of the power-down sleep when ADCSRA holds `a` before it. -/
def sleepEvents (a : Nat) : List Event :=
  [Event.write Reg.ADCSRA (a &&& 0x7F), Event.write Reg.PRR 0x03, Event.wdt_reset,
   Event.sleep_mode, Event.write Reg.PRR 0x00, Event.write Reg.ADCSRA (a &&& 0x7F ||| 0x80)]

/-- The averaged baseline sample of the cycle that starts in state `s`: the probe step
takes three conversions, the baseline is the mean of the next four. -/
def baselineOCV (s : MCU) : Nat := avgAt s.adcIn (s.adcCount + 3)

/-- The averaged sample taken right after `turnOnCharger` in the cycle that starts in
state `s`: the mean of the four conversions after those of the baseline. -/
def chargingSample (s : MCU) : Nat := avgAt s.adcIn (s.adcCount + 7)

/-- The offset of the cycle that starts in state `s`, as main.c line 235 computes it. -/
def cycleOffset (s : MCU) : Int :=
  toI16 (subU16 (chargingSample s) (toU16 (toI16 (baselineOCV s))))

/-- What monitoring iteration `j + 1` of the cycle that starts in state `s` hands to
`transmitValue`. -/
def monitorValue (s : MCU) (j : Nat) : Nat :=
  compensated (cycleOffset s) s.adcIn (s.adcCount + 11 + 4 * j)

/-- The value of `recheckMaxCount` in the cycle that starts in state `s`. -/
def cycleInterval (s : MCU) : Int :=
  recheckMaxCountOf (probeAndSelect s).adcInitialValue0 (probeAndSelect s).adcInitialValue1

/-- The kinds of events of a cycle before its baseline report: the probe step and the
averaged baseline sample. -/
abbrev baselineKinds : List Kind :=
  Kind.call Fn.toggleMux :: Kind.call Fn.getAdcValueBusyWaitWithAveraging :: probeKinds

/-- The events `evs` are those of a monitoring phase of `m` reports with interval `N` in
the cycle that starts in state `s`. -/
structure MonitorRun (s : MCU) (N : Int) (evs : List Event) (m : Nat) : Prop where
  pos : 1 ≤ m
  le : (m : Int) ≤ N
  kinds : ∀ e ∈ evs, e.kind ∈ monitorKinds
  conv : conversions evs = 4 * m
  args : transmitArgs evs = (List.range m).map (monitorValue s)
  sleeps : evs.count Event.sleep_mode = m - 1
  valid : ∀ j, j + 1 < m → ¬ Invalid (monitorValue s j)
  stop : Invalid (monitorValue s (m - 1)) ∨ (m : Int) = N
  errors : evs.count (Event.call Fn.outputDataError 0) =
    if Invalid (monitorValue s (m - 1)) then 1 else 0
  last : Invalid (monitorValue s (m - 1)) →
    ∃ pre p, evs = pre ++ frameEvents p (monitorValue s (m - 1))

/-- The events of `turnOnCharger` when it is called with the registers as they are in
state `s`. -/
def chargerOnEvents (s : MCU) : List Event :=
  if isChargerOn s ≠ 0 then [Event.call Fn.turnOnCharger 0]
  else [Event.call Fn.turnOnCharger 0, Event.write Reg.PUEB (s.PUEB &&& 0xF7),
        Event.write Reg.DDRB (s.DDRB ||| 8), Event.delay_ms CHARGERDEBOUNCEDELAYMS]

/-- The events of `turnOffCharger` when it is called with the charger on and the
registers PUEB and DDRB holding `q` and `d`. -/
def chargerOffEvents (q d : Nat) : List Event :=
  [Event.call Fn.turnOffCharger 0, Event.write Reg.PUEB (q ||| 8),
   Event.write Reg.DDRB (d &&& 0xF7), Event.delay_ms DISCHARGEWAITDELAYMS]

/-- What `isChargerOn` reads once the events `evs` have followed state `s`. -/
def chargerAfter (s : MCU) (evs : List Event) : Nat := lastWrite Reg.DDRB s.DDRB evs &&& 8

/-- The report line as the microsecond delays find it: one segment (level, duration in
microseconds) for each `_delay_us` among the events, in order; the level is bit 2 of the
last value written to PORTB (`true` is high), and `lvl` before the first write. -/
def waveform : Bool → List Event → List (Bool × Nat)
  | _, [] => []
  | lvl, e :: evs =>
    match e with
    | Event.write r v =>
      if r = Reg.PORTB then waveform (decide (v &&& 4 ≠ 0)) evs else waveform lvl evs
    | Event.delay_us d => (lvl, d) :: waveform lvl evs
    | _ => waveform lvl evs

/-- The kinds of events of the conversions of an averaged sample and of the delays
between them. -/
abbrev sampleKinds : List Kind :=
  [Kind.call Fn.getAdcValueBusyWait, Kind.write Reg.ADCSRA, Kind.adc, Kind.delay_ms]

/-- A relation between states that holds along every step the main loop takes outside
the probe step: it is reflexive and transitive and relates the state before to the state
after each of the operations the loop is made of. -/
structure Closed (R : MCU → MCU → Prop) : Prop where
  refl : ∀ s, R s s
  trans : ∀ a b c, R a b → R b c → R a c
  wdt : ∀ s, R s (wdt_reset s)
  delay : ∀ n s, R s (delay_ms n s)
  sample : ∀ s, R s (getAdcValueBusyWait s).2
  entry : ∀ s, R s (log (Event.call Fn.getAdcValueBusyWaitWithAveraging 0) s)
  transmit : ∀ v s r t, transmitValue v s = some (r, t) → R s t
  error : ∀ s, R s (outputDataError s)
  chargerOn : ∀ s, R s (turnOnCharger s)
  chargerOff : ∀ s, R s (turnOffCharger s)
  sleep : ∀ s, R s (powerDownSleep s)

/-- A relation that also holds along the two operations on the mux, and so along every
step of the main loop. -/
structure ClosedMux (R : MCU → MCU → Prop) : Prop where
  core : Closed R
  toggle : ∀ s, R s (log (Event.call Fn.toggleMux 0) s)
  muxOn : ∀ s, R s (turnOnMux s)
  muxOff : ∀ s, R s (turnOffMux s)

/-- The state of the probe step after its third sample (main.c lines 206-212). -/
def probeSamples (s : MCU) : MCU :=
  (getAdcValueBusyWait (turnOnMux (getAdcValueBusyWait (turnOffMux
    (getAdcValueBusyWait (turnOnMux (wdt_reset s))).2)).2)).2

/-- The state in which `getAdcValueBusyWaitWithAveraging` returns: four conversions, with
a delay before each but the first. -/
def averagingState (s : MCU) : MCU :=
  (getAdcValueBusyWait (delay_ms ADCREADDELAYMS (getAdcValueBusyWait (delay_ms ADCREADDELAYMS
    (getAdcValueBusyWait (delay_ms ADCREADDELAYMS (getAdcValueBusyWait
      (log (Event.call Fn.getAdcValueBusyWaitWithAveraging 0) s)).2)).2)).2)).2

/-- One step of the reading of the log for the report line after an error signal.  The
flag says that `outputDataError` has been entered and `triggerRead` has not been entered
since.  The answer is `none` when, under this flag, a value with bit 2 set is written to
PORTB, that is when the report line rises. -/
def lineStep (b : Bool) (e : Event) : Option Bool :=
  match e with
  | Event.call f _ =>
    if f = Fn.outputDataError then some true
    else if f = Fn.triggerRead then some false else some b
  | Event.write r v => if r = Reg.PORTB ∧ b = true ∧ v &&& 4 ≠ 0 then none else some b
  | _ => some b

/-- The reading of a whole log, from the flag `b`; the result is the flag at the end. -/
def lineScan : Bool → List Event → Option Bool
  | b, [] => some b
  | b, e :: evs => (lineStep b e).bind fun c => lineScan c evs

/-- From `s` to `t` the report line does not rise after an error signal before the next
trigger: whenever the flag and a low report line go together in `s`, the log from `s` to
`t` reads without a rise, and the flag and a low report line go together in `t`. -/
def LineSafe (s t : MCU) : Prop :=
  Run s t ∧ ∀ b, (b = true → s.PORTB &&& 4 = 0) →
    ∃ c, lineScan b (newEvents s t) = some c ∧ (c = true → t.PORTB &&& 4 = 0)

/-- From `s` to `t` the mux stays on if it is on in `s`: it is on in `t`, and every value
written to PORTB in between has bit 1 set. -/
def MuxKept (s t : MCU) : Prop :=
  Run s t ∧ (isMuxOn s ≠ 0 →
    isMuxOn t ≠ 0 ∧ ∀ v, Event.write Reg.PORTB v ∈ newEvents s t → v &&& 2 ≠ 0)

/-- From `s` to `t` every call of `triggerRead` in the log comes right after the call of
`transmitValue` for a valid value (neither `0` nor `232` or more). -/
def TriggerFramed (s t : MCU) : Prop :=
  Run s t ∧ ∀ (pre post : List Event) (a : Nat),
    newEvents s t = pre ++ Event.call Fn.triggerRead a :: post →
      ∃ (pre1 : List Event) (v : Nat),
        pre = pre1 ++ [Event.call Fn.transmitValue v] ∧ 0 < v ∧ v < 232

/-- The analog input whose successive conversions read the values of the list `xs`
(and 0 after them). -/
def inputOf (xs : List Nat) : Nat → Nat := fun k => xs.getD k 0

/-- The machine at the head of the first iteration of the main loop: power-on followed
by `initializeRegisters`, on the analog input `inputOf xs`. -/
def startState (xs : List Nat) : MCU := initializeRegisters (reset (inputOf xs))

/-- The number of rising edges of the channel switch line (PB1) in the events, when PORTB
holds `p` before them: the writes of PORTB that set bit 1 while it was clear.  Each rising
edge connects the sampler to the other battery channel (main.c line 211: switching the
mux off and on again is how the probe step gets from the first battery to the second). -/
def muxPulses : Nat → List Event → Nat
  | _, [] => 0
  | p, Event.write r v :: evs =>
    if r = Reg.PORTB then (if p &&& 2 = 0 ∧ v &&& 2 ≠ 0 then 1 else 0) + muxPulses v evs
    else muxPulses p evs
  | p, _ :: evs => muxPulses p evs

/-- The state of the probe step after its first sample (main.c lines 206-208). -/
def probeFirst (s : MCU) : MCU := (getAdcValueBusyWait (turnOnMux (wdt_reset s))).2

/-- The probe reading of the channel that the probe step leaves selected, read off the
switching of PB1: the third reading is that of the channel selected when the third sample
is taken, and the first reading is that of the other channel.  When the rest of the probe
step (main.c lines 213-218) pulses PB1 an odd number of times, the mux is back on the
channel of the first reading; otherwise it is still on the channel of the third. -/
def selectedReading (s : MCU) : Int :=
  if muxPulses (probeSamples s).PORTB (newEvents (probeSamples s) (probeAndSelect s).mcu) % 2 = 1
  then (probeAndSelect s).adcInitialValue0
  else (probeAndSelect s).adcInitialValue1

/-! ## Lemmas on the log -/

theorem newEvents_of_trace {s t : MCU} {evs : List Event} (h : t.trace = s.trace ++ evs) :
    newEvents s t = evs := by
  simp [newEvents, h]

theorem newEvents_self (s : MCU) : newEvents s s = [] := by
  simp [newEvents]

theorem lastWrite_append (r : Reg) (d : Nat) (xs ys : List Event) :
    lastWrite r d (xs ++ ys) = lastWrite r (lastWrite r d xs) ys := by
  induction xs generalizing d with
  | nil => rfl
  | cons e xs ih => cases e <;> simp [lastWrite, ih]

theorem lastWrite_of_not_mem (r : Reg) (d : Nat) (evs : List Event)
    (h : ∀ e ∈ evs, e.kind ≠ Kind.write r) : lastWrite r d evs = d := by
  induction evs generalizing d with
  | nil => rfl
  | cons e xs ih =>
    have hx : ∀ e ∈ xs, e.kind ≠ Kind.write r := fun e he => h e (List.mem_cons_of_mem _ he)
    have he := h e (List.mem_cons_self _ _)
    cases e with
    | write q v =>
      have hq : q ≠ r := fun hqr => he (by simp [Event.kind, hqr])
      simp [lastWrite, hq, ih _ hx]
    | _ => simp [lastWrite, ih _ hx]

theorem conversions_append (xs ys : List Event) :
    conversions (xs ++ ys) = conversions xs + conversions ys := by
  simp [conversions, List.countP_append]

theorem Run.stay (s : MCU) : Run s s := by
  constructor <;> simp [newEvents_self, lastWrite, conversions]

theorem Run.of_eq {s t : MCU} (evs : List Event) (h1 : t.trace = s.trace ++ evs)
    (h2 : t.PORTB = lastWrite Reg.PORTB s.PORTB evs)
    (h3 : t.DDRB = lastWrite Reg.DDRB s.DDRB evs)
    (h4 : t.PUEB = lastWrite Reg.PUEB s.PUEB evs)
    (h5 : t.adcIn = s.adcIn) (h6 : t.adcCount = s.adcCount + conversions evs) : Run s t := by
  have h := newEvents_of_trace h1
  constructor <;> simp [h, *]

theorem newEvents_trans {a b c : MCU} (h1 : Run a b) (h2 : Run b c) :
    newEvents a c = newEvents a b ++ newEvents b c := by
  apply newEvents_of_trace
  rw [h2.trace, h1.trace, List.append_assoc]

theorem Run.andThen {a b c : MCU} (h1 : Run a b) (h2 : Run b c) : Run a c := by
  have h := newEvents_trans h1 h2
  refine Run.of_eq (newEvents a b ++ newEvents b c) ?_ ?_ ?_ ?_ ?_ ?_
  · rw [h2.trace, h1.trace, List.append_assoc]
  · rw [lastWrite_append, ← h1.PORTB, h2.PORTB]
  · rw [lastWrite_append, ← h1.DDRB, h2.DDRB]
  · rw [lastWrite_append, ← h1.PUEB, h2.PUEB]
  · rw [h2.adcIn, h1.adcIn]
  · rw [conversions_append, h2.adcCount, h1.adcCount, Nat.add_assoc]

theorem Within.refl (K : List Kind) (s : MCU) : Within K s s := by
  simp [Within, newEvents_self]

theorem Within.trans {K : List Kind} {a b c : MCU} (r1 : Run a b) (r2 : Run b c)
    (h1 : Within K a b) (h2 : Within K b c) : Within K a c := by
  intro e he
  rw [newEvents_trans r1 r2, List.mem_append] at he
  rcases he with he | he
  · exact h1 e he
  · exact h2 e he

theorem Within.mono {K L : List Kind} {s t : MCU} (h : Within K s t) (hKL : K ⊆ L) :
    Within L s t := fun e he => hKL (h e he)

theorem run_events {s t : MCU} (evs : List Event) (h1 : t.trace = s.trace ++ evs)
    (h2 : t.PORTB = lastWrite Reg.PORTB s.PORTB evs)
    (h3 : t.DDRB = lastWrite Reg.DDRB s.DDRB evs)
    (h4 : t.PUEB = lastWrite Reg.PUEB s.PUEB evs)
    (h5 : t.adcIn = s.adcIn) (h6 : t.adcCount = s.adcCount + conversions evs) :
    Run s t ∧ newEvents s t = evs :=
  ⟨Run.of_eq evs h1 h2 h3 h4 h5 h6, newEvents_of_trace h1⟩

theorem within_of_events {K : List Kind} {s t : MCU} {evs : List Event}
    (h : newEvents s t = evs) (hk : ∀ e ∈ evs, e.kind ∈ K) : Within K s t := by
  intro e he
  rw [h] at he
  exact hk e he

/-! ### The mux -/

theorem turnOnMux_on {s : MCU} (h : isMuxOn s ≠ 0) :
    turnOnMux s = log (Event.call Fn.turnOnMux 0) s := by
  have h2 : isMuxOn (log (Event.call Fn.turnOnMux 0) s) ≠ 0 := h
  unfold turnOnMux
  exact if_pos h2

theorem turnOnMux_off {s : MCU} (h : isMuxOn s = 0) :
    turnOnMux s = delay_ms MUXONDEBOUNCEDELAYMS
      (setPORTB (s.PORTB ||| 2) (log (Event.call Fn.turnOnMux 0) s)) := by
  have h2 : ¬ isMuxOn (log (Event.call Fn.turnOnMux 0) s) ≠ 0 := not_not.mpr h
  unfold turnOnMux
  exact if_neg h2

theorem turnOnMux_spec (s : MCU) :
    Run s (turnOnMux s) ∧ newEvents s (turnOnMux s) =
      if isMuxOn s ≠ 0 then [Event.call Fn.turnOnMux 0]
      else [Event.call Fn.turnOnMux 0, Event.write Reg.PORTB (s.PORTB ||| 2),
            Event.delay_ms MUXONDEBOUNCEDELAYMS] := by
  by_cases h : isMuxOn s ≠ 0
  · rw [turnOnMux_on h, if_pos h]
    exact run_events _ rfl rfl rfl rfl rfl rfl
  · rw [turnOnMux_off (not_not.mp h), if_neg h]
    exact run_events _ (by simp [delay_ms, log, setPORTB]) rfl rfl rfl rfl rfl

theorem turnOffMux_off {s : MCU} (h : isMuxOn s = 0) :
    turnOffMux s = log (Event.call Fn.turnOffMux 0) s := by
  have h2 : isMuxOn (log (Event.call Fn.turnOffMux 0) s) = 0 := h
  unfold turnOffMux
  exact if_pos h2

theorem turnOffMux_on {s : MCU} (h : isMuxOn s ≠ 0) :
    turnOffMux s = delay_ms MUXOFFDEBOUNCEDELAYMS
      (setPORTB (s.PORTB &&& 0xFD) (log (Event.call Fn.turnOffMux 0) s)) := by
  have h2 : ¬ isMuxOn (log (Event.call Fn.turnOffMux 0) s) = 0 := h
  unfold turnOffMux
  exact if_neg h2

theorem turnOffMux_spec (s : MCU) :
    Run s (turnOffMux s) ∧ newEvents s (turnOffMux s) =
      if isMuxOn s = 0 then [Event.call Fn.turnOffMux 0]
      else [Event.call Fn.turnOffMux 0, Event.write Reg.PORTB (s.PORTB &&& 0xFD),
            Event.delay_ms MUXOFFDEBOUNCEDELAYMS] := by
  by_cases h : isMuxOn s = 0
  · rw [turnOffMux_off h, if_pos h]
    exact run_events _ rfl rfl rfl rfl rfl rfl
  · rw [turnOffMux_on h, if_neg h]
    exact run_events _ (by simp [delay_ms, log, setPORTB]) rfl rfl rfl rfl rfl

theorem turnOnMux_within (s : MCU) : Within muxKinds s (turnOnMux s) := by
  apply within_of_events (turnOnMux_spec s).2
  split <;> simp [Event.kind]

theorem turnOffMux_within (s : MCU) : Within muxKinds s (turnOffMux s) := by
  apply within_of_events (turnOffMux_spec s).2
  split <;> simp [Event.kind]

theorem log_spec (e : Event) (s : MCU) (h1 : ∀ r, e.kind ≠ Kind.write r)
    (h2 : e.kind ≠ Kind.adc) : Run s (log e s) ∧ newEvents s (log e s) = [e] := by
  refine run_events [e] rfl ?_ ?_ ?_ rfl ?_
  · cases e <;> simp_all [lastWrite, Event.kind, log]
  · cases e <;> simp_all [lastWrite, Event.kind, log]
  · cases e <;> simp_all [lastWrite, Event.kind, log]
  · cases e <;> simp_all [conversions, Event.kind, log]

theorem toggleMux_run (s : MCU) : Run s (toggleMux s) := by
  unfold toggleMux
  exact ((log_spec _ s (by simp [Event.kind]) (by simp [Event.kind])).1.andThen
    (turnOffMux_spec _).1).andThen (turnOnMux_spec _).1

theorem toggleMux_events (s : MCU) :
    newEvents s (toggleMux s) = Event.call Fn.toggleMux 0 ::
      (newEvents (log (Event.call Fn.toggleMux 0) s)
          (turnOffMux (log (Event.call Fn.toggleMux 0) s)) ++
        newEvents (turnOffMux (log (Event.call Fn.toggleMux 0) s)) (toggleMux s)) := by
  have h1 := log_spec (Event.call Fn.toggleMux 0) s (by simp [Event.kind]) (by simp [Event.kind])
  have h2 := (turnOffMux_spec (log (Event.call Fn.toggleMux 0) s)).1
  have h3 : Run (turnOffMux (log (Event.call Fn.toggleMux 0) s)) (toggleMux s) :=
    (turnOnMux_spec _).1
  rw [newEvents_trans (h1.1.andThen h2) h3, newEvents_trans h1.1 h2, h1.2]
  rfl

theorem count_eq_zero_of_within {K : List Kind} {s t : MCU} (h : Within K s t) (e : Event)
    (he : e.kind ∉ K) : (newEvents s t).count e = 0 := by
  rw [List.count_eq_zero]
  intro hmem
  exact he (h e hmem)

/-! ### Bit facts -/

theorem and_FB_and_4 (p : Nat) : p &&& 0xFB &&& 4 = 0 := by
  rw [Nat.and_assoc, show (0xFB : Nat) &&& 4 = 0 by decide, Nat.and_zero]

theorem and_F7_and_8 (p : Nat) : p &&& 0xF7 &&& 8 = 0 := by
  rw [Nat.and_assoc, show (0xF7 : Nat) &&& 8 = 0 by decide, Nat.and_zero]

theorem and_FD_and_2 (p : Nat) : p &&& 0xFD &&& 2 = 0 := by
  rw [Nat.and_assoc, show (0xFD : Nat) &&& 2 = 0 by decide, Nat.and_zero]

theorem or_8_and_8 (p : Nat) : (p ||| 8) &&& 8 = 8 := by
  apply Nat.eq_of_testBit_eq
  intro i
  simp only [Nat.testBit_and, Nat.testBit_or]
  cases h : Nat.testBit 8 i <;> simp

theorem or_2_and_2 (p : Nat) : (p ||| 2) &&& 2 = 2 := by
  apply Nat.eq_of_testBit_eq
  intro i
  simp only [Nat.testBit_and, Nat.testBit_or]
  cases h : Nat.testBit 2 i <;> simp

theorem or_4_and_4 (p : Nat) : (p ||| 4) &&& 4 = 4 := by
  apply Nat.eq_of_testBit_eq
  intro i
  simp only [Nat.testBit_and, Nat.testBit_or]
  cases h : Nat.testBit 4 i <;> simp

theorem and_FB_or_4_and_FB (p : Nat) : (p &&& 0xFB ||| 4) &&& 0xFB = p &&& 0xFB := by
  apply Nat.eq_of_testBit_eq
  intro i
  simp only [Nat.testBit_and, Nat.testBit_or]
  have h : Nat.testBit 4 i = true → Nat.testBit 0xFB i = false := by
    intro h4
    have : i = 2 := by
      by_contra hne
      have : Nat.testBit 4 i = false := by
        rw [show (4:Nat) = 2 ^ 2 from rfl, Nat.testBit_two_pow]
        simp; omega
      simp [this] at h4
    subst this; rfl
  cases h4 : Nat.testBit 4 i
  · simp
  · simp [h h4]

/-! ### The charger -/

theorem turnOnCharger_on {s : MCU} (h : isChargerOn s ≠ 0) :
    turnOnCharger s = log (Event.call Fn.turnOnCharger 0) s := by
  have h2 : isChargerOn (log (Event.call Fn.turnOnCharger 0) s) ≠ 0 := h
  unfold turnOnCharger
  exact if_pos h2

theorem turnOnCharger_off {s : MCU} (h : isChargerOn s = 0) :
    turnOnCharger s = delay_ms CHARGERDEBOUNCEDELAYMS
      (setDDRB (s.DDRB ||| 8) (setPUEB (s.PUEB &&& 0xF7)
        (log (Event.call Fn.turnOnCharger 0) s))) := by
  have h2 : ¬ isChargerOn (log (Event.call Fn.turnOnCharger 0) s) ≠ 0 := not_not.mpr h
  unfold turnOnCharger
  exact if_neg h2

theorem turnOnCharger_spec (s : MCU) :
    Run s (turnOnCharger s) ∧ newEvents s (turnOnCharger s) =
      if isChargerOn s ≠ 0 then [Event.call Fn.turnOnCharger 0]
      else [Event.call Fn.turnOnCharger 0, Event.write Reg.PUEB (s.PUEB &&& 0xF7),
            Event.write Reg.DDRB (s.DDRB ||| 8), Event.delay_ms CHARGERDEBOUNCEDELAYMS] := by
  by_cases h : isChargerOn s ≠ 0
  · rw [turnOnCharger_on h, if_pos h]
    exact run_events _ rfl rfl rfl rfl rfl rfl
  · rw [turnOnCharger_off (not_not.mp h), if_neg h]
    exact run_events _ (by simp [delay_ms, log, setPUEB, setDDRB]) rfl rfl rfl rfl rfl

theorem turnOffCharger_off {s : MCU} (h : isChargerOn s = 0) :
    turnOffCharger s = log (Event.call Fn.turnOffCharger 0) s := by
  have h2 : isChargerOn (log (Event.call Fn.turnOffCharger 0) s) = 0 := h
  unfold turnOffCharger
  exact if_pos h2

theorem turnOffCharger_on {s : MCU} (h : isChargerOn s ≠ 0) :
    turnOffCharger s = delay_ms DISCHARGEWAITDELAYMS
      (setDDRB (s.DDRB &&& 0xF7) (setPUEB (s.PUEB ||| 8)
        (log (Event.call Fn.turnOffCharger 0) s))) := by
  have h2 : ¬ isChargerOn (log (Event.call Fn.turnOffCharger 0) s) = 0 := h
  unfold turnOffCharger
  exact if_neg h2

theorem turnOffCharger_spec (s : MCU) :
    Run s (turnOffCharger s) ∧ newEvents s (turnOffCharger s) =
      if isChargerOn s = 0 then [Event.call Fn.turnOffCharger 0]
      else [Event.call Fn.turnOffCharger 0, Event.write Reg.PUEB (s.PUEB ||| 8),
            Event.write Reg.DDRB (s.DDRB &&& 0xF7), Event.delay_ms DISCHARGEWAITDELAYMS] := by
  by_cases h : isChargerOn s = 0
  · rw [turnOffCharger_off h, if_pos h]
    exact run_events _ rfl rfl rfl rfl rfl rfl
  · rw [turnOffCharger_on h, if_neg h]
    exact run_events _ (by simp [delay_ms, log, setPUEB, setDDRB]) rfl rfl rfl rfl rfl

theorem isChargerOn_turnOffCharger (s : MCU) : isChargerOn (turnOffCharger s) = 0 := by
  by_cases h : isChargerOn s = 0
  · rw [turnOffCharger_off h]; exact h
  · rw [turnOffCharger_on h]; exact and_F7_and_8 s.DDRB

theorem isChargerOn_turnOnCharger (s : MCU) : isChargerOn (turnOnCharger s) ≠ 0 := by
  by_cases h : isChargerOn s ≠ 0
  · rw [turnOnCharger_on h]; exact h
  · rw [turnOnCharger_off (not_not.mp h)]
    show (s.DDRB ||| 8) &&& 8 ≠ 0
    rw [or_8_and_8]; decide

/-! ### Sampling -/

theorem getAdcValueBusyWait_spec (s : MCU) :
    (getAdcValueBusyWait s).1 = s.adcIn s.adcCount % 256 ∧
    Run s (getAdcValueBusyWait s).2 ∧
    newEvents s (getAdcValueBusyWait s).2 =
      [Event.call Fn.getAdcValueBusyWait 0, Event.write Reg.ADCSRA (s.ADCSRA ||| 0x40),
       Event.adc (s.adcIn s.adcCount % 256)] :=
  ⟨rfl, run_events _ (by simp [getAdcValueBusyWait, adcComplete, startADC, setADCSRA, log])
    rfl rfl rfl rfl rfl⟩

theorem getAdcValueBusyWait_within (s : MCU) : Within adcKinds s (getAdcValueBusyWait s).2 := by
  apply within_of_events (getAdcValueBusyWait_spec s).2.2
  simp [Event.kind]

/-! ### Frames -/

theorem transmitOneTick_spec (s : MCU) :
    Run s (transmitOneTick s) ∧ newEvents s (transmitOneTick s) = tickEvents s.PORTB ∧
    (transmitOneTick s).PORTB = s.PORTB &&& 0xFB ||| 4 :=
  ⟨Run.of_eq (tickEvents s.PORTB) (by simp [transmitOneTick, tickEvents, delay_us, log, setPORTB])
      rfl rfl rfl rfl rfl,
   newEvents_of_trace (by simp [transmitOneTick, tickEvents, delay_us, log, setPORTB]), rfl⟩

theorem triggerRead_spec (s : MCU) :
    Run s (triggerRead s) ∧ newEvents s (triggerRead s) = triggerEvents s.PORTB ∧
    (triggerRead s).PORTB = s.PORTB &&& 0xFB ||| 4 :=
  ⟨Run.of_eq (triggerEvents s.PORTB) (by simp [triggerRead, triggerEvents, delay_us, log, setPORTB])
      rfl rfl rfl rfl rfl,
   newEvents_of_trace (by simp [triggerRead, triggerEvents, delay_us, log, setPORTB]), rfl⟩

theorem outputDataError_spec (s : MCU) :
    Run s (outputDataError s) ∧ newEvents s (outputDataError s) = errorEvents s.PORTB ∧
    (outputDataError s).PORTB = s.PORTB &&& 0xFB :=
  ⟨Run.of_eq (errorEvents s.PORTB) (by simp [outputDataError, errorEvents, log, setPORTB])
      rfl rfl rfl rfl rfl,
   newEvents_of_trace (by simp [outputDataError, errorEvents, log, setPORTB]), rfl⟩

theorem tickEvents_idle (p : Nat) : tickEvents (p &&& 0xFB ||| 4) = tickEvents p := by
  simp [tickEvents, and_FB_or_4_and_FB]

/-- The loop of `transmitValue` with enough fuel runs `transmitOneTick` once for every
value of `j` below `adcvalue`. -/
theorem transmitLoop_spec (adcvalue : Nat) (hv : adcvalue < 65536) :
    ∀ (fuel j : Nat) (s : MCU), j ≤ adcvalue → adcvalue - j ≤ fuel →
      transmitLoop adcvalue fuel j s = some (transmitOneTick^[adcvalue - j] s) := by
  intro fuel
  induction fuel with
  | zero =>
    intro j s hj hf
    have : adcvalue - j = 0 := by omega
    simp [transmitLoop, this]
    omega
  | succ n ih =>
    intro j s hj hf
    by_cases hlt : j < adcvalue
    · have h1 : (j + 1) % 65536 = j + 1 := Nat.mod_eq_of_lt (by omega)
      have h2 : adcvalue - j = (adcvalue - (j + 1)) + 1 := by omega
      simp only [transmitLoop, hlt, if_true, h1]
      rw [ih (j + 1) _ (by omega) (by omega), h2, Function.iterate_succ_apply]
    · have : adcvalue - j = 0 := by omega
      simp [transmitLoop, hlt, this]

theorem iterate_tick_spec (n : Nat) (s : MCU) :
    Run s (transmitOneTick^[n] s) ∧
    newEvents s (transmitOneTick^[n] s) = (List.replicate n (tickEvents s.PORTB)).flatten := by
  induction n generalizing s with
  | zero => exact ⟨Run.stay s, by simp [newEvents_self]⟩
  | succ n ih =>
    rw [Function.iterate_succ_apply]
    have h1 := transmitOneTick_spec s
    have h2 := ih (transmitOneTick s)
    refine ⟨h1.1.andThen h2.1, ?_⟩
    rw [newEvents_trans h1.1 h2.1, h1.2.1, h2.2, h1.2.2, tickEvents_idle]
    simp [List.replicate_succ]

theorem transmitValue_error {v : Nat} (h : v = 0 ∨ 232 ≤ v) (s : MCU) :
    transmitValue v s = some (1, outputDataError (log (Event.call Fn.transmitValue v) s)) := by
  have h2 : v ≥ MAXVOLTAGEADCVALUE ∨ v = 0 := h.symm
  unfold transmitValue
  exact if_pos h2

theorem transmitValue_valid {v : Nat} (h : ¬ (v = 0 ∨ 232 ≤ v)) (s : MCU) :
    transmitValue v s =
      some (0, transmitOneTick^[v] (triggerRead (log (Event.call Fn.transmitValue v) s))) := by
  have h2 : ¬ (v ≥ MAXVOLTAGEADCVALUE ∨ v = 0) := fun h3 => h h3.symm
  have h3 := transmitLoop_spec v (by omega) v 0
    (triggerRead (log (Event.call Fn.transmitValue v) s)) (Nat.zero_le _) (by omega)
  unfold transmitValue
  simp only [h2, if_false]
  rw [h3]
  rfl

theorem transmitValue_spec (v : Nat) (s : MCU) :
    ∃ r t, transmitValue v s = some (r, t) ∧ Run s t ∧
      newEvents s t = Event.call Fn.transmitValue v ::
        (if v = 0 ∨ 232 ≤ v then errorEvents s.PORTB
         else triggerEvents s.PORTB ++ (List.replicate v (tickEvents s.PORTB)).flatten) ∧
      r = (if v = 0 ∨ 232 ≤ v then 1 else 0) := by
  have h0 := log_spec (Event.call Fn.transmitValue v) s (by simp [Event.kind])
    (by simp [Event.kind])
  by_cases h : v = 0 ∨ 232 ≤ v
  · have h1 := outputDataError_spec (log (Event.call Fn.transmitValue v) s)
    refine ⟨1, _, transmitValue_error h s, h0.1.andThen h1.1, ?_, by rw [if_pos h]⟩
    rw [newEvents_trans h0.1 h1.1, h0.2, h1.2.1, if_pos h]
    rfl
  · have h1 := triggerRead_spec (log (Event.call Fn.transmitValue v) s)
    have h2 := iterate_tick_spec v (triggerRead (log (Event.call Fn.transmitValue v) s))
    refine ⟨0, _, transmitValue_valid h s, (h0.1.andThen h1.1).andThen h2.1, ?_, by rw [if_neg h]⟩
    rw [newEvents_trans (h0.1.andThen h1.1) h2.1, newEvents_trans h0.1 h1.1, h0.2, h1.2.1, h2.2,
      h1.2.2, tickEvents_idle, if_neg h]
    rfl

theorem delay_ms_spec (n : Nat) (s : MCU) :
    Run s (delay_ms n s) ∧ newEvents s (delay_ms n s) = [Event.delay_ms n] :=
  log_spec _ s (by simp [Event.kind]) (by simp [Event.kind])

theorem wdt_reset_spec (s : MCU) :
    Run s (wdt_reset s) ∧ newEvents s (wdt_reset s) = [Event.wdt_reset] :=
  log_spec _ s (by simp [Event.kind]) (by simp [Event.kind])

theorem within_log {K : List Kind} (e : Event) (s : MCU) (h1 : ∀ r, e.kind ≠ Kind.write r)
    (h2 : e.kind ≠ Kind.adc) (hk : e.kind ∈ K) : Within K s (log e s) := by
  apply within_of_events (log_spec e s h1 h2).2
  simpa using hk

/-- One more sample of the averaging loop: a delay, then a conversion. -/
theorem delayed_sample_spec (s : MCU) :
    Run s (getAdcValueBusyWait (delay_ms ADCREADDELAYMS s)).2 ∧
    Within adcKinds s (getAdcValueBusyWait (delay_ms ADCREADDELAYMS s)).2 := by
  have h1 := delay_ms_spec ADCREADDELAYMS s
  have h2 := getAdcValueBusyWait_spec (delay_ms ADCREADDELAYMS s)
  refine ⟨h1.1.andThen h2.2.1, Within.trans h1.1 h2.2.1 ?_ (getAdcValueBusyWait_within _)⟩
  exact within_of_events h1.2 (by simp [Event.kind])

theorem getAdcValueBusyWaitWithAveraging_spec (s : MCU) :
    ∃ t, getAdcValueBusyWaitWithAveraging s = some (avgAt s.adcIn s.adcCount, t) ∧
      Run s t ∧ Within adcKinds s t ∧ conversions (newEvents s t) = 4 := by
  have h0 := log_spec (Event.call Fn.getAdcValueBusyWaitWithAveraging 0) s
    (by simp [Event.kind]) (by simp [Event.kind])
  have w0 : Within adcKinds s (log (Event.call Fn.getAdcValueBusyWaitWithAveraging 0) s) :=
    within_of_events h0.2 (by simp [Event.kind])
  have h1 := getAdcValueBusyWait_spec (log (Event.call Fn.getAdcValueBusyWaitWithAveraging 0) s)
  have w1 := getAdcValueBusyWait_within (log (Event.call Fn.getAdcValueBusyWaitWithAveraging 0) s)
  have h2 := delayed_sample_spec
    (getAdcValueBusyWait (log (Event.call Fn.getAdcValueBusyWaitWithAveraging 0) s)).2
  have h3 := delayed_sample_spec (getAdcValueBusyWait (delay_ms ADCREADDELAYMS
    (getAdcValueBusyWait (log (Event.call Fn.getAdcValueBusyWaitWithAveraging 0) s)).2)).2
  have h4 := delayed_sample_spec (getAdcValueBusyWait (delay_ms ADCREADDELAYMS
    (getAdcValueBusyWait (delay_ms ADCREADDELAYMS
    (getAdcValueBusyWait (log (Event.call Fn.getAdcValueBusyWaitWithAveraging 0) s)).2)).2)).2
  have r1 := h0.1.andThen h1.2.1
  have r2 := r1.andThen h2.1
  have r3 := r2.andThen h3.1
  have r4 := r3.andThen h4.1
  have q1 := Within.trans h0.1 h1.2.1 w0 w1
  have q2 := Within.trans r1 h2.1 q1 h2.2
  have q3 := Within.trans r2 h3.1 q2 h3.2
  have q4 := Within.trans r3 h4.1 q3 h4.2
  refine ⟨_, ?_, r4, q4, ?_⟩
  · simp only [getAdcValueBusyWaitWithAveraging, averagingLoop, ADCITERATIONS]
    simp only [avgAt]
    have e1 : (getAdcValueBusyWait (log (Event.call Fn.getAdcValueBusyWaitWithAveraging 0) s)).1
      = s.adcIn s.adcCount % 256 := rfl
    have e2 : (getAdcValueBusyWait (delay_ms ADCREADDELAYMS
      (getAdcValueBusyWait (log (Event.call Fn.getAdcValueBusyWaitWithAveraging 0) s)).2)).1
      = s.adcIn (s.adcCount + 1) % 256 := rfl
    have e3 : (getAdcValueBusyWait (delay_ms ADCREADDELAYMS (getAdcValueBusyWait (delay_ms ADCREADDELAYMS
      (getAdcValueBusyWait (log (Event.call Fn.getAdcValueBusyWaitWithAveraging 0) s)).2)).2)).1
      = s.adcIn (s.adcCount + 2) % 256 := rfl
    have e4 : (getAdcValueBusyWait (delay_ms ADCREADDELAYMS (getAdcValueBusyWait (delay_ms ADCREADDELAYMS (getAdcValueBusyWait (delay_ms ADCREADDELAYMS
      (getAdcValueBusyWait (log (Event.call Fn.getAdcValueBusyWaitWithAveraging 0) s)).2)).2)).2)).1
      = s.adcIn (s.adcCount + 3) % 256 := rfl
    norm_num
    rw [e1, e2, e3, e4]
    omega
  · have := r4.adcCount
    have e : (getAdcValueBusyWait (delay_ms ADCREADDELAYMS (getAdcValueBusyWait (delay_ms ADCREADDELAYMS (getAdcValueBusyWait (delay_ms ADCREADDELAYMS
      (getAdcValueBusyWait (log (Event.call Fn.getAdcValueBusyWaitWithAveraging 0) s)).2)).2)).2)).2.adcCount
      = s.adcCount + 4 := rfl
    omega

theorem conversions_eq_zero {evs : List Event} (h : ∀ e ∈ evs, e.kind ≠ Kind.adc) :
    conversions evs = 0 := by
  unfold conversions
  rw [List.countP_eq_zero]
  intro e he
  simpa using h e he

theorem adcCount_of_within {K : List Kind} {s t : MCU} (r : Run s t) (h : Within K s t)
    (hk : Kind.adc ∉ K) : t.adcCount = s.adcCount := by
  rw [r.adcCount, conversions_eq_zero, Nat.add_zero]
  intro e he hadc
  exact hk (hadc ▸ h e he)

theorem reg_of_within {K : List Kind} {s t : MCU} (r : Run s t) (h : Within K s t) :
    (Kind.write Reg.PORTB ∉ K → t.PORTB = s.PORTB) ∧
    (Kind.write Reg.DDRB ∉ K → t.DDRB = s.DDRB) ∧
    (Kind.write Reg.PUEB ∉ K → t.PUEB = s.PUEB) := by
  refine ⟨fun hk => ?_, fun hk => ?_, fun hk => ?_⟩
  · rw [r.PORTB, lastWrite_of_not_mem]
    intro e he hw
    exact hk (hw ▸ h e he)
  · rw [r.DDRB, lastWrite_of_not_mem]
    intro e he hw
    exact hk (hw ▸ h e he)
  · rw [r.PUEB, lastWrite_of_not_mem]
    intro e he hw
    exact hk (hw ▸ h e he)

theorem toI16_byte (x : Nat) : toI16 (x % 256) = ((x % 256 : Nat) : Int) := by
  unfold toI16
  omega

theorem toggleMux_within (s : MCU) :
    Within (Kind.call Fn.toggleMux :: muxKinds) s (toggleMux s) := by
  have h1 := log_spec (Event.call Fn.toggleMux 0) s (by simp [Event.kind]) (by simp [Event.kind])
  have h2 := turnOffMux_spec (log (Event.call Fn.toggleMux 0) s)
  have h3 := turnOnMux_spec (turnOffMux (log (Event.call Fn.toggleMux 0) s))
  have w1 : Within (Kind.call Fn.toggleMux :: muxKinds) s (log (Event.call Fn.toggleMux 0) s) :=
    within_of_events h1.2 (by simp [Event.kind])
  have w2 := (turnOffMux_within (log (Event.call Fn.toggleMux 0) s)).mono
    (List.subset_cons_self (Kind.call Fn.toggleMux) muxKinds)
  have w3 := (turnOnMux_within (turnOffMux (log (Event.call Fn.toggleMux 0) s))).mono
    (List.subset_cons_self (Kind.call Fn.toggleMux) muxKinds)
  exact Within.trans (h1.1.andThen h2.1) h3.1 (Within.trans h1.1 h2.1 w1 w2) w3

theorem toggleMux_count (s : MCU) :
    (newEvents s (toggleMux s)).count (Event.call Fn.toggleMux 0) = 1 := by
  rw [toggleMux_events, List.count_cons_self, List.count_append,
    count_eq_zero_of_within (turnOffMux_within _) _ (by simp [Event.kind]),
    show toggleMux s = turnOnMux (turnOffMux (log (Event.call Fn.toggleMux 0) s)) from rfl,
    count_eq_zero_of_within (turnOnMux_within _) _ (by simp [Event.kind])]

/-- The probe step up to the third sample (main.c lines 206-212). -/
theorem probe_samples_spec (s : MCU) :
    ∃ t, Run s t ∧ Within probeKinds s t ∧ conversions (newEvents s t) = 3 ∧
      (newEvents s t).count (Event.call Fn.toggleMux 0) = 0 ∧
      probeAndSelect s =
        { adcInitialValue0 := ((s.adcIn s.adcCount % 256 : Nat) : Int),
          adcFloatingValue := ((s.adcIn (s.adcCount + 1) % 256 : Nat) : Int),
          adcInitialValue1 := ((s.adcIn (s.adcCount + 2) % 256 : Nat) : Int),
          mcu := if s.adcIn (s.adcCount + 2) % 256 ≤ s.adcIn (s.adcCount + 1) % 256 ∨
                  (s.adcIn s.adcCount % 256 < s.adcIn (s.adcCount + 2) % 256 ∧
                   s.adcIn s.adcCount % 256 > s.adcIn (s.adcCount + 1) % 256)
                 then toggleMux t else t } := by
  have a1 := wdt_reset_spec s
  have w1 : Within probeKinds s (wdt_reset s) := within_of_events a1.2 (by simp [Event.kind])
  have a2 := turnOnMux_spec (wdt_reset s)
  have w2 := (turnOnMux_within (wdt_reset s)).mono (show muxKinds ⊆ probeKinds by decide)
  have a3 := getAdcValueBusyWait_spec (turnOnMux (wdt_reset s))
  have w3 : Within probeKinds _ _ := within_of_events a3.2.2 (by simp [Event.kind])
  have a4 := turnOffMux_spec (getAdcValueBusyWait (turnOnMux (wdt_reset s))).2
  have w4 := (turnOffMux_within (getAdcValueBusyWait (turnOnMux (wdt_reset s))).2).mono
    (show muxKinds ⊆ probeKinds by decide)
  have a5 := getAdcValueBusyWait_spec
    (turnOffMux (getAdcValueBusyWait (turnOnMux (wdt_reset s))).2)
  have w5 : Within probeKinds _ _ := within_of_events a5.2.2 (by simp [Event.kind])
  have a6 := turnOnMux_spec (getAdcValueBusyWait
    (turnOffMux (getAdcValueBusyWait (turnOnMux (wdt_reset s))).2)).2
  have w6 := (turnOnMux_within (getAdcValueBusyWait
    (turnOffMux (getAdcValueBusyWait (turnOnMux (wdt_reset s))).2)).2).mono
    (show muxKinds ⊆ probeKinds by decide)
  have a7 := getAdcValueBusyWait_spec (turnOnMux (getAdcValueBusyWait
    (turnOffMux (getAdcValueBusyWait (turnOnMux (wdt_reset s))).2)).2)
  have w7 : Within probeKinds _ _ := within_of_events a7.2.2 (by simp [Event.kind])
  have r2 := a1.1.andThen a2.1
  have r3 := r2.andThen a3.2.1
  have r4 := r3.andThen a4.1
  have r5 := r4.andThen a5.2.1
  have r6 := r5.andThen a6.1
  have r7 := r6.andThen a7.2.1
  have q2 := Within.trans a1.1 a2.1 w1 w2
  have q3 := Within.trans r2 a3.2.1 q2 w3
  have q4 := Within.trans r3 a4.1 q3 w4
  have q5 := Within.trans r4 a5.2.1 q4 w5
  have q6 := Within.trans r5 a6.1 q5 w6
  have q7 := Within.trans r6 a7.2.1 q6 w7
  -- the conversion counter at each of the three samples
  have c2' := adcCount_of_within a2.1 (turnOnMux_within _) (by decide)
  have c2 : (turnOnMux (wdt_reset s)).adcCount = s.adcCount := c2'
  have i2 : (turnOnMux (wdt_reset s)).adcIn = s.adcIn := a2.1.adcIn
  have c4 : (turnOffMux (getAdcValueBusyWait (turnOnMux (wdt_reset s))).2).adcCount
      = s.adcCount + 1 := by
    rw [adcCount_of_within a4.1 (turnOffMux_within _) (by decide)]
    show (turnOnMux (wdt_reset s)).adcCount + 1 = _
    rw [c2]
  have i4 : (turnOffMux (getAdcValueBusyWait (turnOnMux (wdt_reset s))).2).adcIn = s.adcIn := by
    rw [a4.1.adcIn]
    exact i2
  have c6 : (turnOnMux (getAdcValueBusyWait
      (turnOffMux (getAdcValueBusyWait (turnOnMux (wdt_reset s))).2)).2).adcCount
      = s.adcCount + 2 := by
    rw [adcCount_of_within a6.1 (turnOnMux_within _) (by decide)]
    show (turnOffMux (getAdcValueBusyWait (turnOnMux (wdt_reset s))).2).adcCount + 1 = _
    rw [c4]
  have i6 : (turnOnMux (getAdcValueBusyWait
      (turnOffMux (getAdcValueBusyWait (turnOnMux (wdt_reset s))).2)).2).adcIn = s.adcIn := by
    rw [a6.1.adcIn]
    exact i4
  have v0 := a3.1
  have vF := a5.1
  have v1 := a7.1
  rw [c2, i2] at v0
  rw [c4, i4] at vF
  rw [c6, i6] at v1
  refine ⟨_, r7, q7, ?_, count_eq_zero_of_within q7 _ (by simp [Event.kind]), ?_⟩
  · have h := r7.adcCount
    have h7 : (getAdcValueBusyWait (turnOnMux (getAdcValueBusyWait
      (turnOffMux (getAdcValueBusyWait (turnOnMux (wdt_reset s))).2)).2)).2.adcCount
      = s.adcCount + 3 := by
      show (turnOnMux (getAdcValueBusyWait
        (turnOffMux (getAdcValueBusyWait (turnOnMux (wdt_reset s))).2)).2).adcCount + 1 = _
      rw [c6]
    omega
  · unfold probeAndSelect
    simp only [v0, vF, v1, toI16_byte]
    simp only [Nat.cast_le, Nat.cast_lt, gt_iff_lt]

theorem count_ticks (e : Event) (p n : Nat) :
    ((List.replicate n (tickEvents p)).flatten).count e = n * (tickEvents p).count e := by
  induction n with
  | zero => simp
  | succ n ih => simp [List.replicate_succ, List.count_append, ih, Nat.succ_mul, Nat.add_comm]

/-- The probe step as a whole (main.c lines 206-218). -/
theorem probeAndSelect_spec (s : MCU) :
    Run s (probeAndSelect s).mcu ∧
    Within (Kind.call Fn.toggleMux :: probeKinds) s (probeAndSelect s).mcu ∧
    conversions (newEvents s (probeAndSelect s).mcu) = 3 ∧
    (probeAndSelect s).adcInitialValue0 = ((s.adcIn s.adcCount % 256 : Nat) : Int) ∧
    (probeAndSelect s).adcFloatingValue = ((s.adcIn (s.adcCount + 1) % 256 : Nat) : Int) ∧
    (probeAndSelect s).adcInitialValue1 = ((s.adcIn (s.adcCount + 2) % 256 : Nat) : Int) ∧
    (newEvents s (probeAndSelect s).mcu).count (Event.call Fn.toggleMux 0) =
      if s.adcIn (s.adcCount + 2) % 256 ≤ s.adcIn (s.adcCount + 1) % 256 ∨
          (s.adcIn s.adcCount % 256 < s.adcIn (s.adcCount + 2) % 256 ∧
           s.adcIn s.adcCount % 256 > s.adcIn (s.adcCount + 1) % 256)
      then 1 else 0 := by
  obtain ⟨t, r, w, c, z, h⟩ := probe_samples_spec s
  have w' := w.mono (List.subset_cons_self (Kind.call Fn.toggleMux) probeKinds)
  rw [h]
  refine ⟨?_, ?_, ?_, rfl, rfl, rfl, ?_⟩
  · show Run s (if _ then _ else _)
    split
    · exact r.andThen (toggleMux_run t)
    · exact r
  · show Within _ s (if _ then _ else _)
    split
    · exact Within.trans r (toggleMux_run t) w'
        ((toggleMux_within t).mono (by decide))
    · exact w'
  · show conversions (newEvents s (if _ then _ else _)) = 3
    split
    · rw [newEvents_trans r (toggleMux_run t), conversions_append, c, conversions_eq_zero]
      intro e he hk
      have := toggleMux_within t e he
      rw [hk] at this
      revert this
      decide
    · exact c
  · show (newEvents s (if _ then _ else _)).count _ = _
    split
    · rw [newEvents_trans r (toggleMux_run t), List.count_append, z, toggleMux_count]
    · exact z

/-- C1: `transmitValue v` always returns; it returns 1 exactly when `v = 0` or `v ≥ 232`,
and then all it does is the error signal (one call of `outputDataError`, which writes
PORTB with bit 2 cleared, no trigger and no data pulse); otherwise it returns 0 and
what it does is one trigger pulse followed by exactly `v` data pulses, the machine being
the one reached by `triggerRead` followed by `v` calls of `transmitOneTick`. -/
theorem transmitValue_error_iff (v : Nat) (s : MCU) :
    ∃ r t, transmitValue v s = some (r, t) ∧
      (r = 1 ↔ (v = 0 ∨ 232 ≤ v)) ∧ (r = 0 ↔ ¬ (v = 0 ∨ 232 ≤ v)) ∧
      (Event.call Fn.outputDataError 0 ∈ newEvents s t ↔ (v = 0 ∨ 232 ≤ v)) ∧
      ((v = 0 ∨ 232 ≤ v) →
        newEvents s t = [Event.call Fn.transmitValue v, Event.call Fn.outputDataError 0,
          Event.write Reg.PORTB (s.PORTB &&& 0xFB)] ∧
        t.PORTB &&& 4 = 0) ∧
      (¬ (v = 0 ∨ 232 ≤ v) →
        newEvents s t = Event.call Fn.transmitValue v ::
          (triggerEvents s.PORTB ++ (List.replicate v (tickEvents s.PORTB)).flatten) ∧
        (newEvents s t).count (Event.call Fn.triggerRead 0) = 1 ∧
        (newEvents s t).count (Event.call Fn.transmitOneTick 0) = v ∧
        t = transmitOneTick^[v] (triggerRead (log (Event.call Fn.transmitValue v) s))) := by
  by_cases h : v = 0 ∨ 232 ≤ v
  · obtain ⟨r, t, h1, -, h3, h4⟩ := transmitValue_spec v s
    rw [if_pos h] at h3 h4
    have ht : t = outputDataError (log (Event.call Fn.transmitValue v) s) := by
      have := transmitValue_error h s
      rw [h1] at this
      exact (Prod.mk.inj (Option.some.inj this)).2
    refine ⟨r, t, h1, ?_, ?_, ?_, fun _ => ⟨?_, ?_⟩, fun hn => absurd h hn⟩
    · simp [h4, h]
    · simp [h4, h]
    · simp [h3, h, errorEvents]
    · rw [h3]; rfl
    · rw [ht]
      exact and_FB_and_4 s.PORTB
  · obtain ⟨r, t, h1, -, h3, h4⟩ := transmitValue_spec v s
    rw [if_neg h] at h3 h4
    have ht : t = transmitOneTick^[v] (triggerRead (log (Event.call Fn.transmitValue v) s)) := by
      have := transmitValue_valid h s
      rw [h1] at this
      exact (Prod.mk.inj (Option.some.inj this)).2
    refine ⟨r, t, h1, ?_, ?_, ?_, fun hp => absurd hp h, fun _ => ⟨h3, ?_, ?_, ht⟩⟩
    · simp [h4, h]
    · simp [h4, h]
    · rw [h3]
      simp only [h, iff_false]
      intro hmem
      have hc : (Event.call Fn.transmitValue v ::
          (triggerEvents s.PORTB ++ (List.replicate v (tickEvents s.PORTB)).flatten)).count
          (Event.call Fn.outputDataError 0) = 0 := by
        rw [List.count_cons, List.count_append, count_ticks]
        simp [triggerEvents, tickEvents]
      exact (List.count_eq_zero.mp hc) hmem
    · rw [h3, List.count_cons, List.count_append, count_ticks]
      simp [triggerEvents, tickEvents]
    · rw [h3, List.count_cons, List.count_append, count_ticks]
      simp [triggerEvents, tickEvents]

/-- C2: when the three probe readings of a cycle are `v0`, `vFloat`, `v1` (each in
[0,255]), the probe step calls `toggleMux` once if `v1 ≤ vFloat` or
(`v0 < v1` and `v0 > vFloat`), and does not call it otherwise. -/
theorem probe_toggles_iff (s : MCU) (v0 vFloat v1 : Nat)
    (h0 : s.adcIn s.adcCount = v0) (hF : s.adcIn (s.adcCount + 1) = vFloat)
    (h1 : s.adcIn (s.adcCount + 2) = v1)
    (b0 : v0 ≤ 255) (bF : vFloat ≤ 255) (b1 : v1 ≤ 255) :
    (probeAndSelect s).adcInitialValue0 = (v0 : Int) ∧
    (probeAndSelect s).adcFloatingValue = (vFloat : Int) ∧
    (probeAndSelect s).adcInitialValue1 = (v1 : Int) ∧
    ((newEvents s (probeAndSelect s).mcu).count (Event.call Fn.toggleMux 0) = 1 ↔
      (v1 ≤ vFloat ∨ (v0 < v1 ∧ v0 > vFloat))) ∧
    ((newEvents s (probeAndSelect s).mcu).count (Event.call Fn.toggleMux 0) = 0 ↔
      ¬ (v1 ≤ vFloat ∨ (v0 < v1 ∧ v0 > vFloat))) := by
  obtain ⟨-, -, -, e0, eF, e1, hc⟩ := probeAndSelect_spec s
  have m0 : v0 % 256 = v0 := Nat.mod_eq_of_lt (by omega)
  have mF : vFloat % 256 = vFloat := Nat.mod_eq_of_lt (by omega)
  have m1 : v1 % 256 = v1 := Nat.mod_eq_of_lt (by omega)
  rw [h0, hF, h1, m0, mF, m1] at hc
  rw [h0, m0] at e0
  rw [hF, mF] at eF
  rw [h1, m1] at e1
  refine ⟨e0, eF, e1, ?_, ?_⟩
  · rw [hc]; split <;> simp [*]
  · rw [hc]; split <;> simp [*]

/-- C2, at the readings (50, 0, 100) and (100, 120, 90), which toggle, and (100, 0, 50),
which does not. -/
theorem probe_toggles_iff_witness :
    (newEvents (startState [50, 0, 100]) (probeAndSelect (startState [50, 0, 100])).mcu).count
      (Event.call Fn.toggleMux 0) = 1 ∧
    (newEvents (startState [100, 120, 90]) (probeAndSelect (startState [100, 120, 90])).mcu).count
      (Event.call Fn.toggleMux 0) = 1 ∧
    (newEvents (startState [100, 0, 50]) (probeAndSelect (startState [100, 0, 50])).mcu).count
      (Event.call Fn.toggleMux 0) = 0 :=
  ⟨(probe_toggles_iff (startState [50, 0, 100]) 50 0 100 rfl rfl rfl
      (by decide) (by decide) (by decide)).2.2.2.1.mpr (by decide),
   (probe_toggles_iff (startState [100, 120, 90]) 100 120 90 rfl rfl rfl
      (by decide) (by decide) (by decide)).2.2.2.1.mpr (by decide),
   (probe_toggles_iff (startState [100, 0, 50]) 100 0 50 rfl rfl rfl
      (by decide) (by decide) (by decide)).2.2.2.2.mpr (by decide)⟩

/-- C4: when the first and third probe readings of a cycle are `v0` and `v1` (each in
[0,255]), the value of `recheckMaxCount` computed at main.c lines 221-222 is
`RECHECKVOLTAGEFAST` if `|v0 - v1| ≤ 1` and `RECHECKVOLTAGECOUNT` otherwise; the former
is 33, the latter 66, and 33 is 66 / 2 in integer division, also as the expansion
`RECHECKVOLTAGECOUNT/2` stands in the conditional expression. -/
theorem recheckMaxCount_fast_iff (s : MCU) (v0 v1 : Nat)
    (h0 : s.adcIn s.adcCount = v0) (h1 : s.adcIn (s.adcCount + 2) = v1)
    (b0 : v0 ≤ 255) (b1 : v1 ≤ 255) :
    (recheckMaxCountOf (probeAndSelect s).adcInitialValue0 (probeAndSelect s).adcInitialValue1
        = RECHECKVOLTAGEFAST ↔ |(v0 : Int) - (v1 : Int)| ≤ 1) ∧
    (recheckMaxCountOf (probeAndSelect s).adcInitialValue0 (probeAndSelect s).adcInitialValue1
        = RECHECKVOLTAGECOUNT ↔ ¬ |(v0 : Int) - (v1 : Int)| ≤ 1) ∧
    RECHECKVOLTAGECOUNT = 66 ∧ RECHECKVOLTAGEFAST = 33 ∧
    RECHECKVOLTAGEFAST = RECHECKVOLTAGECOUNT / 2 := by
  obtain ⟨-, -, -, e0, -, e1, -⟩ := probeAndSelect_spec s
  have m0 : v0 % 256 = v0 := Nat.mod_eq_of_lt (by omega)
  have m1 : v1 % 256 = v1 := Nat.mod_eq_of_lt (by omega)
  rw [h0, m0] at e0
  rw [h1, m1] at e1
  rw [e0, e1]
  have hdiv : Int.tdiv RECHECKVOLTAGECOUNT 2 = 33 := by decide
  have hcount : RECHECKVOLTAGECOUNT = 66 := rfl
  have hfast : RECHECKVOLTAGEFAST = 33 := by decide
  refine ⟨?_, ?_, rfl, by decide, by decide⟩
  · unfold recheckMaxCountOf
    rw [abs_le, hfast, hdiv, hcount]
    simp only []
    split <;> constructor <;> intro h <;> omega
  · unfold recheckMaxCountOf
    rw [abs_le, hdiv, hcount]
    simp only []
    split <;> constructor <;> intro h <;> omega

/-- C4, at the readings 100 and 101 (a difference of 1): the interval is 33. -/
theorem recheckMaxCount_fast_iff_witness :
    recheckMaxCountOf (probeAndSelect (startState [100, 0, 101])).adcInitialValue0
      (probeAndSelect (startState [100, 0, 101])).adcInitialValue1 = RECHECKVOLTAGEFAST :=
  (recheckMaxCount_fast_iff (startState [100, 0, 101]) 100 101 rfl rfl
    (by decide) (by decide)).1.mpr (by decide)

/-- C6: when the next four conversions read `a`, `b`, `c`, `d` (each in [0,255]),
`getAdcValueBusyWaitWithAveraging` returns `(a + b + c + d) / 4` after exactly four
conversions; no partial sum reaches 2^16, so the 16-bit accumulator does not wrap; the
result is at most 255 and lies between the least and the greatest of the four. -/
theorem averaging_is_truncated_mean (s : MCU) (a b c d : Nat)
    (ha : s.adcIn s.adcCount = a) (hb : s.adcIn (s.adcCount + 1) = b)
    (hc : s.adcIn (s.adcCount + 2) = c) (hd : s.adcIn (s.adcCount + 3) = d)
    (ba : a ≤ 255) (bb : b ≤ 255) (bc : c ≤ 255) (bd : d ≤ 255) :
    ∃ t, getAdcValueBusyWaitWithAveraging s = some ((a + b + c + d) / 4, t) ∧
      conversions (newEvents s t) = 4 ∧ t.adcCount = s.adcCount + 4 ∧
      a + b < 65536 ∧ a + b + c < 65536 ∧ a + b + c + d < 65536 ∧
      (a + b + c + d) / 4 ≤ 255 ∧
      min (min a b) (min c d) ≤ (a + b + c + d) / 4 ∧
      (a + b + c + d) / 4 ≤ max (max a b) (max c d) := by
  obtain ⟨t, h, r, -, hcv⟩ := getAdcValueBusyWaitWithAveraging_spec s
  have ma : a % 256 = a := Nat.mod_eq_of_lt (by omega)
  have mb : b % 256 = b := Nat.mod_eq_of_lt (by omega)
  have mc : c % 256 = c := Nat.mod_eq_of_lt (by omega)
  have md : d % 256 = d := Nat.mod_eq_of_lt (by omega)
  unfold avgAt at h
  rw [ha, hb, hc, hd, ma, mb, mc, md] at h
  refine ⟨t, h, hcv, by rw [r.adcCount, hcv], by omega, by omega, by omega, by omega, ?_, ?_⟩
  · simp only [Nat.min_def]
    split <;> split <;> split <;> omega
  · simp only [Nat.max_def]
    split <;> split <;> split <;> omega

/-- C6, at the samples 10, 20, 30, 41: the result is 25. -/
theorem averaging_is_truncated_mean_witness :
    ∃ t, getAdcValueBusyWaitWithAveraging (startState [10, 20, 30, 41]) =
        some ((10 + 20 + 30 + 41) / 4, t) ∧
      conversions (newEvents (startState [10, 20, 30, 41]) t) = 4 ∧
      t.adcCount = (startState [10, 20, 30, 41]).adcCount + 4 ∧
      10 + 20 < 65536 ∧ 10 + 20 + 30 < 65536 ∧ 10 + 20 + 30 + 41 < 65536 ∧
      (10 + 20 + 30 + 41) / 4 ≤ 255 ∧
      min (min 10 20) (min 30 41) ≤ (10 + 20 + 30 + 41) / 4 ∧
      (10 + 20 + 30 + 41) / 4 ≤ max (max 10 20) (max 30 41) :=
  averaging_is_truncated_mean (startState [10, 20, 30, 41]) 10 20 30 41 rfl rfl rfl rfl
    (by decide) (by decide) (by decide) (by decide)

theorem transmitArgs_append (xs ys : List Event) :
    transmitArgs (xs ++ ys) = transmitArgs xs ++ transmitArgs ys := by
  simp [transmitArgs, List.filterMap_append]

theorem transmitArgs_eq_nil {evs : List Event}
    (h : ∀ e ∈ evs, e.kind ≠ Kind.call Fn.transmitValue) : transmitArgs evs = [] := by
  induction evs with
  | nil => rfl
  | cons e xs ih =>
    have hx := ih (fun e he => h e (List.mem_cons_of_mem _ he))
    have he := h e (List.mem_cons_self _ _)
    cases e with
    | call f a =>
      cases f <;> simp_all [transmitArgs, Event.kind]
    | _ => simpa [transmitArgs] using hx

theorem count_eq_zero_of_kinds {K : List Kind} {evs : List Event}
    (h : ∀ e ∈ evs, e.kind ∈ K) (e : Event) (he : e.kind ∉ K) : evs.count e = 0 := by
  rw [List.count_eq_zero]
  intro hmem
  exact he (h e hmem)

theorem tickEvents_kinds (p n : Nat) :
    ∀ e ∈ (List.replicate n (tickEvents p)).flatten, e.kind ∈ frameKinds := by
  intro e he
  rw [List.mem_flatten] at he
  obtain ⟨l, hl, hel⟩ := he
  rw [List.eq_of_mem_replicate hl] at hel
  revert e
  simp [tickEvents, Event.kind]

theorem frameEvents_kinds (p v : Nat) : ∀ e ∈ frameEvents p v, e.kind ∈ frameKinds := by
  intro e he
  unfold frameEvents at he
  rw [List.mem_cons] at he
  rcases he with rfl | he
  · simp [Event.kind]
  · split at he
    · revert e
      simp [errorEvents, Event.kind]
    · rw [List.mem_append] at he
      rcases he with he | he
      · revert e
        simp [triggerEvents, Event.kind]
      · exact tickEvents_kinds p v e he

theorem frameEvents_transmitArgs (p v : Nat) : transmitArgs (frameEvents p v) = [v] := by
  have h : ∀ e ∈ (if v = 0 ∨ 232 ≤ v then errorEvents p
      else triggerEvents p ++ (List.replicate v (tickEvents p)).flatten),
      e.kind ≠ Kind.call Fn.transmitValue := by
    intro e he
    split at he
    · revert e
      simp [errorEvents, Event.kind]
    · rw [List.mem_append, List.mem_flatten] at he
      rcases he with he | ⟨l, hl, hel⟩
      · revert e
        simp [triggerEvents, Event.kind]
      · rw [List.eq_of_mem_replicate hl] at hel
        revert e
        simp [tickEvents, Event.kind]
  unfold frameEvents
  rw [show ∀ l, Event.call Fn.transmitValue v :: l = [Event.call Fn.transmitValue v] ++ l from
    fun _ => rfl, transmitArgs_append, transmitArgs_eq_nil h]
  rfl

theorem frameEvents_count_error (p v : Nat) :
    (frameEvents p v).count (Event.call Fn.outputDataError 0) =
      if v = 0 ∨ 232 ≤ v then 1 else 0 := by
  unfold frameEvents
  split
  · simp [errorEvents]
  · rw [List.count_cons, List.count_append, count_ticks]
    simp [triggerEvents, tickEvents]

theorem transmitValue_frame (v : Nat) (s : MCU) :
    ∃ r t, transmitValue v s = some (r, t) ∧ Run s t ∧
      newEvents s t = frameEvents s.PORTB v ∧ r = (if v = 0 ∨ 232 ≤ v then 1 else 0) :=
  transmitValue_spec v s

theorem powerDownSleep_spec (s : MCU) :
    Run s (powerDownSleep s) ∧ newEvents s (powerDownSleep s) = sleepEvents s.ADCSRA := by
  refine run_events _ ?_ ?_ ?_ ?_ ?_ ?_
  · simp [powerDownSleep, sleepEvents, setADCSRA, setPRR, wdt_reset, sleep_mode, log]
  · simp [sleepEvents, lastWrite, powerDownSleep, setADCSRA, setPRR, wdt_reset, sleep_mode, log]
  · simp [sleepEvents, lastWrite, powerDownSleep, setADCSRA, setPRR, wdt_reset, sleep_mode, log]
  · simp [sleepEvents, lastWrite, powerDownSleep, setADCSRA, setPRR, wdt_reset, sleep_mode, log]
  · simp [powerDownSleep, setADCSRA, setPRR, wdt_reset, sleep_mode, log]
  · simp [sleepEvents, conversions, Event.kind, powerDownSleep, setADCSRA, setPRR, wdt_reset,
      sleep_mode, log]

/-- One report of the monitoring loop (main.c lines 239-243). -/
theorem monitorReport_spec (off : Int) (s : MCU) :
    ∃ r t pre, monitorReport off s = some (r, t) ∧ Run s t ∧
      newEvents s t = pre ++ frameEvents s.PORTB (compensated off s.adcIn s.adcCount) ∧
      (∀ e ∈ pre, e.kind ∈ Kind.wdt_reset :: adcKinds) ∧ conversions pre = 4 ∧
      r = (if compensated off s.adcIn s.adcCount = 0 ∨
              232 ≤ compensated off s.adcIn s.adcCount then 1 else 0) := by
  have a1 := wdt_reset_spec s
  obtain ⟨t1, h1, r1, w1, c1⟩ := getAdcValueBusyWaitWithAveraging_spec (wdt_reset s)
  obtain ⟨r, t, h2, r2, e2, hr⟩ := transmitValue_frame
    (toU16 (toI16 (subU16 (avgAt s.adcIn s.adcCount) (toU16 off)))) t1
  have hp : t1.PORTB = s.PORTB := (reg_of_within r1 w1).1 (by decide)
  refine ⟨r, t, newEvents s t1, ?_, (a1.1.andThen r1).andThen r2, ?_, ?_, ?_, hr⟩
  · unfold monitorReport
    simp only []
    rw [h1]
    exact h2
  · rw [newEvents_trans (a1.1.andThen r1) r2, e2, hp]
    rfl
  · intro e he
    rw [newEvents_trans a1.1 r1, a1.2, List.mem_append] at he
    rcases he with he | he
    · revert e
      simp [Event.kind]
    · exact List.mem_cons_of_mem _ (w1 e he)
  · rw [newEvents_trans a1.1 r1, conversions_append, c1, a1.2]
    rfl

theorem monitorLoop_break {N off : Int} {fuel : Nat} {i : Int} {s t : MCU} {r : Nat}
    (hi : i ≤ N) (h : monitorReport off s = some (r, t)) (hb : r ≠ 0 ∨ i = N) :
    monitorLoop N off (fuel + 1) i s = some t := by
  rw [monitorLoop, if_pos hi, h]
  exact if_pos hb

theorem monitorLoop_continue {N off : Int} {fuel : Nat} {i : Int} {s t : MCU} {r : Nat}
    (hi : i ≤ N) (h : monitorReport off s = some (r, t)) (hb : ¬ (r ≠ 0 ∨ i = N)) :
    monitorLoop N off (fuel + 1) i s = monitorLoop N off fuel (i + 1) (powerDownSleep t) := by
  rw [monitorLoop, if_pos hi, h]
  exact if_neg hb

theorem sleepEvents_facts (a : Nat) :
    (∀ e ∈ sleepEvents a, e.kind ∈ monitorKinds) ∧ conversions (sleepEvents a) = 0 ∧
    transmitArgs (sleepEvents a) = [] ∧ (sleepEvents a).count Event.sleep_mode = 1 ∧
    (sleepEvents a).count (Event.call Fn.outputDataError 0) = 0 := by
  refine ⟨by simp [sleepEvents, Event.kind], by simp [sleepEvents, conversions, Event.kind],
    by simp [sleepEvents, transmitArgs], by simp [sleepEvents], by simp [sleepEvents]⟩

/-- What one report adds to the log, in the terms used for the loop. -/
theorem report_facts {pre : List Event} (p v : Nat)
    (hpre : ∀ e ∈ pre, e.kind ∈ Kind.wdt_reset :: adcKinds) (hconv : conversions pre = 4) :
    (∀ e ∈ pre ++ frameEvents p v, e.kind ∈ monitorKinds) ∧
    conversions (pre ++ frameEvents p v) = 4 ∧
    transmitArgs (pre ++ frameEvents p v) = [v] ∧
    (pre ++ frameEvents p v).count Event.sleep_mode = 0 ∧
    (pre ++ frameEvents p v).count (Event.call Fn.outputDataError 0) =
      if v = 0 ∨ 232 ≤ v then 1 else 0 := by
  have hk1 : Kind.wdt_reset :: adcKinds ⊆ monitorKinds := by decide
  have hk2 : frameKinds ⊆ monitorKinds := by decide
  refine ⟨?_, ?_, ?_, ?_, ?_⟩
  · intro e he
    rw [List.mem_append] at he
    rcases he with he | he
    · exact hk1 (hpre e he)
    · exact hk2 (frameEvents_kinds p v e he)
  · rw [conversions_append, hconv, conversions_eq_zero]
    intro e he hk
    have := frameEvents_kinds p v e he
    rw [hk] at this
    revert this
    decide
  · rw [transmitArgs_append, frameEvents_transmitArgs, transmitArgs_eq_nil]
    · rfl
    · intro e he hk
      have := hpre e he
      rw [hk] at this
      revert this
      decide
  · rw [List.count_append, count_eq_zero_of_kinds hpre _ (by simp [Event.kind]),
      count_eq_zero_of_kinds (frameEvents_kinds p v) _ (by simp [Event.kind])]
  · rw [List.count_append, count_eq_zero_of_kinds hpre _ (by simp [Event.kind]),
      frameEvents_count_error, Nat.zero_add]

theorem map_range_succ {α : Type} (f : Nat → α) (m : Nat) :
    (List.range (m + 1)).map f = f 0 :: (List.range m).map (fun j => f (j + 1)) := by
  simp [List.range_succ_eq_map, Function.comp]

/-- The monitoring loop (main.c lines 237-250), entered at `i ≤ recheckMaxCount` with
fuel for the iterations that remain: it ends after some number `m ≥ 1` of reports. -/
theorem monitorLoop_spec (N off : Int) :
    ∀ (fuel : Nat) (i : Int) (s : MCU), i ≤ N → N - i < (fuel : Int) →
      ∃ (t : MCU) (m : Nat), monitorLoop N off fuel i s = some t ∧ Run s t ∧
        Within monitorKinds s t ∧
        1 ≤ m ∧ i + (m : Int) - 1 ≤ N ∧
        conversions (newEvents s t) = 4 * m ∧
        transmitArgs (newEvents s t) =
          (List.range m).map (fun j => compensated off s.adcIn (s.adcCount + 4 * j)) ∧
        (newEvents s t).count Event.sleep_mode = m - 1 ∧
        (∀ j, j + 1 < m → ¬ Invalid (compensated off s.adcIn (s.adcCount + 4 * j))) ∧
        (Invalid (compensated off s.adcIn (s.adcCount + 4 * (m - 1))) ∨
          i + (m : Int) - 1 = N) ∧
        (newEvents s t).count (Event.call Fn.outputDataError 0) =
          (if Invalid (compensated off s.adcIn (s.adcCount + 4 * (m - 1))) then 1 else 0) ∧
        (Invalid (compensated off s.adcIn (s.adcCount + 4 * (m - 1))) →
          ∃ pre p, newEvents s t =
            pre ++ frameEvents p (compensated off s.adcIn (s.adcCount + 4 * (m - 1)))) := by
  intro fuel
  induction fuel with
  | zero =>
    intro i s hi hf
    exact absurd hf (by simp; omega)
  | succ n ih =>
    intro i s hi hf
    obtain ⟨r, t1, pre, h1, r1, e1, hpre, hconv, hr⟩ := monitorReport_spec off s
    obtain ⟨f1, f2, f3, f4, f5⟩ :=
      report_facts s.PORTB (compensated off s.adcIn s.adcCount) hpre hconv
    rw [← e1] at f1 f2 f3 f4 f5
    by_cases hb : r ≠ 0 ∨ i = N
    · refine ⟨t1, 1, monitorLoop_break hi h1 hb, r1, f1, le_refl 1, by simpa using hi,
        by simpa using f2, by simpa using f3, by simpa using f4, ?_, ?_, by simpa using f5,
        fun _ => ⟨pre, s.PORTB, by simpa using e1⟩⟩
      · intro j hj
        omega
      · rcases hb with hb | hb
        · left
          by_contra hv
          have hv2 : ¬ Invalid (compensated off s.adcIn s.adcCount) := by simpa using hv
          rw [if_neg hv2] at hr
          exact hb hr
        · right
          simpa using hb
    · have hr0 : r = 0 := by
        by_contra h0
        exact hb (Or.inl h0)
      have hiN : i < N := lt_of_le_of_ne hi (fun h => hb (Or.inr h))
      have hv : ¬ Invalid (compensated off s.adcIn s.adcCount) := by
        intro hv
        rw [if_pos hv] at hr
        omega
      have a2 := powerDownSleep_spec t1
      obtain ⟨g1, g2, g3, g4, g5⟩ := sleepEvents_facts t1.ADCSRA
      rw [← a2.2] at g1 g2 g3 g4 g5
      have r2 := r1.andThen a2.1
      have hin : (powerDownSleep t1).adcIn = s.adcIn := r2.adcIn
      have hcnt : (powerDownSleep t1).adcCount = s.adcCount + 4 := by
        rw [r2.adcCount, newEvents_trans r1 a2.1, conversions_append, f2, g2]
      obtain ⟨t, m, k1, k2, k3, k4, k5, k6, k7, k8, k9, k10, k11, k12⟩ :=
        ih (i + 1) (powerDownSleep t1) (by omega) (by push_cast at hf ⊢; omega)
      rw [hin, hcnt] at k7 k9 k10 k11 k12
      have hidx : ∀ j, s.adcCount + 4 + 4 * j = s.adcCount + 4 * (j + 1) := fun j => by omega
      have hlast : s.adcCount + 4 + 4 * (m - 1) = s.adcCount + 4 * (m + 1 - 1) := by omega
      rw [hlast] at k10 k11 k12
      have r3 := r2.andThen k2
      have hev : newEvents s t =
          newEvents s t1 ++ newEvents t1 (powerDownSleep t1) ++ newEvents (powerDownSleep t1) t := by
        rw [newEvents_trans r2 k2, newEvents_trans r1 a2.1]
      refine ⟨t, m + 1, ?_, r3, ?_, by omega, by push_cast; omega, ?_, ?_, ?_, ?_, ?_, ?_, ?_⟩
      · rw [monitorLoop_continue hi h1 hb]
        exact k1
      · exact Within.trans r2 k2 (Within.trans r1 a2.1 f1 g1) k3
      · rw [hev, conversions_append, conversions_append, f2, g2, k6]
        omega
      · have hfun : (fun j => compensated off s.adcIn (s.adcCount + 4 + 4 * j)) =
            (fun j => compensated off s.adcIn (s.adcCount + 4 * (j + 1))) :=
          funext (fun j => by rw [hidx])
        rw [hev, transmitArgs_append, transmitArgs_append, f3, g3, k7, hfun, map_range_succ]
        rfl
      · rw [hev, List.count_append, List.count_append, f4, g4, k8]
        omega
      · intro j hj
        cases j with
        | zero => exact hv
        | succ j =>
          rw [← hidx]
          exact k9 j (by omega)
      · rcases k10 with k10 | k10
        · exact Or.inl k10
        · right
          push_cast
          omega
      · rw [hev, List.count_append, List.count_append, f5, g5, k11, if_neg hv]
        simp
      · intro hinv
        obtain ⟨pre2, p2, hp2⟩ := k12 hinv
        refine ⟨newEvents s t1 ++ newEvents t1 (powerDownSleep t1) ++ pre2, p2, ?_⟩
        rw [hev, hp2]
        simp only [List.append_assoc]

theorem avgAt_le (f : Nat → Nat) (k : Nat) : avgAt f k ≤ 255 := by
  unfold avgAt
  omega

theorem toU16_toI16 {n : Nat} (h : n < 32768) : toU16 (toI16 n) = n := by
  unfold toU16 toI16
  omega

theorem toI16_small {n : Nat} (h : n < 32768) : toI16 n = (n : Int) := by
  unfold toI16
  omega

theorem recheckMaxCountOf_cases (a b : Int) :
    recheckMaxCountOf a b = 33 ∨ recheckMaxCountOf a b = 66 := by
  have hdiv : Int.tdiv RECHECKVOLTAGECOUNT 2 = 33 := by decide
  unfold recheckMaxCountOf
  simp only [hdiv]
  split
  · exact Or.inr rfl
  · exact Or.inl rfl

theorem cycleInterval_cases (s : MCU) : cycleInterval s = 33 ∨ cycleInterval s = 66 :=
  recheckMaxCountOf_cases _ _

/-- The cycle up to the averaged baseline sample (main.c lines 206-224). -/
theorem baseline_spec (s : MCU) :
    ∃ t, getAdcValueBusyWaitWithAveraging (probeAndSelect s).mcu = some (baselineOCV s, t) ∧
      Run s t ∧ Within baselineKinds s t ∧ conversions (newEvents s t) = 7 := by
  obtain ⟨r, w, c, -, -, -, -⟩ := probeAndSelect_spec s
  obtain ⟨t, h, r1, w1, c1⟩ := getAdcValueBusyWaitWithAveraging_spec (probeAndSelect s).mcu
  have hcnt : (probeAndSelect s).mcu.adcCount = s.adcCount + 3 := by rw [r.adcCount, c]
  rw [r.adcIn, hcnt] at h
  refine ⟨t, h, r.andThen r1, ?_, ?_⟩
  · exact Within.trans r r1 (w.mono (by decide)) (w1.mono (by decide))
  · rw [newEvents_trans r r1, conversions_append, c, c1]

theorem cycle_invalid_eq {s t : MCU}
    (h : getAdcValueBusyWaitWithAveraging (probeAndSelect s).mcu = some (baselineOCV s, t))
    (hv : Invalid (baselineOCV s)) : cycle s = some (outputDataError t) := by
  have hle := avgAt_le s.adcIn (s.adcCount + 3)
  have hc : toI16 (baselineOCV s) ≥ ((MAXVOLTAGEADCVALUE : Nat) : Int) ∨
      toI16 (baselineOCV s) = 0 := by
    rw [toI16_small (by unfold baselineOCV; omega)]
    rcases hv with hv | hv
    · right; simp [hv]
    · left; simp only [MAXVOLTAGEADCVALUE]; omega
  unfold cycle
  dsimp only
  rw [h, Option.some_bind]
  dsimp only
  rw [if_pos hc]

theorem cycle_valid_eq {s t : MCU}
    (h : getAdcValueBusyWaitWithAveraging (probeAndSelect s).mcu = some (baselineOCV s, t))
    (hv : ¬ Invalid (baselineOCV s)) :
    cycle s = chargeAndMonitor (cycleInterval s) (toI16 (baselineOCV s)) t := by
  have hle := avgAt_le s.adcIn (s.adcCount + 3)
  have hc : ¬ (toI16 (baselineOCV s) ≥ ((MAXVOLTAGEADCVALUE : Nat) : Int) ∨
      toI16 (baselineOCV s) = 0) := by
    rw [toI16_small (by unfold baselineOCV; omega)]
    simp only [MAXVOLTAGEADCVALUE]
    unfold Invalid at hv
    omega
  unfold cycle cycleInterval
  dsimp only
  rw [h, Option.some_bind]
  dsimp only
  rw [if_neg hc]

theorem frameEvents_conversions (p v : Nat) : conversions (frameEvents p v) = 0 := by
  apply conversions_eq_zero
  intro e he hk
  have := frameEvents_kinds p v e he
  rw [hk] at this
  revert this
  decide

theorem turnOnCharger_within (s : MCU) :
    Within [Kind.call Fn.turnOnCharger, Kind.write Reg.PUEB, Kind.write Reg.DDRB, Kind.delay_ms]
      s (turnOnCharger s) := by
  apply within_of_events (turnOnCharger_spec s).2
  split <;> simp [Event.kind]

theorem turnOffCharger_within (s : MCU) :
    Within [Kind.call Fn.turnOffCharger, Kind.write Reg.PUEB, Kind.write Reg.DDRB, Kind.delay_ms]
      s (turnOffCharger s) := by
  apply within_of_events (turnOffCharger_spec s).2
  split <;> simp [Event.kind]

/-- The part of a cycle that follows a valid baseline (main.c lines 231-251), entered in
the state `t` that the cycle begun in `s` has reached after its seven conversions. -/
theorem chargeAndMonitor_spec (s t : MCU) (hin : t.adcIn = s.adcIn)
    (hcnt : t.adcCount = s.adcCount + 7) :
    ∃ (s3 s6 s7 : MCU) (m : Nat),
      chargeAndMonitor (cycleInterval s) (toI16 (baselineOCV s)) t = some (turnOffCharger s7) ∧
      Run t s3 ∧ newEvents t s3 = Event.wdt_reset :: frameEvents t.PORTB (baselineOCV s) ∧
      Run (turnOnCharger (delay_ms WAITFORMASTERDELAYMS s3)) s6 ∧
      Within adcKinds (turnOnCharger (delay_ms WAITFORMASTERDELAYMS s3)) s6 ∧
      conversions (newEvents (turnOnCharger (delay_ms WAITFORMASTERDELAYMS s3)) s6) = 4 ∧
      Run s6 s7 ∧ MonitorRun s (cycleInterval s) (newEvents s6 s7) m := by
  have hle := avgAt_le s.adcIn (s.adcCount + 3)
  have hocv : toU16 (toI16 (baselineOCV s)) = baselineOCV s :=
    toU16_toI16 (by unfold baselineOCV; omega)
  have a1 := wdt_reset_spec t
  obtain ⟨r, s3, h2, r2, e2, -⟩ := transmitValue_frame (baselineOCV s) (wdt_reset t)
  have a4 := delay_ms_spec WAITFORMASTERDELAYMS s3
  have a5 := turnOnCharger_spec (delay_ms WAITFORMASTERDELAYMS s3)
  obtain ⟨s6, h3, r3, w3, c3⟩ :=
    getAdcValueBusyWaitWithAveraging_spec (turnOnCharger (delay_ms WAITFORMASTERDELAYMS s3))
  -- the conversion counter when the offset sample is taken
  have r13 := a1.1.andThen r2
  have r15 := (r13.andThen a4.1).andThen a5.1
  have e13 : newEvents t s3 = Event.wdt_reset :: frameEvents t.PORTB (baselineOCV s) := by
    rw [newEvents_trans a1.1 r2, a1.2, e2]
    rfl
  have c5 : (turnOnCharger (delay_ms WAITFORMASTERDELAYMS s3)).adcCount = s.adcCount + 7 := by
    rw [adcCount_of_within a5.1 (turnOnCharger_within _) (by decide)]
    show s3.adcCount = _
    rw [r13.adcCount, e13, hcnt]
    have : conversions (Event.wdt_reset :: frameEvents t.PORTB (baselineOCV s)) = 0 := by
      rw [show ∀ l, Event.wdt_reset :: l = [Event.wdt_reset] ++ l from fun _ => rfl,
        conversions_append, frameEvents_conversions]
      rfl
    rw [this]
  have i5 : (turnOnCharger (delay_ms WAITFORMASTERDELAYMS s3)).adcIn = s.adcIn := by
    rw [r15.adcIn, hin]
  rw [i5, c5] at h3
  have c6 : s6.adcCount = s.adcCount + 11 := by rw [r3.adcCount, c3, c5]
  have i6 : s6.adcIn = s.adcIn := by rw [r3.adcIn, i5]
  have hN := cycleInterval_cases s
  obtain ⟨s7, m, k1, k2, k3, k4, k5, k6, k7, k8, k9, k10, k11, k12⟩ :=
    monitorLoop_spec (cycleInterval s) (cycleOffset s) (cycleInterval s).toNat 1 s6
      (by omega) (by omega)
  rw [i6, c6] at k7 k9 k10 k11 k12
  refine ⟨s3, s6, s7, m, ?_, r13, e13, r3, w3, c3, k2, ?_⟩
  · unfold chargeAndMonitor
    dsimp only
    rw [hocv, h2, Option.some_bind]
    dsimp only
    rw [h3, Option.some_bind]
    dsimp only
    have hoff : toI16 (subU16 (avgAt s.adcIn (s.adcCount + 7)) (baselineOCV s)) =
        cycleOffset s := by
      unfold cycleOffset chargingSample
      rw [hocv]
    rw [hoff, k1, Option.some_bind]
  · exact ⟨k4, by omega, k3, k6, k7, k8, k9, k10.imp id (by omega), k11, k12⟩

theorem within_iff {K : List Kind} {s t : MCU} :
    Within K s t ↔ ∀ e ∈ newEvents s t, e.kind ∈ K := Iff.rfl

/-- A cycle whose averaged baseline is invalid (main.c lines 206-229): after the probe
step and the baseline sample, the error signal, and nothing else. -/
theorem cycle_invalid_shape (s : MCU) (hv : Invalid (baselineOCV s)) :
    ∃ (t : MCU) (A : List Event) (p : Nat),
      cycle s = some t ∧ Run s t ∧ newEvents s t = A ++ errorEvents p ∧
      (∀ e ∈ A, e.kind ∈ baselineKinds) ∧ conversions A = 7 ∧
      t.DDRB = s.DDRB ∧ t.PUEB = s.PUEB ∧ t.PORTB = p &&& 0xFB := by
  obtain ⟨t1, h, r, w, c⟩ := baseline_spec s
  have a := outputDataError_spec t1
  have hreg := reg_of_within r w
  have hd : t1.DDRB = s.DDRB := hreg.2.1 (by decide)
  have hp : t1.PUEB = s.PUEB := hreg.2.2 (by decide)
  refine ⟨outputDataError t1, newEvents s t1, t1.PORTB, cycle_invalid_eq h hv, r.andThen a.1, ?_,
    w, c, hd, hp, a.2.2⟩
  rw [newEvents_trans r a.1, a.2.1]

/-- A cycle whose averaged baseline is valid (main.c lines 206-251): the events `A` of the
probe step and the baseline sample, the baseline report, the wait for the master,
`turnOnCharger`, the events `S` of the offset sample, the events `M` of the monitoring
loop, and `turnOffCharger`, which finds the charger on. -/
theorem cycle_valid_shape (s : MCU) (hv : ¬ Invalid (baselineOCV s)) :
    ∃ (t : MCU) (A S M : List Event) (p q d m : Nat),
      cycle s = some t ∧ Run s t ∧ isChargerOn t = 0 ∧
      newEvents s t =
        A ++ (Event.wdt_reset :: frameEvents p (baselineOCV s)) ++
          (Event.delay_ms WAITFORMASTERDELAYMS :: chargerOnEvents s) ++ S ++ M ++
          chargerOffEvents q d ∧
      (∀ e ∈ A, e.kind ∈ baselineKinds) ∧ conversions A = 7 ∧
      (∀ e ∈ S, e.kind ∈ adcKinds) ∧ conversions S = 4 ∧
      MonitorRun s (cycleInterval s) M m ∧ d &&& 8 ≠ 0 ∧
      (isChargerOn s = 0 → d = s.DDRB ||| 8) := by
  obtain ⟨t1, h, r, w, c⟩ := baseline_spec s
  obtain ⟨s3, s6, s7, m, hcm, r13, e13, r56, w56, c56, r67, mon⟩ :=
    chargeAndMonitor_spec s t1 r.adcIn (by rw [r.adcCount, c])
  have a4 := delay_ms_spec WAITFORMASTERDELAYMS s3
  have a5 := turnOnCharger_spec (delay_ms WAITFORMASTERDELAYMS s3)
  have a8 := turnOffCharger_spec s7
  -- registers of the charger up to the call of turnOnCharger
  have w13 : Within (Kind.wdt_reset :: frameKinds) t1 s3 := by
    apply within_of_events e13
    intro e he
    rw [List.mem_cons] at he
    rcases he with rfl | he
    · simp [Event.kind]
    · exact List.mem_cons_of_mem _ (frameEvents_kinds _ _ e he)
  have hreg1 := reg_of_within r w
  have hreg3 := reg_of_within r13 w13
  have hd4 : (delay_ms WAITFORMASTERDELAYMS s3).DDRB = s.DDRB := by
    show s3.DDRB = _
    rw [hreg3.2.1 (by decide), hreg1.2.1 (by decide)]
  have hp4 : (delay_ms WAITFORMASTERDELAYMS s3).PUEB = s.PUEB := by
    show s3.PUEB = _
    rw [hreg3.2.2 (by decide), hreg1.2.2 (by decide)]
  have hon : newEvents (delay_ms WAITFORMASTERDELAYMS s3)
      (turnOnCharger (delay_ms WAITFORMASTERDELAYMS s3)) = chargerOnEvents s := by
    rw [a5.2]
    unfold chargerOnEvents isChargerOn
    rw [hd4, hp4]
  -- the charger is on from turnOnCharger to the end of the monitoring loop
  have hreg6 := reg_of_within r56 w56
  have hreg7 := reg_of_within r67 (within_iff.mpr mon.kinds)
  have hd7 : s7.DDRB = (turnOnCharger (delay_ms WAITFORMASTERDELAYMS s3)).DDRB := by
    rw [hreg7.2.1 (by decide), hreg6.2.1 (by decide)]
  have hon7 : isChargerOn s7 ≠ 0 := by
    unfold isChargerOn
    rw [hd7]
    exact isChargerOn_turnOnCharger _
  have hoff : newEvents s7 (turnOffCharger s7) = chargerOffEvents s7.PUEB s7.DDRB := by
    rw [a8.2, if_neg hon7]
    rfl
  have r3 := r.andThen r13
  have r4 := r3.andThen a4.1
  have r5 := r4.andThen a5.1
  have r6 := r5.andThen r56
  have r7 := r6.andThen r67
  refine ⟨turnOffCharger s7, newEvents s t1, _, newEvents s6 s7, t1.PORTB, s7.PUEB, s7.DDRB, m,
    ?_, r7.andThen a8.1, isChargerOn_turnOffCharger s7, ?_, w, c, w56, c56, mon, hon7, ?_⟩
  · rw [cycle_valid_eq h hv, hcm]
  · rw [newEvents_trans r7 a8.1, newEvents_trans r6 r67, newEvents_trans r5 r56,
      newEvents_trans r4 a5.1, newEvents_trans r3 a4.1, newEvents_trans r r13, e13, a4.2, hon,
      hoff]
    simp only [List.append_assoc, List.singleton_append, List.cons_append, List.nil_append]
  · intro hoff0
    rw [hd7]
    have h4 : isChargerOn (delay_ms WAITFORMASTERDELAYMS s3) = 0 := by
      unfold isChargerOn
      rw [hd4]
      exact hoff0
    rw [turnOnCharger_off h4]
    show (delay_ms WAITFORMASTERDELAYMS s3).DDRB ||| 8 = _
    rw [hd4]

theorem compensated_eq (off : Int) (f : Nat → Nat) (k : Nat) :
    compensated off f k = toU16 ((avgAt f k : Int) - off) := by
  have h := avgAt_le f k
  unfold compensated toU16 toI16 subU16
  omega

theorem chargerOnEvents_kinds (s : MCU) : ∀ e ∈ chargerOnEvents s, e.kind ∈
    [Kind.call Fn.turnOnCharger, Kind.write Reg.PUEB, Kind.write Reg.DDRB, Kind.delay_ms] := by
  unfold chargerOnEvents
  split <;> simp [Event.kind]

theorem chargerOffEvents_kinds (q d : Nat) : ∀ e ∈ chargerOffEvents q d, e.kind ∈
    [Kind.call Fn.turnOffCharger, Kind.write Reg.PUEB, Kind.write Reg.DDRB, Kind.delay_ms] := by
  simp [chargerOffEvents, Event.kind]

theorem kinds_cons {K : List Kind} {e : Event} {xs : List Event} (he : e.kind ∈ K)
    (h : ∀ x ∈ xs, x.kind ∈ K) : ∀ x ∈ e :: xs, x.kind ∈ K := by
  intro x hx
  rw [List.mem_cons] at hx
  rcases hx with rfl | hx
  · exact he
  · exact h x hx

theorem kinds_mono {K L : List Kind} {xs : List Event} (h : ∀ x ∈ xs, x.kind ∈ K)
    (hKL : K ⊆ L) : ∀ x ∈ xs, x.kind ∈ L := fun x hx => hKL (h x hx)

theorem conversions_of_kinds {K : List Kind} {xs : List Event} (h : ∀ x ∈ xs, x.kind ∈ K)
    (hK : Kind.adc ∉ K) : conversions xs = 0 :=
  conversions_eq_zero (fun e he hk => hK (hk ▸ h e he))

theorem transmitArgs_of_kinds {K : List Kind} {xs : List Event} (h : ∀ x ∈ xs, x.kind ∈ K)
    (hK : Kind.call Fn.transmitValue ∉ K) : transmitArgs xs = [] :=
  transmitArgs_eq_nil (fun e he hk => hK (hk ▸ h e he))

/-- The kinds of the events of the baseline report and the wait that follows it. -/
theorem report_kinds (p v : Nat) :
    ∀ e ∈ Event.wdt_reset :: frameEvents p v, e.kind ∈ Kind.wdt_reset :: frameKinds :=
  kinds_cons (by simp [Event.kind])
    (kinds_mono (frameEvents_kinds p v) (List.subset_cons_self _ _))

theorem wait_on_kinds (s : MCU) :
    ∀ e ∈ Event.delay_ms WAITFORMASTERDELAYMS :: chargerOnEvents s, e.kind ∈
      [Kind.call Fn.turnOnCharger, Kind.write Reg.PUEB, Kind.write Reg.DDRB, Kind.delay_ms] :=
  kinds_cons (by simp [Event.kind]) (chargerOnEvents_kinds s)

/-- Counts over the events of a cycle with a valid baseline, from their shape. -/
theorem shape_counts {s : MCU} {N : Int} {L A S M : List Event} {p q d m : Nat}
    (hv : ¬ Invalid (baselineOCV s))
    (hL : L = A ++ (Event.wdt_reset :: frameEvents p (baselineOCV s)) ++
      (Event.delay_ms WAITFORMASTERDELAYMS :: chargerOnEvents s) ++ S ++ M ++
      chargerOffEvents q d)
    (hA : ∀ e ∈ A, e.kind ∈ baselineKinds) (cA : conversions A = 7)
    (hS : ∀ e ∈ S, e.kind ∈ adcKinds) (cS : conversions S = 4)
    (mon : MonitorRun s N M m) :
    conversions L = 11 + 4 * m ∧
    transmitArgs L = baselineOCV s :: (List.range m).map (monitorValue s) ∧
    L.count Event.sleep_mode = m - 1 ∧
    L.count (Event.call Fn.turnOffCharger 0) = 1 ∧
    L.count (Event.call Fn.turnOnCharger 0) = 1 ∧
    L.count (Event.call Fn.outputDataError 0) =
      (if Invalid (monitorValue s (m - 1)) then 1 else 0) := by
  have hR := report_kinds p (baselineOCV s)
  have hW := wait_on_kinds s
  have hO := chargerOffEvents_kinds q d
  have hM := mon.kinds
  refine ⟨?_, ?_, ?_, ?_, ?_, ?_⟩
  · rw [hL]
    simp only [conversions_append]
    rw [cA, cS, mon.conv, conversions_of_kinds hR (by decide),
      conversions_of_kinds hW (by decide), conversions_of_kinds hO (by decide)]
    omega
  · rw [hL]
    simp only [transmitArgs_append]
    rw [transmitArgs_of_kinds hA (by decide), transmitArgs_of_kinds hW (by decide),
      transmitArgs_of_kinds hS (by decide), transmitArgs_of_kinds hO (by decide), mon.args,
      show ∀ l, Event.wdt_reset :: l = [Event.wdt_reset] ++ l from fun _ => rfl,
      transmitArgs_append, frameEvents_transmitArgs]
    simp [transmitArgs]
  · rw [hL]
    simp only [List.count_append]
    rw [count_eq_zero_of_kinds hA _ (by decide), count_eq_zero_of_kinds hR _ (by decide),
      count_eq_zero_of_kinds hW _ (by decide), count_eq_zero_of_kinds hS _ (by decide),
      count_eq_zero_of_kinds hO _ (by decide), mon.sleeps]
    omega
  · rw [hL]
    simp only [List.count_append]
    rw [count_eq_zero_of_kinds hA _ (by decide), count_eq_zero_of_kinds hR _ (by decide),
      count_eq_zero_of_kinds hW _ (by decide), count_eq_zero_of_kinds hS _ (by decide),
      count_eq_zero_of_kinds hM _ (by decide)]
    simp [chargerOffEvents]
  · rw [hL]
    simp only [List.count_append]
    rw [count_eq_zero_of_kinds hA _ (by decide), count_eq_zero_of_kinds hR _ (by decide),
      count_eq_zero_of_kinds hO _ (by decide), count_eq_zero_of_kinds hS _ (by decide),
      count_eq_zero_of_kinds hM _ (by decide)]
    unfold chargerOnEvents
    split <;> simp
  · rw [hL]
    simp only [List.count_append]
    rw [count_eq_zero_of_kinds hA _ (by decide), count_eq_zero_of_kinds hW _ (by decide),
      count_eq_zero_of_kinds hS _ (by decide), count_eq_zero_of_kinds hO _ (by decide),
      mon.errors, List.count_cons, frameEvents_count_error, if_neg hv]
    simp

theorem mainLoop_succ (n : Nat) (s : MCU) :
    mainLoop (n + 1) s = (cycle s).bind (mainLoop n) := by
  rw [mainLoop]

/-- C7 as stated fails: in the cycle begun at the head of the main loop on the readings
100, 0, 50 followed by a baseline of four samples 0, the averaged baseline is invalid
and the cycle calls `outputDataError`, which drives the report line from high to low. -/
theorem invalid_baseline_drives_report_line :
    Invalid (baselineOCV (startState [100, 0, 50, 0, 0, 0, 0])) ∧
    ∃ t, cycle (startState [100, 0, 50, 0, 0, 0, 0]) = some t ∧
      Event.call Fn.outputDataError 0 ∈ newEvents (startState [100, 0, 50, 0, 0, 0, 0]) t ∧
      (startState [100, 0, 50, 0, 0, 0, 0]).PORTB &&& 4 = 4 ∧ t.PORTB &&& 4 = 0 := by
  have hv : Invalid (baselineOCV (startState [100, 0, 50, 0, 0, 0, 0])) := by decide
  obtain ⟨t, A, p, h1, -, hL, -, -, -, -, hp⟩ := cycle_invalid_shape _ hv
  refine ⟨hv, t, h1, ?_, by decide, ?_⟩
  · rw [hL]
    simp [errorEvents]
  · rw [hp]
    exact and_FB_and_4 p

/-- C7 as amended: in a cycle whose averaged baseline is invalid the error signal is
emitted once, as the last thing the cycle does: `outputDataError` drives the report line
low.  `transmitValue` is not called, there is no trigger and no data pulse, the charger
is not touched (no call of its two functions, no write to DDRB or PUEB), and the main
loop goes on with the next cycle. -/
theorem invalid_baseline_error_signal (s : MCU) (hv : Invalid (baselineOCV s)) :
    ∃ (t : MCU) (A : List Event) (p : Nat), cycle s = some t ∧
      newEvents s t = A ++ [Event.call Fn.outputDataError 0, Event.write Reg.PORTB (p &&& 0xFB)] ∧
      (∀ e ∈ A, e.kind ∈ baselineKinds) ∧
      (newEvents s t).count (Event.call Fn.outputDataError 0) = 1 ∧
      t.PORTB &&& 4 = 0 ∧
      transmitArgs (newEvents s t) = [] ∧
      (newEvents s t).count (Event.call Fn.triggerRead 0) = 0 ∧
      (newEvents s t).count (Event.call Fn.transmitOneTick 0) = 0 ∧
      (∀ e ∈ newEvents s t, e.kind ∉ [Kind.call Fn.turnOnCharger, Kind.call Fn.turnOffCharger,
        Kind.write Reg.DDRB, Kind.write Reg.PUEB]) ∧
      t.DDRB = s.DDRB ∧ t.PUEB = s.PUEB ∧
      (∀ n, mainLoop (n + 1) s = mainLoop n t) := by
  obtain ⟨t, A, p, h1, -, hL, hA, -, hd, hpu, hp⟩ := cycle_invalid_shape s hv
  have hE : ∀ e ∈ errorEvents p, e.kind ∈ [Kind.call Fn.outputDataError, Kind.write Reg.PORTB] := by
    simp [errorEvents, Event.kind]
  refine ⟨t, A, p, h1, hL, hA, ?_, ?_, ?_, ?_, ?_, ?_, hd, hpu, ?_⟩
  · rw [hL, List.count_append, count_eq_zero_of_kinds hA _ (by decide)]
    simp [errorEvents]
  · rw [hp]
    exact and_FB_and_4 p
  · rw [hL, transmitArgs_append, transmitArgs_of_kinds hA (by decide),
      transmitArgs_of_kinds hE (by decide)]
    rfl
  · rw [hL, List.count_append, count_eq_zero_of_kinds hA _ (by decide),
      count_eq_zero_of_kinds hE _ (by decide)]
  · rw [hL, List.count_append, count_eq_zero_of_kinds hA _ (by decide),
      count_eq_zero_of_kinds hE _ (by decide)]
  · intro e he
    rw [hL, List.mem_append] at he
    rcases he with he | he
    · have := hA e he
      intro hc
      revert this
      generalize e.kind = k at hc ⊢
      revert hc
      revert k
      decide
    · have := hE e he
      intro hc
      revert this
      generalize e.kind = k at hc ⊢
      revert hc
      revert k
      decide
  · intro n
    rw [mainLoop_succ, h1]
    rfl

/-- C7 as amended, on the readings 100, 0, 50 and a baseline of four samples 0. -/
theorem invalid_baseline_error_signal_witness :
    Invalid (baselineOCV (startState [100, 0, 50, 0, 0, 0, 0])) ∧
    ∃ (t : MCU) (A : List Event) (p : Nat),
      cycle (startState [100, 0, 50, 0, 0, 0, 0]) = some t ∧
      newEvents (startState [100, 0, 50, 0, 0, 0, 0]) t =
        A ++ [Event.call Fn.outputDataError 0, Event.write Reg.PORTB (p &&& 0xFB)] ∧
      transmitArgs (newEvents (startState [100, 0, 50, 0, 0, 0, 0]) t) = [] := by
  have hv : Invalid (baselineOCV (startState [100, 0, 50, 0, 0, 0, 0])) := by decide
  obtain ⟨t, A, p, h1, h2, -, -, -, h3, -⟩ := invalid_baseline_error_signal _ hv
  exact ⟨hv, t, A, p, h1, h2, h3⟩

/-- C8: in a cycle with a valid baseline, if monitoring iteration `j + 1` is reached
(`j + 1 ≤ recheckMaxCount` and the compensated values of the iterations before it are
valid) and its compensated value is invalid, then the cycle ends with the call of
`transmitValue` for that value, the error signal, and `turnOffCharger` switching the
charger off, in this order and with nothing in between or after: the error signal is the
only one of the cycle, the samples taken are those up to iteration `j + 1`, the frames
are the baseline report and one per iteration up to `j + 1`, the sleeps are the `j`
between them, and the charger is off at the end of the cycle. -/
theorem monitor_error_ends_phase (s : MCU) (hv : ¬ Invalid (baselineOCV s)) (j : Nat)
    (hj : (j : Int) < cycleInterval s) (hprev : ∀ i, i < j → ¬ Invalid (monitorValue s i))
    (hinv : Invalid (monitorValue s j)) :
    ∃ (t : MCU) (pre : List Event) (p q d : Nat), cycle s = some t ∧
      newEvents s t = pre ++
        [Event.call Fn.transmitValue (monitorValue s j), Event.call Fn.outputDataError 0,
         Event.write Reg.PORTB (p &&& 0xFB)] ++
        [Event.call Fn.turnOffCharger 0, Event.write Reg.PUEB (q ||| 8),
         Event.write Reg.DDRB (d &&& 0xF7), Event.delay_ms DISCHARGEWAITDELAYMS] ∧
      (newEvents s t).count (Event.call Fn.outputDataError 0) = 1 ∧
      conversions (newEvents s t) = 11 + 4 * (j + 1) ∧
      transmitArgs (newEvents s t) = baselineOCV s :: (List.range (j + 1)).map (monitorValue s) ∧
      (newEvents s t).count Event.sleep_mode = j ∧
      (newEvents s t).count (Event.call Fn.turnOffCharger 0) = 1 ∧
      isChargerOn t = 0 := by
  obtain ⟨t, A, S, M, p, q, d, m, h1, -, hoff, hL, hA, cA, hS, cS, mon, -, -⟩ :=
    cycle_valid_shape s hv
  obtain ⟨c1, c2, c3, c4, -, c6⟩ := shape_counts hv hL hA cA hS cS mon
  -- the loop made exactly j + 1 reports
  have hm : m = j + 1 := by
    have hpos := mon.pos
    have hle : m ≤ j + 1 := by
      by_contra hgt
      exact mon.valid j (by omega) hinv
    by_contra hne
    have hlt : m - 1 < j := by omega
    rcases mon.stop with hstop | hstop
    · exact hprev (m - 1) hlt hstop
    · omega
  subst hm
  have hlast : j + 1 - 1 = j := by omega
  rw [hlast] at c6
  obtain ⟨pre2, p2, hM⟩ := mon.last (by rw [hlast]; exact hinv)
  rw [hlast] at hM
  have hframe : frameEvents p2 (monitorValue s j) =
      [Event.call Fn.transmitValue (monitorValue s j), Event.call Fn.outputDataError 0,
       Event.write Reg.PORTB (p2 &&& 0xFB)] := by
    unfold frameEvents
    rw [if_pos hinv]
    rfl
  refine ⟨t, A ++ (Event.wdt_reset :: frameEvents p (baselineOCV s)) ++
      (Event.delay_ms WAITFORMASTERDELAYMS :: chargerOnEvents s) ++ S ++ pre2, p2, q, d, h1, ?_,
    by rw [c6, if_pos hinv], c1, c2, by rw [c3]; omega, c4, hoff⟩
  rw [hL, hM, hframe]
  simp only [chargerOffEvents, List.append_assoc]

/-- C8, on a cycle whose first monitoring value is 173 and whose second is invalid (the
sample 0 less the offset 5 is negative). -/
theorem monitor_error_ends_phase_witness :
    (¬ Invalid (baselineOCV (startState
      [100, 0, 50, 180, 180, 180, 180, 185, 185, 185, 185, 178, 178, 178, 178]))) ∧
    Invalid (monitorValue (startState
      [100, 0, 50, 180, 180, 180, 180, 185, 185, 185, 185, 178, 178, 178, 178]) 1) ∧
    ∃ (t : MCU), cycle (startState
        [100, 0, 50, 180, 180, 180, 180, 185, 185, 185, 185, 178, 178, 178, 178]) = some t ∧
      (newEvents (startState
        [100, 0, 50, 180, 180, 180, 180, 185, 185, 185, 185, 178, 178, 178, 178]) t).count
        (Event.call Fn.outputDataError 0) = 1 ∧
      (newEvents (startState
        [100, 0, 50, 180, 180, 180, 180, 185, 185, 185, 185, 178, 178, 178, 178]) t).count
        Event.sleep_mode = 1 ∧
      isChargerOn t = 0 := by
  have hv : ¬ Invalid (baselineOCV (startState
      [100, 0, 50, 180, 180, 180, 180, 185, 185, 185, 185, 178, 178, 178, 178])) := by decide
  have hinv : Invalid (monitorValue (startState
      [100, 0, 50, 180, 180, 180, 180, 185, 185, 185, 185, 178, 178, 178, 178]) 1) := by decide
  obtain ⟨t, -, -, -, -, h1, -, h3, -, -, h6, -, h8⟩ :=
    monitor_error_ends_phase _ hv 1 (by decide) (by decide) hinv
  exact ⟨hv, hinv, t, h1, h3, h6, h8⟩

/-- C9 as stated fails: in the cycle begun at the head of the main loop on the readings
100, 0, 50 followed by a baseline of four samples 0, `turnOffCharger` is not called. -/
theorem invalid_baseline_skips_turnOffCharger :
    ∃ t, cycle (startState [100, 0, 50, 0, 0, 0, 0]) = some t ∧
      (newEvents (startState [100, 0, 50, 0, 0, 0, 0]) t).count
        (Event.call Fn.turnOffCharger 0) = 0 ∧
      (newEvents (startState [100, 0, 50, 0, 0, 0, 0]) t).count
        (Event.call Fn.turnOffCharger 0) ≠ 1 := by
  have hv : Invalid (baselineOCV (startState [100, 0, 50, 0, 0, 0, 0])) := by decide
  obtain ⟨t, A, p, h1, -, hL, hA, -, -, -, -⟩ := cycle_invalid_shape _ hv
  have hE : ∀ e ∈ errorEvents p, e.kind ∈ [Kind.call Fn.outputDataError, Kind.write Reg.PORTB] := by
    simp [errorEvents, Event.kind]
  have h0 : (newEvents (startState [100, 0, 50, 0, 0, 0, 0]) t).count
      (Event.call Fn.turnOffCharger 0) = 0 := by
    rw [hL, List.count_append, count_eq_zero_of_kinds hA _ (by decide),
      count_eq_zero_of_kinds hE _ (by decide)]
  exact ⟨t, h1, h0, by rw [h0]; decide⟩

/-- C9 as amended: every cycle ends, and it calls `turnOffCharger` exactly once when its
averaged baseline is valid, whichever monitoring iteration ended the monitoring phase,
and not at all when its averaged baseline is invalid (the `continue` of main.c line 228
skips the rest of the loop body; the charger was not switched on in that cycle). -/
theorem turnOffCharger_once_per_valid_cycle (s : MCU) :
    ∃ t, cycle s = some t ∧
      (newEvents s t).count (Event.call Fn.turnOffCharger 0) =
        (if Invalid (baselineOCV s) then 0 else 1) ∧
      (newEvents s t).count (Event.call Fn.turnOnCharger 0) =
        (if Invalid (baselineOCV s) then 0 else 1) := by
  by_cases hv : Invalid (baselineOCV s)
  · obtain ⟨t, A, p, h1, -, hL, hA, -, -, -, -⟩ := cycle_invalid_shape s hv
    have hE : ∀ e ∈ errorEvents p,
        e.kind ∈ [Kind.call Fn.outputDataError, Kind.write Reg.PORTB] := by
      simp [errorEvents, Event.kind]
    refine ⟨t, h1, ?_, ?_⟩
    · rw [if_pos hv, hL, List.count_append, count_eq_zero_of_kinds hA _ (by decide),
        count_eq_zero_of_kinds hE _ (by decide)]
    · rw [if_pos hv, hL, List.count_append, count_eq_zero_of_kinds hA _ (by decide),
        count_eq_zero_of_kinds hE _ (by decide)]
  · obtain ⟨t, A, S, M, p, q, d, m, h1, -, -, hL, hA, cA, hS, cS, mon, -, -⟩ :=
      cycle_valid_shape s hv
    obtain ⟨-, -, -, c4, c5, -⟩ := shape_counts hv hL hA cA hS cS mon
    exact ⟨t, h1, by rw [if_neg hv, c4], by rw [if_neg hv, c5]⟩

theorem chargerAfter_of_kinds {K : List Kind} (s : MCU) {P : List Event}
    (h : ∀ e ∈ P, e.kind ∈ K) (hK : Kind.write Reg.DDRB ∉ K) :
    chargerAfter s P = isChargerOn s := by
  unfold chargerAfter isChargerOn
  rw [lastWrite_of_not_mem]
  intro e he hk
  exact hK (hk ▸ h e he)

theorem cycle_keeps_charger_off (s : MCU) (h : isChargerOn s = 0) :
    ∃ t, cycle s = some t ∧ isChargerOn t = 0 := by
  by_cases hv : Invalid (baselineOCV s)
  · obtain ⟨t, A, p, h1, -, -, -, -, hd, -, -⟩ := cycle_invalid_shape s hv
    refine ⟨t, h1, ?_⟩
    unfold isChargerOn at h ⊢
    rw [hd, h]
  · obtain ⟨t, A, S, M, p, q, d, m, h1, -, hoff, -⟩ := cycle_valid_shape s hv
    exact ⟨t, h1, hoff⟩

theorem mainLoop_keeps_charger_off (n : Nat) :
    ∀ s, isChargerOn s = 0 → ∃ t, mainLoop n s = some t ∧ isChargerOn t = 0 := by
  induction n with
  | zero =>
    intro s h
    exact ⟨s, by rw [mainLoop], h⟩
  | succ n ih =>
    intro s h
    obtain ⟨t, h1, h2⟩ := cycle_keeps_charger_off s h
    obtain ⟨u, h3, h4⟩ := ih t h2
    refine ⟨u, ?_, h4⟩
    rw [mainLoop_succ, h1]
    exact h3

/-- C10: from a state in which the charger is off, every number of iterations of the
main loop ends in a state in which the charger is off.  In a cycle with an invalid
baseline the charger is off after every event.  In a cycle with a valid baseline the
events are: those of the probe step and of the averaged baseline (seven conversions),
the baseline report and the wait for the master, after each of which the charger is off;
then `turnOnCharger`; then the offset sample and the monitoring loop, after each event of
which the charger is on; then `turnOffCharger`, after which the charger is off. -/
theorem charger_on_only_while_monitoring (s : MCU) (h : isChargerOn s = 0) :
    (∀ n, ∃ t, mainLoop n s = some t ∧ isChargerOn t = 0) ∧
    (Invalid (baselineOCV s) →
      ∃ t, cycle s = some t ∧ ∀ P, P <+: newEvents s t → chargerAfter s P = 0) ∧
    (¬ Invalid (baselineOCV s) →
      ∃ (t : MCU) (A B : List Event) (p q : Nat), cycle s = some t ∧
        newEvents s t =
          (A ++ (Event.wdt_reset :: frameEvents p (baselineOCV s)) ++
              [Event.delay_ms WAITFORMASTERDELAYMS]) ++
            [Event.call Fn.turnOnCharger 0, Event.write Reg.PUEB (s.PUEB &&& 0xF7),
             Event.write Reg.DDRB (s.DDRB ||| 8), Event.delay_ms CHARGERDEBOUNCEDELAYMS] ++
            B ++ chargerOffEvents q (s.DDRB ||| 8) ∧
        (∀ e ∈ A, e.kind ∈ baselineKinds) ∧ conversions A = 7 ∧
        (∀ P, P <+: A ++ (Event.wdt_reset :: frameEvents p (baselineOCV s)) ++
            [Event.delay_ms WAITFORMASTERDELAYMS] → chargerAfter s P = 0) ∧
        (∀ P, P <+: B → chargerAfter s
          ((A ++ (Event.wdt_reset :: frameEvents p (baselineOCV s)) ++
              [Event.delay_ms WAITFORMASTERDELAYMS]) ++
            [Event.call Fn.turnOnCharger 0, Event.write Reg.PUEB (s.PUEB &&& 0xF7),
             Event.write Reg.DDRB (s.DDRB ||| 8), Event.delay_ms CHARGERDEBOUNCEDELAYMS] ++
            P) ≠ 0) ∧
        chargerAfter s (newEvents s t) = 0 ∧ isChargerOn t = 0) := by
  refine ⟨fun n => mainLoop_keeps_charger_off n s h, fun hv => ?_, fun hv => ?_⟩
  · obtain ⟨t, A, p, h1, -, hL, hA, -, -, -, -⟩ := cycle_invalid_shape s hv
    have hE : ∀ e ∈ errorEvents p,
        e.kind ∈ [Kind.call Fn.outputDataError, Kind.write Reg.PORTB] := by
      simp [errorEvents, Event.kind]
    have hall : ∀ e ∈ newEvents s t, e.kind ∈
        baselineKinds ++ [Kind.call Fn.outputDataError, Kind.write Reg.PORTB] := by
      intro e he
      rw [hL, List.mem_append] at he
      rcases he with he | he
      · exact List.mem_append_left _ (hA e he)
      · exact List.mem_append_right _ (hE e he)
    refine ⟨t, h1, fun P hP => ?_⟩
    rw [chargerAfter_of_kinds s (fun e he => hall e (hP.subset he)) (by decide), h]
  · obtain ⟨t, A, S, M, p, q, d, m, h1, r, hoff, hL, hA, cA, hS, cS, mon, -, hd⟩ :=
      cycle_valid_shape s hv
    have hon : chargerOnEvents s =
        [Event.call Fn.turnOnCharger 0, Event.write Reg.PUEB (s.PUEB &&& 0xF7),
         Event.write Reg.DDRB (s.DDRB ||| 8), Event.delay_ms CHARGERDEBOUNCEDELAYMS] := by
      unfold chargerOnEvents
      rw [if_neg (not_not.mpr h)]
    rw [hon, hd h] at hL
    have hR : ∀ e ∈ A ++ (Event.wdt_reset :: frameEvents p (baselineOCV s)) ++
        [Event.delay_ms WAITFORMASTERDELAYMS], e.kind ∈
        baselineKinds ++ (Kind.wdt_reset :: frameKinds) := by
      intro e he
      rw [List.mem_append, List.mem_append] at he
      rcases he with (he | he) | he
      · exact List.mem_append_left _ (hA e he)
      · exact List.mem_append_right _ (report_kinds _ _ e he)
      · rw [List.mem_singleton] at he
        subst he
        simp [Event.kind]
    have hB : ∀ e ∈ S ++ M, e.kind ∈ adcKinds ++ monitorKinds := by
      intro e he
      rw [List.mem_append] at he
      rcases he with he | he
      · exact List.mem_append_left _ (hS e he)
      · exact List.mem_append_right _ (mon.kinds e he)
    refine ⟨t, A, S ++ M, p, q, h1, ?_, hA, cA, fun P hP => ?_, fun P hP => ?_, ?_, hoff⟩
    · rw [hL]
      simp only [List.append_assoc, List.cons_append, List.singleton_append, List.nil_append]
    · rw [chargerAfter_of_kinds s (fun e he => hR e (hP.subset he)) (by decide), h]
    · have hRd : lastWrite Reg.DDRB s.DDRB
          (A ++ (Event.wdt_reset :: frameEvents p (baselineOCV s)) ++
            [Event.delay_ms WAITFORMASTERDELAYMS]) = s.DDRB := by
        apply lastWrite_of_not_mem
        intro e he hk
        have := hR e he
        rw [hk] at this
        revert this
        decide
      have hPd : ∀ x, lastWrite Reg.DDRB x P = x := by
        intro x
        apply lastWrite_of_not_mem
        intro e he hk
        have := hB e (hP.subset he)
        rw [hk] at this
        revert this
        decide
      have h4 : lastWrite Reg.DDRB s.DDRB
          [Event.call Fn.turnOnCharger 0, Event.write Reg.PUEB (s.PUEB &&& 0xF7),
           Event.write Reg.DDRB (s.DDRB ||| 8), Event.delay_ms CHARGERDEBOUNCEDELAYMS] =
          s.DDRB ||| 8 := by
        simp [lastWrite]
      unfold chargerAfter
      rw [lastWrite_append, lastWrite_append, hRd, h4, hPd, or_8_and_8]
      decide
    · unfold chargerAfter
      rw [← r.DDRB]
      exact hoff

/-- C10, at the head of the main loop after power-on and `initializeRegisters`, where the
charger is off. -/
theorem charger_on_only_while_monitoring_witness :
    isChargerOn (startState [100, 0, 50, 180, 180, 180, 180]) = 0 ∧
    (∀ n, ∃ t, mainLoop n (startState [100, 0, 50, 180, 180, 180, 180]) = some t ∧
      isChargerOn t = 0) :=
  ⟨by decide,
   (charger_on_only_while_monitoring (startState [100, 0, 50, 180, 180, 180, 180])
      (by decide)).1⟩

set_option maxRecDepth 100000 in
theorem byte_clear_set_8 : ∀ p, p < 256 → p &&& 8 ≠ 0 → (p &&& 0xF7) ||| 8 = p := by
  decide

set_option maxRecDepth 100000 in
theorem byte_set_clear_8 : ∀ d, d < 256 → d &&& 8 = 0 → (d ||| 8) &&& 0xF7 = d := by
  decide

/-- C14: `turnOnCharger` and `turnOffCharger` are idempotent.  A second call right after
the first finds the charger already on (already off) and returns at once: the machine
after it is the machine after the first call with only the entry of the function added
to the log, so PUEB, DDRB and PORTB are unchanged and no write and no delay is added. -/
theorem charger_switching_idempotent (s : MCU) :
    turnOnCharger (turnOnCharger s) = log (Event.call Fn.turnOnCharger 0) (turnOnCharger s) ∧
    (turnOnCharger (turnOnCharger s)).PUEB = (turnOnCharger s).PUEB ∧
    (turnOnCharger (turnOnCharger s)).DDRB = (turnOnCharger s).DDRB ∧
    (turnOnCharger (turnOnCharger s)).PORTB = (turnOnCharger s).PORTB ∧
    newEvents (turnOnCharger s) (turnOnCharger (turnOnCharger s)) =
      [Event.call Fn.turnOnCharger 0] ∧
    turnOffCharger (turnOffCharger s) = log (Event.call Fn.turnOffCharger 0) (turnOffCharger s) ∧
    (turnOffCharger (turnOffCharger s)).PUEB = (turnOffCharger s).PUEB ∧
    (turnOffCharger (turnOffCharger s)).DDRB = (turnOffCharger s).DDRB ∧
    (turnOffCharger (turnOffCharger s)).PORTB = (turnOffCharger s).PORTB ∧
    newEvents (turnOffCharger s) (turnOffCharger (turnOffCharger s)) =
      [Event.call Fn.turnOffCharger 0] := by
  have hon := turnOnCharger_on (isChargerOn_turnOnCharger s)
  have hoff := turnOffCharger_off (isChargerOn_turnOffCharger s)
  refine ⟨hon, ?_, ?_, ?_, ?_, hoff, ?_, ?_, ?_, ?_⟩
  · rw [hon]; rfl
  · rw [hon]; rfl
  · rw [hon]; rfl
  · rw [hon]; exact newEvents_of_trace rfl
  · rw [hoff]; rfl
  · rw [hoff]; rfl
  · rw [hoff]; rfl
  · rw [hoff]; exact newEvents_of_trace rfl

/-- C15: in a state of 8-bit registers in which the charger is off and the pull-up of PB3
is enabled, `turnOnCharger` followed by `turnOffCharger` restores PUEB, DDRB and PORTB
to the values they had before the two calls. -/
theorem turnOffCharger_reverses_turnOnCharger (s : MCU) (hP : s.PUEB < 256)
    (hD : s.DDRB < 256) (hoff : isChargerOn s = 0) (hpull : s.PUEB &&& 8 ≠ 0) :
    (turnOffCharger (turnOnCharger s)).PUEB = s.PUEB ∧
    (turnOffCharger (turnOnCharger s)).DDRB = s.DDRB ∧
    (turnOffCharger (turnOnCharger s)).PORTB = s.PORTB := by
  rw [turnOffCharger_on (isChargerOn_turnOnCharger s), turnOnCharger_off hoff]
  refine ⟨?_, ?_, ?_⟩
  · simp only [delay_ms, log, setPUEB, setDDRB]
    exact byte_clear_set_8 _ hP hpull
  · simp only [delay_ms, log, setPUEB, setDDRB]
    exact byte_set_clear_8 _ hD hoff
  · simp only [delay_ms, log, setPUEB, setDDRB]

/-- C15, in the state left by `initializeRegisters` after power-on. -/
theorem turnOffCharger_reverses_turnOnCharger_witness :
    (startState []).PUEB < 256 ∧ (startState []).DDRB < 256 ∧
    isChargerOn (startState []) = 0 ∧ (startState []).PUEB &&& 8 ≠ 0 ∧
    (turnOffCharger (turnOnCharger (startState []))).PUEB = (startState []).PUEB ∧
    (turnOffCharger (turnOnCharger (startState []))).DDRB = (startState []).DDRB ∧
    (turnOffCharger (turnOnCharger (startState []))).PORTB = (startState []).PORTB :=
  ⟨by decide, by decide, by decide, by decide,
    turnOffCharger_reverses_turnOnCharger (startState []) (by decide) (by decide) (by decide)
      (by decide)⟩

/-- C16 as stated fails: in the state reached from power-on by `initializeRegisters` and
`turnOnMux`, the mux is on, and it is on again after `toggleMux`. -/
theorem toggleMux_leaves_mux_on_when_on :
    isMuxOn (turnOnMux (startState [])) ≠ 0 ∧
    isMuxOn (toggleMux (turnOnMux (startState []))) ≠ 0 := by
  decide

/-- C16 as amended: after `toggleMux` the channel switch line is on, whatever it was
before.  When it was off, `toggleMux` switches it on (a flip of what `isMuxOn` reports);
when it was on, `toggleMux` switches it off, waits the 500 ms of the disconnect, and
switches it on again, so `isMuxOn` reports on before and after. -/
theorem toggleMux_ends_on (s : MCU) :
    isMuxOn (toggleMux s) ≠ 0 ∧
    (isMuxOn s = 0 →
      newEvents s (toggleMux s) =
        [Event.call Fn.toggleMux 0, Event.call Fn.turnOffMux 0, Event.call Fn.turnOnMux 0,
         Event.write Reg.PORTB (s.PORTB ||| 2), Event.delay_ms MUXONDEBOUNCEDELAYMS]) ∧
    (isMuxOn s ≠ 0 →
      newEvents s (toggleMux s) =
        [Event.call Fn.toggleMux 0, Event.call Fn.turnOffMux 0,
         Event.write Reg.PORTB (s.PORTB &&& 0xFD), Event.delay_ms MUXOFFDEBOUNCEDELAYMS,
         Event.call Fn.turnOnMux 0, Event.write Reg.PORTB (s.PORTB &&& 0xFD ||| 2),
         Event.delay_ms MUXONDEBOUNCEDELAYMS]) := by
  have hlog : isMuxOn (log (Event.call Fn.toggleMux 0) s) = isMuxOn s := rfl
  refine ⟨?_, fun h => ?_, fun h => ?_⟩
  · unfold toggleMux
    dsimp only
    by_cases h : isMuxOn s = 0
    · rw [turnOffMux_off (hlog.trans h)]
      have h2 : isMuxOn (log (Event.call Fn.turnOffMux 0) (log (Event.call Fn.toggleMux 0) s))
          = 0 := h
      rw [turnOnMux_off h2]
      show (s.PORTB ||| 2) &&& 2 ≠ 0
      rw [or_2_and_2]; decide
    · have h1 : isMuxOn (log (Event.call Fn.toggleMux 0) s) ≠ 0 := h
      rw [turnOffMux_on h1]
      have h2 : isMuxOn (delay_ms MUXOFFDEBOUNCEDELAYMS (setPORTB
          ((log (Event.call Fn.toggleMux 0) s).PORTB &&& 0xFD)
          (log (Event.call Fn.turnOffMux 0) (log (Event.call Fn.toggleMux 0) s)))) = 0 :=
        and_FD_and_2 s.PORTB
      rw [turnOnMux_off h2]
      show (s.PORTB &&& 0xFD ||| 2) &&& 2 ≠ 0
      rw [or_2_and_2]; decide
  · unfold toggleMux
    dsimp only
    rw [turnOffMux_off (hlog.trans h)]
    have h2 : isMuxOn (log (Event.call Fn.turnOffMux 0) (log (Event.call Fn.toggleMux 0) s))
        = 0 := h
    rw [turnOnMux_off h2]
    exact newEvents_of_trace (by simp [delay_ms, log, setPORTB])
  · unfold toggleMux
    dsimp only
    have h1 : isMuxOn (log (Event.call Fn.toggleMux 0) s) ≠ 0 := h
    rw [turnOffMux_on h1]
    have h2 : isMuxOn (delay_ms MUXOFFDEBOUNCEDELAYMS (setPORTB
        ((log (Event.call Fn.toggleMux 0) s).PORTB &&& 0xFD)
        (log (Event.call Fn.turnOffMux 0) (log (Event.call Fn.toggleMux 0) s)))) = 0 :=
      and_FD_and_2 s.PORTB
    rw [turnOnMux_off h2]
    exact newEvents_of_trace (by simp [delay_ms, log, setPORTB])

theorem waveform_tick (lvl : Bool) (p : Nat) (rest : List Event) :
    waveform lvl (tickEvents p ++ rest) =
      (false, TRANSMITDELAYUS) :: (true, TRANSMITDELAYUS) :: waveform true rest := by
  have h1 : p &&& 0xFB &&& 4 = 0 := and_FB_and_4 p
  have h2 : (p &&& 0xFB ||| 4) &&& 4 = 4 := or_4_and_4 _
  simp [tickEvents, waveform, h1, h2]

theorem waveform_trigger (lvl : Bool) (p : Nat) (rest : List Event) :
    waveform lvl (triggerEvents p ++ rest) =
      (false, TRIGGERTIMEOUTUS) :: (true, TRANSMITDELAYUS) :: waveform true rest := by
  have h1 : p &&& 0xFB &&& 4 = 0 := and_FB_and_4 p
  have h2 : (p &&& 0xFB ||| 4) &&& 4 = 4 := or_4_and_4 _
  simp [triggerEvents, waveform, h1, h2]

theorem waveform_ticks (p n : Nat) :
    waveform true ((List.replicate n (tickEvents p)).flatten) =
      (List.replicate n [(false, TRANSMITDELAYUS), (true, TRANSMITDELAYUS)]).flatten := by
  induction n with
  | zero => simp [waveform]
  | succ n ih =>
    rw [List.replicate_succ, List.flatten_cons, waveform_tick, ih, List.replicate_succ,
      List.flatten_cons]
    rfl

theorem iterate_tick_high (n : Nat) (s : MCU) (h : s.PORTB &&& 4 ≠ 0) :
    (transmitOneTick^[n] s).PORTB &&& 4 ≠ 0 := by
  induction n generalizing s with
  | zero => exact h
  | succ n ih =>
    rw [Function.iterate_succ_apply]
    apply ih
    rw [(transmitOneTick_spec s).2.2, or_4_and_4]
    decide

/-- C13 as stated fails: the waveform of `transmitValue 1` is a low pulse of 255 us, the
line high for 32 us, and one unit pulse; the claim leaves out the 32 us for which
`triggerRead` holds the line high before the first unit pulse. -/
theorem trigger_pulse_has_high_gap :
    ∃ t, transmitValue 1 (startState []) = some (0, t) ∧
      waveform true (newEvents (startState []) t) =
        [(false, 255), (true, 32), (false, 32), (true, 32)] ∧
      waveform true (newEvents (startState []) t) ≠
        (false, 255) :: (List.replicate 1 [(false, 32), (true, 32)]).flatten :=
  ⟨_, transmitValue_valid (by decide) _, by decide, by decide⟩

/-- C13 as amended: for `0 < n < 232` the report-line waveform written by
`transmitValue n` is one low pulse of `TRIGGERTIMEOUTUS` = 255 us, then the line high
for `TRANSMITDELAYUS` = 32 us, then exactly `n` unit pulses, each 32 us low then 32 us
high; 255 > 32, and the line is high when `transmitValue` returns. -/
theorem value_frame_waveform (n : Nat) (s : MCU) (lvl : Bool) (h0 : 0 < n) (h1 : n < 232) :
    ∃ t, transmitValue n s = some (0, t) ∧
      waveform lvl (newEvents s t) =
        (false, TRIGGERTIMEOUTUS) :: (true, TRANSMITDELAYUS) ::
          (List.replicate n [(false, TRANSMITDELAYUS), (true, TRANSMITDELAYUS)]).flatten ∧
      TRIGGERTIMEOUTUS = 255 ∧ TRANSMITDELAYUS = 32 ∧ TRIGGERTIMEOUTUS > TRANSMITDELAYUS ∧
      t.PORTB &&& 4 ≠ 0 := by
  have hv : ¬ (n = 0 ∨ 232 ≤ n) := by omega
  obtain ⟨r, t, h, -, hev, -⟩ := transmitValue_spec n s
  have ht := transmitValue_valid hv s
  rw [h] at ht
  have hr : r = 0 := (Prod.mk.inj (Option.some.inj ht)).1
  have htt : t = transmitOneTick^[n] (triggerRead (log (Event.call Fn.transmitValue n) s)) :=
    (Prod.mk.inj (Option.some.inj ht)).2
  rw [if_neg hv] at hev
  refine ⟨t, by rw [h, hr], ?_, rfl, rfl, by decide, ?_⟩
  · rw [hev]
    have hw : waveform lvl (Event.call Fn.transmitValue n ::
        (triggerEvents s.PORTB ++ (List.replicate n (tickEvents s.PORTB)).flatten)) =
        waveform lvl (triggerEvents s.PORTB ++ (List.replicate n (tickEvents s.PORTB)).flatten) := by
      simp [waveform]
    rw [hw, waveform_trigger, waveform_ticks]
  · rw [htt]
    apply iterate_tick_high
    rw [(triggerRead_spec _).2.2, or_4_and_4]
    decide

/-- C13 as amended, at n = 3. -/
theorem value_frame_waveform_witness :
    0 < 3 ∧ 3 < 232 ∧
    ∃ t, transmitValue 3 (startState []) = some (0, t) ∧
      waveform true (newEvents (startState []) t) =
        (false, TRIGGERTIMEOUTUS) :: (true, TRANSMITDELAYUS) ::
          (List.replicate 3 [(false, TRANSMITDELAYUS), (true, TRANSMITDELAYUS)]).flatten ∧
      TRIGGERTIMEOUTUS = 255 ∧ TRANSMITDELAYUS = 32 ∧ TRIGGERTIMEOUTUS > TRANSMITDELAYUS ∧
      t.PORTB &&& 4 ≠ 0 :=
  ⟨by decide, by decide, value_frame_waveform 3 (startState []) true (by decide) (by decide)⟩

theorem chargerOnEvents_head (s : MCU) :
    ∃ tail, chargerOnEvents s = Event.call Fn.turnOnCharger 0 :: tail := by
  unfold chargerOnEvents
  split
  · exact ⟨_, rfl⟩
  · exact ⟨_, rfl⟩

theorem frameEvents_valid {v : Nat} (h : ¬ Invalid v) (p : Nat) :
    frameEvents p v = Event.call Fn.transmitValue v ::
      (triggerEvents p ++ (List.replicate v (tickEvents p)).flatten) := by
  unfold frameEvents
  rw [if_neg h]

theorem frameEvents_invalid {v : Nat} (h : Invalid v) (p : Nat) :
    frameEvents p v = [Event.call Fn.transmitValue v, Event.call Fn.outputDataError 0,
      Event.write Reg.PORTB (p &&& 0xFB)] := by
  unfold frameEvents
  rw [if_pos h]
  rfl

/-- C18: in a cycle whose averaged baseline `OCV` is valid, the events are: those of the
probe step and of the averaged baseline sample (seven conversions, the last four making
`OCV`); the baseline report, a value frame of one trigger pulse and exactly `OCV` data
pulses; the wait of 750 ms; the call of `turnOnCharger`; and the rest.  Nothing before
the wait touches the charger, and nothing but the wait lies between the end of the frame
and the call of `turnOnCharger`. -/
theorem baseline_report_before_charger (s : MCU) (hv : ¬ Invalid (baselineOCV s)) :
    ∃ (t : MCU) (A rest : List Event) (p : Nat), cycle s = some t ∧
      newEvents s t =
        A ++ (Event.wdt_reset :: Event.call Fn.transmitValue (baselineOCV s) ::
            (triggerEvents p ++ (List.replicate (baselineOCV s) (tickEvents p)).flatten)) ++
          [Event.delay_ms 750, Event.call Fn.turnOnCharger 0] ++ rest ∧
      conversions A = 7 ∧
      (∀ e ∈ A, e.kind ∈ baselineKinds) ∧
      (∀ e ∈ A ++ (Event.wdt_reset :: Event.call Fn.transmitValue (baselineOCV s) ::
            (triggerEvents p ++ (List.replicate (baselineOCV s) (tickEvents p)).flatten)),
          e.kind ∉ [Kind.call Fn.turnOnCharger, Kind.call Fn.turnOffCharger,
            Kind.write Reg.DDRB, Kind.write Reg.PUEB]) ∧
      ((List.replicate (baselineOCV s) (tickEvents p)).flatten).count
        (Event.call Fn.transmitOneTick 0) = baselineOCV s ∧
      WAITFORMASTERDELAYMS = 750 := by
  obtain ⟨t, A, S, M, p, q, d, m, h1, -, -, hL, hA, cA, -, -, -, -, -⟩ :=
    cycle_valid_shape s hv
  obtain ⟨tail, htail⟩ := chargerOnEvents_head s
  rw [frameEvents_valid hv, htail] at hL
  have hR := report_kinds p (baselineOCV s)
  rw [frameEvents_valid hv] at hR
  refine ⟨t, A, tail ++ S ++ M ++ chargerOffEvents q d, p, h1, ?_, cA, hA, ?_, ?_, rfl⟩
  · rw [hL]
    simp only [List.append_assoc, List.cons_append, List.singleton_append, List.nil_append]
  · intro e he hc
    rw [List.mem_append] at he
    rcases he with he | he
    · have := hA e he
      generalize e.kind = k at hc this
      revert k
      decide
    · have := hR e he
      generalize e.kind = k at hc this
      revert k
      decide
  · rw [count_ticks]
    simp [tickEvents]

/-- C18, on a cycle with baseline 180. -/
theorem baseline_report_before_charger_witness :
    (¬ Invalid (baselineOCV (startState [100, 0, 50, 180, 180, 180, 180]))) ∧
    ∃ (t : MCU) (A rest : List Event) (p : Nat),
      cycle (startState [100, 0, 50, 180, 180, 180, 180]) = some t ∧
      newEvents (startState [100, 0, 50, 180, 180, 180, 180]) t =
        A ++ (Event.wdt_reset :: Event.call Fn.transmitValue 180 ::
            (triggerEvents p ++ (List.replicate 180 (tickEvents p)).flatten)) ++
          [Event.delay_ms 750, Event.call Fn.turnOnCharger 0] ++ rest ∧
      conversions A = 7 := by
  have hv : ¬ Invalid (baselineOCV (startState [100, 0, 50, 180, 180, 180, 180])) := by decide
  have hb : baselineOCV (startState [100, 0, 50, 180, 180, 180, 180]) = 180 := by decide
  obtain ⟨t, A, rest, p, h1, h2, h3, -⟩ := baseline_report_before_charger _ hv
  rw [hb] at h2
  exact ⟨hv, t, A, rest, p, h1, h2, h3⟩

/-- C19: let the baseline `OCV` be in [1,231], the sample after `turnOnCharger` be `s1`
in [0,255], and the offset be computed as at main.c line 235; it is `s1 - OCV`.  A
monitoring report whose averaged sample is `a` hands `v` to `transmitValue`, where: if the
integer `a - (s1 - OCV)` is `≤ 0` or `≥ 232`, then `v` is invalid and the report is the
error signal (a negative value wraps to `v = 65536 + (a - (s1 - OCV)) ≥ 232`); otherwise
`v` is `a - (s1 - OCV)` and the report is one trigger pulse and exactly that many data
pulses. -/
theorem negative_compensation_is_error (OCV s1 a : Nat) (u : MCU)
    (hO1 : 1 ≤ OCV) (hO2 : OCV ≤ 231) (hs1 : s1 ≤ 255) (ha : avgAt u.adcIn u.adcCount = a) :
    toI16 (subU16 s1 (toU16 (toI16 OCV))) = (s1 : Int) - (OCV : Int) ∧
    ∃ (r v : Nat) (t : MCU) (pre : List Event),
      monitorReport (toI16 (subU16 s1 (toU16 (toI16 OCV)))) u = some (r, t) ∧
      newEvents u t = pre ++ frameEvents u.PORTB v ∧
      (∀ e ∈ pre, e.kind ∈ Kind.wdt_reset :: adcKinds) ∧ conversions pre = 4 ∧
      (Invalid v ↔ ((a : Int) - ((s1 : Int) - (OCV : Int)) ≤ 0 ∨
          232 ≤ (a : Int) - ((s1 : Int) - (OCV : Int)))) ∧
      (Invalid v → r = 1 ∧ frameEvents u.PORTB v =
          [Event.call Fn.transmitValue v, Event.call Fn.outputDataError 0,
           Event.write Reg.PORTB (u.PORTB &&& 0xFB)]) ∧
      (¬ Invalid v → r = 0 ∧ (v : Int) = (a : Int) - ((s1 : Int) - (OCV : Int)) ∧
          frameEvents u.PORTB v = Event.call Fn.transmitValue v ::
            (triggerEvents u.PORTB ++ (List.replicate v (tickEvents u.PORTB)).flatten)) ∧
      ((a : Int) - ((s1 : Int) - (OCV : Int)) < 0 →
          (v : Int) = 65536 + ((a : Int) - ((s1 : Int) - (OCV : Int))) ∧ 232 ≤ v) := by
  have hoff : toI16 (subU16 s1 (toU16 (toI16 OCV))) = (s1 : Int) - (OCV : Int) := by
    unfold toU16 toI16 subU16
    omega
  refine ⟨hoff, ?_⟩
  obtain ⟨r, t, pre, h1, -, h3, h4, h5, h6⟩ :=
    monitorReport_spec (toI16 (subU16 s1 (toU16 (toI16 OCV)))) u
  have hle := avgAt_le u.adcIn u.adcCount
  have hv : compensated (toI16 (subU16 s1 (toU16 (toI16 OCV)))) u.adcIn u.adcCount =
      toU16 ((a : Int) - ((s1 : Int) - (OCV : Int))) := by
    rw [compensated_eq, hoff, ha]
  rw [hv] at h3 h6
  rw [ha] at hle
  refine ⟨r, _, t, pre, h1, h3, h4, h5, ?_, ?_, ?_, ?_⟩
  · unfold Invalid toU16
    omega
  · intro hinv
    exact ⟨by rw [h6, if_pos hinv], frameEvents_invalid hinv _⟩
  · intro hval
    refine ⟨by rw [h6, if_neg hval], ?_, frameEvents_valid hval _⟩
    unfold Invalid toU16 at hval
    unfold toU16
    omega
  · intro hneg
    unfold toU16
    omega

/-- C19, at OCV = 180, s1 = 185 and a monitoring sample of 0: the compensated value is
-5 and the report is the error signal. -/
theorem negative_compensation_is_error_witness :
    1 ≤ 180 ∧ 180 ≤ 231 ∧ 185 ≤ 255 ∧
    avgAt (startState [0, 0, 0, 0]).adcIn (startState [0, 0, 0, 0]).adcCount = 0 ∧
    ∃ (r v : Nat) (t : MCU), monitorReport (toI16 (subU16 185 (toU16 (toI16 180))))
        (startState [0, 0, 0, 0]) = some (r, t) ∧ Invalid v ∧ r = 1 ∧
      Event.call Fn.outputDataError 0 ∈ newEvents (startState [0, 0, 0, 0]) t := by
  obtain ⟨-, r, v, t, pre, h1, h2, -, -, h5, h6, -, -⟩ :=
    negative_compensation_is_error 180 185 0 (startState [0, 0, 0, 0])
      (by decide) (by decide) (by decide) (by decide)
  have hinv : Invalid v := h5.mpr (Or.inl (by decide))
  refine ⟨by decide, by decide, by decide, by decide, r, v, t, h1, hinv, (h6 hinv).1, ?_⟩
  rw [h2, (h6 hinv).2]
  simp

theorem sample_within (s : MCU) : Within sampleKinds s (getAdcValueBusyWait s).2 :=
  within_of_events (getAdcValueBusyWait_spec s).2.2 (by simp [Event.kind])

theorem delayed_sample_within (s : MCU) :
    Within sampleKinds s (getAdcValueBusyWait (delay_ms ADCREADDELAYMS s)).2 := by
  have h1 := delay_ms_spec ADCREADDELAYMS s
  have h2 := getAdcValueBusyWait_spec (delay_ms ADCREADDELAYMS s)
  exact Within.trans h1.1 h2.2.1 (within_of_events h1.2 (by simp [Event.kind]))
    (sample_within _)

/-- An averaged sample logs one entry of `getAdcValueBusyWaitWithAveraging`, followed by
conversions and delays only. -/
theorem averaging_events (s : MCU) :
    ∃ t rest, getAdcValueBusyWaitWithAveraging s = some (avgAt s.adcIn s.adcCount, t) ∧
      newEvents s t = Event.call Fn.getAdcValueBusyWaitWithAveraging 0 :: rest ∧
      (∀ e ∈ rest, e.kind ∈ sampleKinds) := by
  obtain ⟨t, h, r, -, -⟩ := getAdcValueBusyWaitWithAveraging_spec s
  have h0 := log_spec (Event.call Fn.getAdcValueBusyWaitWithAveraging 0) s
    (by simp [Event.kind]) (by simp [Event.kind])
  have h1 := getAdcValueBusyWait_spec (log (Event.call Fn.getAdcValueBusyWaitWithAveraging 0) s)
  have w1 := sample_within (log (Event.call Fn.getAdcValueBusyWaitWithAveraging 0) s)
  have h2 := delayed_sample_spec
    (getAdcValueBusyWait (log (Event.call Fn.getAdcValueBusyWaitWithAveraging 0) s)).2
  have w2 := delayed_sample_within
    (getAdcValueBusyWait (log (Event.call Fn.getAdcValueBusyWaitWithAveraging 0) s)).2
  have h3 := delayed_sample_spec (getAdcValueBusyWait (delay_ms ADCREADDELAYMS
    (getAdcValueBusyWait (log (Event.call Fn.getAdcValueBusyWaitWithAveraging 0) s)).2)).2
  have w3 := delayed_sample_within (getAdcValueBusyWait (delay_ms ADCREADDELAYMS
    (getAdcValueBusyWait (log (Event.call Fn.getAdcValueBusyWaitWithAveraging 0) s)).2)).2
  have h4 := delayed_sample_spec (getAdcValueBusyWait (delay_ms ADCREADDELAYMS
    (getAdcValueBusyWait (delay_ms ADCREADDELAYMS
    (getAdcValueBusyWait (log (Event.call Fn.getAdcValueBusyWaitWithAveraging 0) s)).2)).2)).2
  have w4 := delayed_sample_within (getAdcValueBusyWait (delay_ms ADCREADDELAYMS
    (getAdcValueBusyWait (delay_ms ADCREADDELAYMS
    (getAdcValueBusyWait (log (Event.call Fn.getAdcValueBusyWaitWithAveraging 0) s)).2)).2)).2
  have r2 := h1.2.1.andThen h2.1
  have r3 := r2.andThen h3.1
  have r4 := r3.andThen h4.1
  have q2 := Within.trans h1.2.1 h2.1 w1 w2
  have q3 := Within.trans r2 h3.1 q2 w3
  have q4 := Within.trans r3 h4.1 q3 w4
  -- the state reached is the one the loop returns
  have ht : getAdcValueBusyWaitWithAveraging s = some (avgAt s.adcIn s.adcCount,
      (getAdcValueBusyWait (delay_ms ADCREADDELAYMS (getAdcValueBusyWait (delay_ms ADCREADDELAYMS
        (getAdcValueBusyWait (delay_ms ADCREADDELAYMS (getAdcValueBusyWait
          (log (Event.call Fn.getAdcValueBusyWaitWithAveraging 0) s)).2)).2)).2)).2) := by
    rw [h]
    have := h
    simp only [getAdcValueBusyWaitWithAveraging, averagingLoop, ADCITERATIONS] at this
    norm_num at this
    rw [this.2]
  refine ⟨_, _, ht, ?_, q4⟩
  rw [newEvents_trans h0.1 r4, h0.2]
  rfl

/-- One report of the monitoring loop takes one averaged sample. -/
theorem monitorReport_calls (off : Int) (s : MCU) :
    ∃ r t, monitorReport off s = some (r, t) ∧
      (newEvents s t).count (Event.call Fn.getAdcValueBusyWaitWithAveraging 0) = 1 := by
  obtain ⟨r, t, pre, h, -, -, -, -, -⟩ := monitorReport_spec off s
  have a1 := wdt_reset_spec s
  obtain ⟨t1, rest, h1, e1, k1⟩ := averaging_events (wdt_reset s)
  obtain ⟨t1', h1', r1, -, -⟩ := getAdcValueBusyWaitWithAveraging_spec (wdt_reset s)
  have ht1 : t1' = t1 := by
    rw [h1] at h1'
    exact ((Prod.mk.inj (Option.some.inj h1')).2).symm
  subst ht1
  obtain ⟨r2, t2, h2, r2', e2, -⟩ := transmitValue_frame
    (toU16 (toI16 (subU16 (avgAt s.adcIn s.adcCount) (toU16 off)))) t1'
  have heq : monitorReport off s = some (r2, t2) := by
    unfold monitorReport
    simp only []
    rw [h1]
    exact h2
  rw [h] at heq
  have ht : t = t2 := (Prod.mk.inj (Option.some.inj heq)).2
  subst ht
  refine ⟨r, t, h, ?_⟩
  rw [newEvents_trans (a1.1.andThen r1) r2', newEvents_trans a1.1 r1, a1.2, e1, e2,
    List.count_append, List.count_append,
    count_eq_zero_of_kinds (frameEvents_kinds _ _) _ (by decide), List.count_cons_self,
    count_eq_zero_of_kinds k1 _ (by decide)]
  simp

/-- The monitoring loop takes one averaged sample of four conversions per report, and
the last thing it does is a frame. -/
theorem monitorLoop_tail (N off : Int) :
    ∀ (fuel : Nat) (i : Int) (s : MCU), i ≤ N → N - i < (fuel : Int) →
      ∃ t, monitorLoop N off fuel i s = some t ∧ Run s t ∧
        4 * (newEvents s t).count (Event.call Fn.getAdcValueBusyWaitWithAveraging 0) =
          conversions (newEvents s t) ∧
        ∃ pre p v, newEvents s t = pre ++ frameEvents p v := by
  intro fuel
  induction fuel with
  | zero =>
    intro i s hi hf
    exact absurd hf (by simp; omega)
  | succ n ih =>
    intro i s hi hf
    obtain ⟨r, t1, pre, h1, r1, e1, hpre, hconv, hr⟩ := monitorReport_spec off s
    obtain ⟨r', t1', h1', hc⟩ := monitorReport_calls off s
    have ht : t1' = t1 := by
      rw [h1] at h1'
      exact ((Prod.mk.inj (Option.some.inj h1')).2).symm
    subst ht
    have f2 := (report_facts s.PORTB (compensated off s.adcIn s.adcCount) hpre hconv).2.1
    rw [← e1] at f2
    by_cases hb : r ≠ 0 ∨ i = N
    · refine ⟨t1', monitorLoop_break hi h1 hb, r1, by rw [hc, f2], pre, _, _, e1⟩
    · have hiN : i < N := lt_of_le_of_ne hi (fun h => hb (Or.inr h))
      have a2 := powerDownSleep_spec t1'
      obtain ⟨-, g2, -, -, -⟩ := sleepEvents_facts t1'.ADCSRA
      have g1 : (sleepEvents t1'.ADCSRA).count
          (Event.call Fn.getAdcValueBusyWaitWithAveraging 0) = 0 := by
        simp [sleepEvents]
      rw [← a2.2] at g1 g2
      have r2 := r1.andThen a2.1
      obtain ⟨t, k1, k2, k3, pre2, p2, v2, k4⟩ :=
        ih (i + 1) (powerDownSleep t1') (by omega) (by push_cast at hf ⊢; omega)
      have hev : newEvents s t = newEvents s t1' ++ newEvents t1' (powerDownSleep t1') ++
          newEvents (powerDownSleep t1') t := by
        rw [newEvents_trans r2 k2, newEvents_trans r1 a2.1]
      refine ⟨t, ?_, r2.andThen k2, ?_, newEvents s t1' ++ newEvents t1' (powerDownSleep t1')
        ++ pre2, p2, v2, ?_⟩
      · rw [monitorLoop_continue hi h1 hb]
        exact k1
      · rw [hev, List.count_append, List.count_append, conversions_append, conversions_append,
          hc, f2, g2, g1, ← k3]
        omega
      · rw [hev, k4]
        simp only [List.append_assoc]

/-- C11: in a cycle with a valid baseline the interval `N` is 33 or 66.  The monitoring
loop with interval `N`, whatever the offset and the state it starts in, ends after some
number `m` of reports with `1 ≤ m ≤ N`: it takes `m` averaged samples (`4 m` conversions),
emits `m` frames and sleeps `m - 1` times, and `m = N` when every compensated value is
valid.  Hence, in the cycle, at most `N - 1` sleeps lie between `turnOnCharger` and the
`turnOffCharger` that switches the charger off. -/
theorem monitoring_bounded_by_interval (s : MCU) (hv : ¬ Invalid (baselineOCV s)) :
    (cycleInterval s = 33 ∨ cycleInterval s = 66) ∧
    (∀ (off : Int) (u : MCU), ∃ (t : MCU) (m : Nat),
      monitorLoop (cycleInterval s) off (cycleInterval s).toNat 1 u = some t ∧
      1 ≤ m ∧ (m : Int) ≤ cycleInterval s ∧
      (newEvents u t).count (Event.call Fn.getAdcValueBusyWaitWithAveraging 0) = m ∧
      conversions (newEvents u t) = 4 * m ∧
      (transmitArgs (newEvents u t)).length = m ∧
      (newEvents u t).count Event.sleep_mode = m - 1 ∧
      ((∀ j : Nat, (j : Int) < cycleInterval s →
          ¬ Invalid (compensated off u.adcIn (u.adcCount + 4 * j))) →
        (m : Int) = cycleInterval s)) ∧
    (∃ (t : MCU) (R B : List Event) (q d : Nat), cycle s = some t ∧
      newEvents s t = R ++ chargerOnEvents s ++ B ++ chargerOffEvents q d ∧
      R.count (Event.call Fn.turnOnCharger 0) = 0 ∧
      B.count (Event.call Fn.turnOffCharger 0) = 0 ∧
      ((B.count Event.sleep_mode : Nat) : Int) ≤ cycleInterval s - 1) := by
  have hN := cycleInterval_cases s
  refine ⟨hN, fun off u => ?_, ?_⟩
  · obtain ⟨t, m, k1, -, -, k4, k5, k6, k7, k8, -, k10, -, -⟩ :=
      monitorLoop_spec (cycleInterval s) off (cycleInterval s).toNat 1 u (by omega) (by omega)
    obtain ⟨t', j1, -, j3, -⟩ :=
      monitorLoop_tail (cycleInterval s) off (cycleInterval s).toNat 1 u (by omega) (by omega)
    have ht : t' = t := by
      rw [k1] at j1
      exact (Option.some.inj j1).symm
    subst ht
    refine ⟨t', m, k1, k4, by omega, by omega, k6, by rw [k7]; simp, k8, fun hall => ?_⟩
    rcases k10 with hinv | hstop
    · exact absurd hinv (hall (m - 1) (by omega))
    · omega
  · obtain ⟨t, A, S, M, p, q, d, m, h1, -, -, hL, hA, -, hS, -, mon, -, -⟩ :=
      cycle_valid_shape s hv
    have hR := report_kinds p (baselineOCV s)
    refine ⟨t, A ++ (Event.wdt_reset :: frameEvents p (baselineOCV s)) ++
        [Event.delay_ms WAITFORMASTERDELAYMS], S ++ M, q, d, h1, ?_, ?_, ?_, ?_⟩
    · rw [hL]
      simp only [List.append_assoc, List.cons_append, List.singleton_append, List.nil_append]
    · rw [List.count_append, List.count_append, count_eq_zero_of_kinds hA _ (by decide),
        count_eq_zero_of_kinds hR _ (by decide)]
      simp
    · rw [List.count_append, count_eq_zero_of_kinds hS _ (by decide),
        count_eq_zero_of_kinds mon.kinds _ (by decide)]
    · rw [List.count_append, count_eq_zero_of_kinds hS _ (by decide), mon.sleeps]
      have := mon.le
      have := mon.pos
      omega

/-- C11, on a cycle with baseline 180. -/
theorem monitoring_bounded_by_interval_witness :
    (¬ Invalid (baselineOCV (startState [100, 0, 50, 180, 180, 180, 180]))) ∧
    (cycleInterval (startState [100, 0, 50, 180, 180, 180, 180]) = 33 ∨
      cycleInterval (startState [100, 0, 50, 180, 180, 180, 180]) = 66) :=
  ⟨by decide,
   (monitoring_bounded_by_interval (startState [100, 0, 50, 180, 180, 180, 180])
      (by decide)).1⟩

/-- C17: in iteration `i ≤ N` of the monitoring loop, after the report (whose result `r`
is 0 exactly when its frame is a value frame), the power-down sleep is entered and the
loop goes on with `i + 1` if `r = 0` and `i < N`; otherwise the loop ends with the frame,
without a sleep.  So a monitoring phase, which emits some number `k ≥ 1` of frames,
sleeps `k - 1` times, and its log ends with a frame, which holds no sleep. -/
theorem sleep_iff_value_frame_and_not_last (N off : Int) (fuel : Nat) (i : Int) (u : MCU)
    (hi : i ≤ N) (hf : N - i < ((fuel + 1 : Nat) : Int)) :
    (∃ r t1, monitorReport off u = some (r, t1) ∧
      (r = 0 ↔ ¬ Invalid (compensated off u.adcIn u.adcCount)) ∧
      (newEvents u t1).count Event.sleep_mode = 0 ∧
      ((r = 0 ∧ i < N) →
        monitorLoop N off (fuel + 1) i u =
          monitorLoop N off fuel (i + 1) (powerDownSleep t1) ∧
        (newEvents t1 (powerDownSleep t1)).count Event.sleep_mode = 1) ∧
      (¬ (r = 0 ∧ i < N) → monitorLoop N off (fuel + 1) i u = some t1)) ∧
    (∃ (t : MCU) (k : Nat), monitorLoop N off (fuel + 1) i u = some t ∧ 1 ≤ k ∧
      (transmitArgs (newEvents u t)).length = k ∧
      (newEvents u t).count Event.sleep_mode = k - 1 ∧
      ∃ pre p v, newEvents u t = pre ++ frameEvents p v ∧
        (frameEvents p v).count Event.sleep_mode = 0) := by
  constructor
  · obtain ⟨r, t1, pre, h1, -, e1, hpre, hconv, hr⟩ := monitorReport_spec off u
    obtain ⟨-, -, -, f4, -⟩ :=
      report_facts u.PORTB (compensated off u.adcIn u.adcCount) hpre hconv
    rw [← e1] at f4
    refine ⟨r, t1, h1, ?_, f4, fun hc => ?_, fun hc => ?_⟩
    · rw [hr]
      split <;> simp [*]
    · have hb : ¬ (r ≠ 0 ∨ i = N) := by
        intro hb
        rcases hb with hb | hb
        · exact hb hc.1
        · omega
      refine ⟨monitorLoop_continue hi h1 hb, ?_⟩
      rw [(powerDownSleep_spec t1).2]
      exact (sleepEvents_facts _).2.2.2.1
    · have hb : r ≠ 0 ∨ i = N := by
        by_cases h0 : r = 0
        · right
          by_contra hne
          exact hc ⟨h0, lt_of_le_of_ne hi hne⟩
        · exact Or.inl h0
      exact monitorLoop_break hi h1 hb
  · obtain ⟨t, m, k1, -, -, k4, -, -, k7, k8, -, -, -, -⟩ :=
      monitorLoop_spec N off (fuel + 1) i u hi hf
    obtain ⟨t', j1, -, -, pre, p, v, j4⟩ := monitorLoop_tail N off (fuel + 1) i u hi hf
    have ht : t' = t := by
      rw [k1] at j1
      exact (Option.some.inj j1).symm
    subst ht
    exact ⟨t', m, k1, k4, by rw [k7]; simp, k8, pre, p, v, j4,
      count_eq_zero_of_kinds (frameEvents_kinds p v) _ (by decide)⟩

/-- C17, for the interval 33 entered at its first iteration. -/
theorem sleep_iff_value_frame_and_not_last_witness :
    (1 : Int) ≤ 33 ∧ (33 : Int) - 1 < ((32 + 1 : Nat) : Int) ∧
    ∃ (t : MCU) (k : Nat), monitorLoop 33 0 (32 + 1) 1 (startState []) = some t ∧ 1 ≤ k ∧
      (transmitArgs (newEvents (startState []) t)).length = k ∧
      (newEvents (startState []) t).count Event.sleep_mode = k - 1 ∧
      ∃ pre p v, newEvents (startState []) t = pre ++ frameEvents p v ∧
        (frameEvents p v).count Event.sleep_mode = 0 :=
  ⟨by decide, by decide,
   (sleep_iff_value_frame_and_not_last 33 0 32 1 (startState []) (by decide) (by decide)).2⟩

theorem averaging_eq (s : MCU) :
    getAdcValueBusyWaitWithAveraging s = some (avgAt s.adcIn s.adcCount, averagingState s) := by
  obtain ⟨t, h, -, -, -⟩ := getAdcValueBusyWaitWithAveraging_spec s
  rw [h]
  have := h
  simp only [getAdcValueBusyWaitWithAveraging, averagingLoop, ADCITERATIONS] at this
  norm_num at this
  rw [← this.2]
  rfl

theorem probe_mcu_eq (s : MCU) :
    (probeAndSelect s).mcu = probeSamples s ∨
    (probeAndSelect s).mcu = toggleMux (probeSamples s) := by
  unfold probeAndSelect
  dsimp only
  split
  · exact Or.inr rfl
  · exact Or.inl rfl

theorem monitorReport_eq (off : Int) (s : MCU) :
    monitorReport off s =
      transmitValue (toU16 (toI16 (subU16 (avgAt s.adcIn s.adcCount) (toU16 off))))
        (averagingState (wdt_reset s)) := by
  unfold monitorReport
  simp only []
  rw [averaging_eq]
  rfl

theorem closed_averaging {R : MCU → MCU → Prop} (hR : Closed R) (s : MCU) :
    R s (averagingState s) := by
  unfold averagingState
  exact hR.trans _ _ _ (hR.entry s)
    (hR.trans _ _ _ (hR.sample _)
      (hR.trans _ _ _ (hR.delay _ _)
        (hR.trans _ _ _ (hR.sample _)
          (hR.trans _ _ _ (hR.delay _ _)
            (hR.trans _ _ _ (hR.sample _)
              (hR.trans _ _ _ (hR.delay _ _) (hR.sample _)))))))

theorem closed_monitorReport {R : MCU → MCU → Prop} (hR : Closed R) {off : Int} {s t : MCU}
    {r : Nat} (h : monitorReport off s = some (r, t)) : R s t := by
  rw [monitorReport_eq] at h
  exact hR.trans _ _ _ (hR.wdt s)
    (hR.trans _ _ _ (closed_averaging hR _) (hR.transmit _ _ _ _ h))

theorem closed_monitorLoop {R : MCU → MCU → Prop} (hR : Closed R) (N off : Int) :
    ∀ (fuel : Nat) (i : Int) (s t : MCU), monitorLoop N off fuel i s = some t → R s t := by
  intro fuel
  induction fuel with
  | zero =>
    intro i s t h
    rw [monitorLoop] at h
    split at h
    · exact absurd h (by simp)
    · rw [← Option.some.inj h]
      exact hR.refl s
  | succ n ih =>
    intro i s t h
    by_cases hi : i ≤ N
    · obtain ⟨r, t1, -, h1, -⟩ := monitorReport_spec off s
      by_cases hb : r ≠ 0 ∨ i = N
      · rw [monitorLoop_break hi h1 hb] at h
        rw [← Option.some.inj h]
        exact closed_monitorReport hR h1
      · rw [monitorLoop_continue hi h1 hb] at h
        exact hR.trans _ _ _ (closed_monitorReport hR h1)
          (hR.trans _ _ _ (hR.sleep t1) (ih _ _ _ h))
    · rw [monitorLoop, if_neg hi] at h
      rw [← Option.some.inj h]
      exact hR.refl s

theorem closed_chargeAndMonitor {R : MCU → MCU → Prop} (hR : Closed R) {N x : Int}
    {s t : MCU} (h : chargeAndMonitor N x s = some t) : R s t := by
  unfold chargeAndMonitor at h
  dsimp only at h
  rw [Option.bind_eq_some] at h
  obtain ⟨⟨r, s3⟩, h3, h⟩ := h
  dsimp only at h
  rw [averaging_eq, Option.some_bind] at h
  dsimp only at h
  rw [Option.bind_eq_some] at h
  obtain ⟨s7, h7, h⟩ := h
  have e : t = turnOffCharger s7 := (Option.some.inj h).symm
  subst e
  have a1 : R s (wdt_reset s) := hR.wdt s
  have a2 : R (wdt_reset s) s3 := hR.transmit _ _ _ _ h3
  have a3 : R s3 (delay_ms WAITFORMASTERDELAYMS s3) := hR.delay _ _
  have a4 : R (delay_ms WAITFORMASTERDELAYMS s3)
      (turnOnCharger (delay_ms WAITFORMASTERDELAYMS s3)) := hR.chargerOn _
  have a5 : R (turnOnCharger (delay_ms WAITFORMASTERDELAYMS s3))
      (averagingState (turnOnCharger (delay_ms WAITFORMASTERDELAYMS s3))) :=
    closed_averaging hR _
  have a6 : R (averagingState (turnOnCharger (delay_ms WAITFORMASTERDELAYMS s3))) s7 :=
    closed_monitorLoop hR _ _ _ _ _ _ h7
  have a7 : R s7 (turnOffCharger s7) := hR.chargerOff s7
  exact hR.trans _ _ _ a1 (hR.trans _ _ _ a2 (hR.trans _ _ _ a3 (hR.trans _ _ _ a4
    (hR.trans _ _ _ a5 (hR.trans _ _ _ a6 a7)))))

theorem closed_after_probe {R : MCU → MCU → Prop} (hR : Closed R) {s t : MCU}
    (h : cycle s = some t) : R (probeAndSelect s).mcu t := by
  unfold cycle at h
  dsimp only at h
  rw [averaging_eq, Option.some_bind] at h
  dsimp only at h
  refine hR.trans _ _ _ (closed_averaging hR _) ?_
  split at h
  · rw [← Option.some.inj h]
    exact hR.error _
  · exact closed_chargeAndMonitor hR h

theorem closed_probeSamples {R : MCU → MCU → Prop} (hR : ClosedMux R) (s : MCU) :
    R s (probeSamples s) := by
  unfold probeSamples
  exact hR.core.trans _ _ _ (hR.core.wdt s)
    (hR.core.trans _ _ _ (hR.muxOn _)
      (hR.core.trans _ _ _ (hR.core.sample _)
        (hR.core.trans _ _ _ (hR.muxOff _)
          (hR.core.trans _ _ _ (hR.core.sample _)
            (hR.core.trans _ _ _ (hR.muxOn _) (hR.core.sample _))))))

theorem closed_toggleMux {R : MCU → MCU → Prop} (hR : ClosedMux R) (s : MCU) :
    R s (toggleMux s) := by
  unfold toggleMux
  exact hR.core.trans _ _ _ (hR.toggle s)
    (hR.core.trans _ _ _ (hR.muxOff _) (hR.muxOn _))

theorem closed_probe {R : MCU → MCU → Prop} (hR : ClosedMux R) (s : MCU) :
    R s (probeAndSelect s).mcu := by
  rcases probe_mcu_eq s with h | h
  · rw [h]
    exact closed_probeSamples hR s
  · rw [h]
    exact hR.core.trans _ _ _ (closed_probeSamples hR s) (closed_toggleMux hR _)

theorem closed_cycle {R : MCU → MCU → Prop} (hR : ClosedMux R) {s t : MCU}
    (h : cycle s = some t) : R s t :=
  hR.core.trans _ _ _ (closed_probe hR s) (closed_after_probe hR.core h)

theorem closed_mainLoop {R : MCU → MCU → Prop} (hR : ClosedMux R) :
    ∀ (n : Nat) (s t : MCU), mainLoop n s = some t → R s t := by
  intro n
  induction n with
  | zero =>
    intro s t h
    rw [mainLoop] at h
    rw [← Option.some.inj h]
    exact hR.core.refl s
  | succ n ih =>
    intro s t h
    rw [mainLoop_succ, Option.bind_eq_some] at h
    obtain ⟨u, h1, h2⟩ := h
    exact hR.core.trans _ _ _ (closed_cycle hR h1) (ih _ _ h2)

theorem cycle_total (s : MCU) : ∃ t, cycle s = some t := by
  by_cases hv : Invalid (baselineOCV s)
  · obtain ⟨t, -, -, h, -⟩ := cycle_invalid_shape s hv
    exact ⟨t, h⟩
  · obtain ⟨t, -, -, -, -, -, -, -, h, -⟩ := cycle_valid_shape s hv
    exact ⟨t, h⟩

theorem mainLoop_total (n : Nat) : ∀ s, ∃ t, mainLoop n s = some t := by
  induction n with
  | zero => exact fun s => ⟨s, by rw [mainLoop]⟩
  | succ n ih =>
    intro s
    obtain ⟨u, h1⟩ := cycle_total s
    obtain ⟨t, h2⟩ := ih u
    exact ⟨t, by rw [mainLoop_succ, h1]; exact h2⟩

theorem testBit_four {i : Nat} (h : Nat.testBit 4 i = true) : i = 2 := by
  by_contra hne
  have : Nat.testBit 4 i = false := by
    rw [show (4 : Nat) = 2 ^ 2 from rfl, Nat.testBit_two_pow]
    simp; omega
  simp [this] at h

theorem testBit_two {i : Nat} (h : Nat.testBit 2 i = true) : i = 1 := by
  by_contra hne
  have : Nat.testBit 2 i = false := by
    rw [show (2 : Nat) = 2 ^ 1 from rfl, Nat.testBit_two_pow]
    simp; omega
  simp [this] at h

theorem or_2_and_4 (p : Nat) : (p ||| 2) &&& 4 = p &&& 4 := by
  apply Nat.eq_of_testBit_eq
  intro i
  simp only [Nat.testBit_and, Nat.testBit_or]
  cases h4 : Nat.testBit 4 i
  · simp
  · have := testBit_four h4
    subst this
    have h2 : Nat.testBit 2 2 = false := by decide
    simp [h2]

theorem or_4_and_2 (p : Nat) : (p ||| 4) &&& 2 = p &&& 2 := by
  apply Nat.eq_of_testBit_eq
  intro i
  simp only [Nat.testBit_and, Nat.testBit_or]
  cases h2 : Nat.testBit 2 i
  · simp
  · have := testBit_two h2
    subst this
    have h4 : Nat.testBit 4 1 = false := by decide
    simp [h4]

theorem and_FD_and_4 (p : Nat) : p &&& 0xFD &&& 4 = p &&& 4 := by
  rw [Nat.and_assoc, show (0xFD : Nat) &&& 4 = 4 by decide]

theorem and_FB_and_2 (p : Nat) : p &&& 0xFB &&& 2 = p &&& 2 := by
  rw [Nat.and_assoc, show (0xFB : Nat) &&& 2 = 2 by decide]

theorem lineScan_append (b : Bool) (xs ys : List Event) :
    lineScan b (xs ++ ys) = (lineScan b xs).bind fun c => lineScan c ys := by
  induction xs generalizing b with
  | nil => rfl
  | cons e xs ih =>
    simp only [List.cons_append, lineScan]
    cases lineStep b e with
    | none => rfl
    | some c => simp [ih]

theorem lineStep_quiet (b : Bool) {e : Event} (h1 : e.kind ≠ Kind.write Reg.PORTB)
    (h2 : e.kind ≠ Kind.call Fn.outputDataError) (h3 : e.kind ≠ Kind.call Fn.triggerRead) :
    lineStep b e = some b := by
  cases e with
  | call f a =>
    have hf1 : f ≠ Fn.outputDataError := fun h => h2 (by simp [Event.kind, h])
    have hf2 : f ≠ Fn.triggerRead := fun h => h3 (by simp [Event.kind, h])
    simp [lineStep, hf1, hf2]
  | write r v =>
    have hr : r ≠ Reg.PORTB := fun h => h1 (by simp [Event.kind, h])
    simp [lineStep, hr]
  | _ => rfl

theorem lineScan_quiet (b : Bool) {evs : List Event}
    (h : ∀ e ∈ evs, e.kind ≠ Kind.write Reg.PORTB ∧ e.kind ≠ Kind.call Fn.outputDataError ∧
      e.kind ≠ Kind.call Fn.triggerRead) : lineScan b evs = some b := by
  induction evs with
  | nil => rfl
  | cons e xs ih =>
    have he := h e (List.mem_cons_self _ _)
    rw [lineScan, lineStep_quiet b he.1 he.2.1 he.2.2, Option.some_bind]
    exact ih (fun x hx => h x (List.mem_cons_of_mem _ hx))

theorem lineScan_quiet_kinds (b : Bool) {K : List Kind} {evs : List Event}
    (h : ∀ e ∈ evs, e.kind ∈ K) (h1 : Kind.write Reg.PORTB ∉ K)
    (h2 : Kind.call Fn.outputDataError ∉ K) (h3 : Kind.call Fn.triggerRead ∉ K) :
    lineScan b evs = some b :=
  lineScan_quiet b (fun e he =>
    ⟨fun hk => h1 (hk ▸ h e he), fun hk => h2 (hk ▸ h e he), fun hk => h3 (hk ▸ h e he)⟩)

theorem lineSafe_refl (s : MCU) : LineSafe s s := by
  refine ⟨Run.stay s, fun b hb => ⟨b, ?_, hb⟩⟩
  rw [newEvents_self]
  rfl

theorem lineSafe_trans (a b c : MCU) (h1 : LineSafe a b) (h2 : LineSafe b c) :
    LineSafe a c := by
  refine ⟨h1.1.andThen h2.1, fun f hf => ?_⟩
  obtain ⟨g, hg, hg2⟩ := h1.2 f hf
  obtain ⟨k, hk, hk2⟩ := h2.2 g hg2
  refine ⟨k, ?_, hk2⟩
  rw [newEvents_trans h1.1 h2.1, lineScan_append, hg, Option.some_bind, hk]

theorem lineSafe_of_quiet {K : List Kind} {s t : MCU} (r : Run s t) (w : Within K s t)
    (h1 : Kind.write Reg.PORTB ∉ K) (h2 : Kind.call Fn.outputDataError ∉ K)
    (h3 : Kind.call Fn.triggerRead ∉ K) : LineSafe s t := by
  refine ⟨r, fun b hb => ⟨b, lineScan_quiet_kinds b w h1 h2 h3, ?_⟩⟩
  rw [(reg_of_within r w).1 h1]
  exact hb

theorem lineScan_false {evs : List Event}
    (h : ∀ e ∈ evs, e.kind ≠ Kind.call Fn.outputDataError) : lineScan false evs = some false := by
  induction evs with
  | nil => rfl
  | cons e xs ih =>
    have he := h e (List.mem_cons_self _ _)
    have hs : lineStep false e = some false := by
      cases e with
      | call f a =>
        have hf : f ≠ Fn.outputDataError := fun hf => he (by simp [Event.kind, hf])
        simp [lineStep, hf]
      | write r v => simp [lineStep]
      | _ => rfl
    rw [lineScan, hs, Option.some_bind]
    exact ih (fun x hx => h x (List.mem_cons_of_mem _ hx))

theorem lineStep_write_low (b : Bool) {v : Nat} (h : b = true → v &&& 4 = 0) :
    lineStep b (Event.write Reg.PORTB v) = some b := by
  unfold lineStep
  dsimp only
  rw [if_neg]
  intro hc
  exact hc.2.2 (h hc.2.1)

theorem lineScan_error (b : Bool) (p : Nat) : lineScan b (errorEvents p) = some true := by
  have h := lineStep_write_low true (fun _ => and_FB_and_4 p)
  simp [errorEvents, lineScan, lineStep] at h ⊢
  exact h

theorem lineScan_frame (b : Bool) (p v : Nat) :
    lineScan b (frameEvents p v) = some (decide (v = 0 ∨ 232 ≤ v)) := by
  unfold frameEvents
  have h0 : lineStep b (Event.call Fn.transmitValue v) = some b := by simp [lineStep]
  rw [lineScan, h0, Option.some_bind]
  split
  · rename_i hv
    rw [lineScan_error]
    simp [hv]
  · rename_i hv
    have h1 : lineScan b (triggerEvents p ++ (List.replicate v (tickEvents p)).flatten) =
        lineScan false (List.tail (triggerEvents p) ++
          (List.replicate v (tickEvents p)).flatten) := by
      simp [triggerEvents, lineScan, lineStep]
    rw [h1, lineScan_false]
    · simp [hv]
    · intro e he
      rw [List.mem_append] at he
      rcases he with he | he
      · revert e
        simp [triggerEvents, Event.kind]
      · rw [List.mem_flatten] at he
        obtain ⟨l, hl, hel⟩ := he
        rw [List.eq_of_mem_replicate hl] at hel
        revert e
        simp [tickEvents, Event.kind]

theorem lineSafe_error (s : MCU) : LineSafe s (outputDataError s) := by
  have h := outputDataError_spec s
  refine ⟨h.1, fun b _ => ⟨true, ?_, fun _ => ?_⟩⟩
  · rw [h.2.1, lineScan_error]
  · rw [h.2.2]
    exact and_FB_and_4 s.PORTB

theorem lineSafe_transmit (v : Nat) (s : MCU) (r : Nat) (t : MCU)
    (h : transmitValue v s = some (r, t)) : LineSafe s t := by
  obtain ⟨r', t', h', hrun, hev, -⟩ := transmitValue_frame v s
  rw [h] at h'
  have ht : t = t' := (Prod.mk.inj (Option.some.inj h')).2
  subst ht
  refine ⟨hrun, fun b _ => ⟨decide (v = 0 ∨ 232 ≤ v), ?_, fun hc => ?_⟩⟩
  · rw [hev, lineScan_frame]
  · have hv : v = 0 ∨ 232 ≤ v := of_decide_eq_true hc
    have ht := transmitValue_error hv s
    rw [h] at ht
    rw [(Prod.mk.inj (Option.some.inj ht)).2]
    exact and_FB_and_4 s.PORTB

theorem lineSafe_muxOn (s : MCU) : LineSafe s (turnOnMux s) := by
  have h := turnOnMux_spec s
  refine ⟨h.1, fun b hb => ?_⟩
  by_cases hon : isMuxOn s ≠ 0
  · refine ⟨b, ?_, fun hc => ?_⟩
    · rw [h.2, if_pos hon]
      simp [lineScan, lineStep]
    · rw [turnOnMux_on hon]
      exact hb hc
  · have hw := @lineStep_write_low b (s.PORTB ||| 2)
      (fun hc => by rw [or_2_and_4]; exact hb hc)
    refine ⟨b, ?_, fun hc => ?_⟩
    · rw [h.2, if_neg hon]
      simp only [lineScan]
      rw [show lineStep b (Event.call Fn.turnOnMux 0) = some b by simp [lineStep],
        Option.some_bind, hw, Option.some_bind]
      rfl
    · rw [turnOnMux_off (not_not.mp hon)]
      show (s.PORTB ||| 2) &&& 4 = 0
      rw [or_2_and_4]
      exact hb hc

theorem lineSafe_muxOff (s : MCU) : LineSafe s (turnOffMux s) := by
  have h := turnOffMux_spec s
  refine ⟨h.1, fun b hb => ?_⟩
  by_cases hoff : isMuxOn s = 0
  · refine ⟨b, ?_, fun hc => ?_⟩
    · rw [h.2, if_pos hoff]
      simp [lineScan, lineStep]
    · rw [turnOffMux_off hoff]
      exact hb hc
  · have hw := @lineStep_write_low b (s.PORTB &&& 0xFD)
      (fun hc => by rw [and_FD_and_4]; exact hb hc)
    refine ⟨b, ?_, fun hc => ?_⟩
    · rw [h.2, if_neg hoff]
      simp only [lineScan]
      rw [show lineStep b (Event.call Fn.turnOffMux 0) = some b by simp [lineStep],
        Option.some_bind, hw, Option.some_bind]
      rfl
    · rw [turnOffMux_on hoff]
      show (s.PORTB &&& 0xFD) &&& 4 = 0
      rw [and_FD_and_4]
      exact hb hc

theorem lineSafe_closed : ClosedMux LineSafe where
  core :=
    { refl := lineSafe_refl
      trans := lineSafe_trans
      wdt := fun s => @lineSafe_of_quiet [Kind.wdt_reset] _ _ (wdt_reset_spec s).1
        (within_of_events (wdt_reset_spec s).2 (by simp [Event.kind]))
        (by decide) (by decide) (by decide)
      delay := fun n s => @lineSafe_of_quiet [Kind.delay_ms] _ _ (delay_ms_spec n s).1
        (within_of_events (delay_ms_spec n s).2 (by simp [Event.kind]))
        (by decide) (by decide) (by decide)
      sample := fun s => lineSafe_of_quiet (getAdcValueBusyWait_spec s).2.1 (sample_within s)
        (by decide) (by decide) (by decide)
      entry := fun s => @lineSafe_of_quiet [Kind.call Fn.getAdcValueBusyWaitWithAveraging] _ _
        (log_spec _ s (by simp [Event.kind]) (by simp [Event.kind])).1
        (within_of_events (log_spec _ s (by simp [Event.kind]) (by simp [Event.kind])).2
          (by simp [Event.kind]))
        (by decide) (by decide) (by decide)
      transmit := lineSafe_transmit
      error := lineSafe_error
      chargerOn := fun s => lineSafe_of_quiet (turnOnCharger_spec s).1 (turnOnCharger_within s)
        (by decide) (by decide) (by decide)
      chargerOff := fun s => lineSafe_of_quiet (turnOffCharger_spec s).1
        (turnOffCharger_within s) (by decide) (by decide) (by decide)
      sleep := fun s => @lineSafe_of_quiet [Kind.write Reg.ADCSRA, Kind.write Reg.PRR, Kind.wdt_reset, Kind.sleep_mode] _ _
        (powerDownSleep_spec s).1
        (within_of_events (powerDownSleep_spec s).2 (by simp [sleepEvents, Event.kind]))
        (by decide) (by decide) (by decide) }
  toggle := fun s => @lineSafe_of_quiet [Kind.call Fn.toggleMux] _ _
    (log_spec _ s (by simp [Event.kind]) (by simp [Event.kind])).1
    (within_of_events (log_spec _ s (by simp [Event.kind]) (by simp [Event.kind])).2
      (by simp [Event.kind]))
    (by decide) (by decide) (by decide)
  muxOn := lineSafe_muxOn
  muxOff := lineSafe_muxOff

theorem lineScan_true {mid : List Event}
    (h : ∀ e ∈ mid, e.kind ≠ Kind.call Fn.triggerRead) :
    ∀ c, lineScan true mid = some c → c = true := by
  induction mid with
  | nil =>
    intro c hc
    exact (Option.some.inj hc).symm
  | cons e xs ih =>
    intro c hc
    have he := h e (List.mem_cons_self _ _)
    rw [lineScan] at hc
    have hs : lineStep true e = none ∨ lineStep true e = some true := by
      cases e with
      | call f a =>
        have hf : f ≠ Fn.triggerRead := fun hf => he (by simp [Event.kind, hf])
        right
        by_cases h1 : f = Fn.outputDataError
        · simp [lineStep, h1]
        · simp [lineStep, h1, hf]
      | write r v =>
        unfold lineStep
        dsimp only
        split
        · exact Or.inl rfl
        · exact Or.inr rfl
      | _ => exact Or.inr rfl
    rcases hs with hs | hs
    · rw [hs] at hc
      exact absurd hc (by simp)
    · rw [hs, Option.some_bind] at hc
      exact ih (fun x hx => h x (List.mem_cons_of_mem _ hx)) c hc

theorem lineScan_after_error {b c : Bool} {pre rest : List Event}
    (h : lineScan b (pre ++ Event.call Fn.outputDataError 0 :: rest) = some c) :
    lineScan true rest = some c := by
  rw [lineScan_append, Option.bind_eq_some] at h
  obtain ⟨b1, -, h⟩ := h
  rw [lineScan] at h
  have hs : lineStep b1 (Event.call Fn.outputDataError 0) = some true := by simp [lineStep]
  rw [hs, Option.some_bind] at h
  exact h

/-- A log that reads without a rise has every write of PORTB between an error signal and
the next trigger keep the report line low. -/
theorem lineScan_low {b c : Bool} {pre mid post : List Event} {v : Nat}
    (h : lineScan b (pre ++ Event.call Fn.outputDataError 0 ::
      (mid ++ Event.write Reg.PORTB v :: post)) = some c)
    (hmid : ∀ e ∈ mid, e.kind ≠ Kind.call Fn.triggerRead) : v &&& 4 = 0 := by
  have h1 := lineScan_after_error h
  rw [lineScan_append, Option.bind_eq_some] at h1
  obtain ⟨b2, hb2, h1⟩ := h1
  have : b2 = true := lineScan_true hmid b2 hb2
  subst this
  rw [lineScan, Option.bind_eq_some] at h1
  obtain ⟨b3, hb3, -⟩ := h1
  by_contra hv
  have : lineStep true (Event.write Reg.PORTB v) = none := by
    unfold lineStep
    dsimp only
    rw [if_pos ⟨rfl, rfl, hv⟩]
  rw [this] at hb3
  exact absurd hb3 (by simp)

theorem framed_refl (s : MCU) : TriggerFramed s s := by
  refine ⟨Run.stay s, fun pre post a h => ?_⟩
  rw [newEvents_self] at h
  exact absurd h (by simp)

theorem framed_trans (a b c : MCU) (h1 : TriggerFramed a b) (h2 : TriggerFramed b c) :
    TriggerFramed a c := by
  refine ⟨h1.1.andThen h2.1, fun pre post x h => ?_⟩
  rw [newEvents_trans h1.1 h2.1, List.append_eq_append_iff] at h
  rcases h with ⟨m, hpre, hY⟩ | ⟨m, hX, hY⟩
  · obtain ⟨pre1, v, hm, hv⟩ := h2.2 m post x hY
    exact ⟨newEvents a b ++ pre1, v, by rw [hpre, hm, List.append_assoc], hv⟩
  · cases m with
    | nil =>
      obtain ⟨pre1, v, hm, -⟩ := h2.2 [] post x (by simpa using hY.symm)
      exact absurd hm (by simp)
    | cons e m =>
      rw [List.cons_append, List.cons.injEq] at hY
      rw [← hY.1] at hX
      exact h1.2 pre m x hX

theorem framed_of_quiet {K : List Kind} {s t : MCU} (r : Run s t) (w : Within K s t)
    (h : Kind.call Fn.triggerRead ∉ K) : TriggerFramed s t := by
  refine ⟨r, fun pre post a hs => ?_⟩
  exact absurd (w (Event.call Fn.triggerRead a) (by rw [hs]; simp)) h

theorem framed_transmit (v : Nat) (s : MCU) (r : Nat) (t : MCU)
    (h : transmitValue v s = some (r, t)) : TriggerFramed s t := by
  obtain ⟨r1, t1, h1, hrun, hev, -⟩ := transmitValue_frame v s
  rw [h] at h1
  have ht : t = t1 := (Prod.mk.inj (Option.some.inj h1)).2
  subst ht
  refine ⟨hrun, fun pre post a hs => ?_⟩
  rw [hev] at hs
  unfold frameEvents at hs
  by_cases hv : v = 0 ∨ 232 ≤ v
  · rw [if_pos hv] at hs
    have : Event.call Fn.triggerRead a ∈
        Event.call Fn.transmitValue v :: errorEvents s.PORTB := by rw [hs]; simp
    revert this
    simp [errorEvents]
  · rw [if_neg hv] at hs
    have hrest : ∀ e ∈ List.tail (triggerEvents s.PORTB) ++
        (List.replicate v (tickEvents s.PORTB)).flatten,
        e.kind ≠ Kind.call Fn.triggerRead := by
      intro e he
      rw [List.mem_append] at he
      rcases he with he | he
      · revert e
        simp [triggerEvents, Event.kind]
      · rw [List.mem_flatten] at he
        obtain ⟨l, hl, hel⟩ := he
        rw [List.eq_of_mem_replicate hl] at hel
        revert e
        simp [tickEvents, Event.kind]
    have hshape : triggerEvents s.PORTB ++ (List.replicate v (tickEvents s.PORTB)).flatten =
        Event.call Fn.triggerRead 0 :: (List.tail (triggerEvents s.PORTB) ++
          (List.replicate v (tickEvents s.PORTB)).flatten) := by
      simp [triggerEvents]
    rw [hshape] at hs
    generalize List.tail (triggerEvents s.PORTB) ++
      (List.replicate v (tickEvents s.PORTB)).flatten = rest at hs hrest
    cases pre with
    | nil =>
      rw [List.nil_append, List.cons.injEq] at hs
      exact absurd hs.1 (by simp)
    | cons e pre =>
      rw [List.cons_append, List.cons.injEq] at hs
      cases pre with
      | nil =>
        refine ⟨[], v, by rw [← hs.1]; rfl, ?_, ?_⟩ <;> omega
      | cons e2 pre =>
        have h2 := hs.2
        rw [List.cons_append, List.cons.injEq] at h2
        have : Event.call Fn.triggerRead a ∈ rest := by rw [h2.2]; simp
        exact absurd rfl (hrest _ this)

theorem framed_closed : ClosedMux TriggerFramed where
  core :=
    { refl := framed_refl
      trans := framed_trans
      wdt := fun s => @framed_of_quiet [Kind.wdt_reset] _ _ (wdt_reset_spec s).1
        (within_of_events (wdt_reset_spec s).2 (by simp [Event.kind])) (by decide)
      delay := fun n s => @framed_of_quiet [Kind.delay_ms] _ _ (delay_ms_spec n s).1
        (within_of_events (delay_ms_spec n s).2 (by simp [Event.kind])) (by decide)
      sample := fun s => framed_of_quiet (getAdcValueBusyWait_spec s).2.1 (sample_within s)
        (by decide)
      entry := fun s => @framed_of_quiet [Kind.call Fn.getAdcValueBusyWaitWithAveraging] _ _
        (log_spec _ s (by simp [Event.kind]) (by simp [Event.kind])).1
        (within_of_events (log_spec _ s (by simp [Event.kind]) (by simp [Event.kind])).2
          (by simp [Event.kind]))
        (by decide)
      transmit := framed_transmit
      error := fun s => @framed_of_quiet [Kind.call Fn.outputDataError, Kind.write Reg.PORTB] _ _ (outputDataError_spec s).1
        (within_of_events (outputDataError_spec s).2.1 (by simp [errorEvents, Event.kind]))
        (by decide)
      chargerOn := fun s => framed_of_quiet (turnOnCharger_spec s).1 (turnOnCharger_within s)
        (by decide)
      chargerOff := fun s => framed_of_quiet (turnOffCharger_spec s).1
        (turnOffCharger_within s) (by decide)
      sleep := fun s => @framed_of_quiet [Kind.write Reg.ADCSRA, Kind.write Reg.PRR, Kind.wdt_reset, Kind.sleep_mode] _ _
        (powerDownSleep_spec s).1
        (within_of_events (powerDownSleep_spec s).2 (by simp [sleepEvents, Event.kind]))
        (by decide) }
  toggle := fun s => @framed_of_quiet [Kind.call Fn.toggleMux] _ _
    (log_spec _ s (by simp [Event.kind]) (by simp [Event.kind])).1
    (within_of_events (log_spec _ s (by simp [Event.kind]) (by simp [Event.kind])).2
      (by simp [Event.kind]))
    (by decide)
  muxOn := fun s => framed_of_quiet (turnOnMux_spec s).1 (turnOnMux_within s) (by decide)
  muxOff := fun s => framed_of_quiet (turnOffMux_spec s).1 (turnOffMux_within s) (by decide)

/-- C12: the main loop runs any number of iterations from any state, and in the log of
those iterations (1) every write of PORTB that comes after a call of `outputDataError`
with no call of `triggerRead` in between has the report-line bit (PB2) clear: this holds
for the write of the error signal itself, which drives the line low, and for every later
write, whichever step makes it (mux switching, frames that are error signals again), so
the line does not rise; (2) if no call of `triggerRead` follows the last error signal,
the report line is low in the final state; (3) every call of `triggerRead` comes right
after the call of `transmitValue` for a valid value, so the trigger that ends the low
period is that of a valid `transmitValue`. -/
theorem report_line_low_after_error (n : Nat) (s : MCU) :
    ∃ t, mainLoop n s = some t ∧
      (∀ (pre mid post : List Event) (v : Nat),
        newEvents s t = pre ++ Event.call Fn.outputDataError 0 ::
          (mid ++ Event.write Reg.PORTB v :: post) →
        (∀ e ∈ mid, e.kind ≠ Kind.call Fn.triggerRead) → v &&& 4 = 0) ∧
      (∀ (pre mid : List Event),
        newEvents s t = pre ++ Event.call Fn.outputDataError 0 :: mid →
        (∀ e ∈ mid, e.kind ≠ Kind.call Fn.triggerRead) → t.PORTB &&& 4 = 0) ∧
      (∀ (pre post : List Event) (a : Nat),
        newEvents s t = pre ++ Event.call Fn.triggerRead a :: post →
        ∃ (pre1 : List Event) (v : Nat),
          pre = pre1 ++ [Event.call Fn.transmitValue v] ∧ 0 < v ∧ v < 232) := by
  obtain ⟨t, ht⟩ := mainLoop_total n s
  have hL := closed_mainLoop lineSafe_closed n s t ht
  have hF := closed_mainLoop framed_closed n s t ht
  obtain ⟨c, hc, hp⟩ := hL.2 false (fun h => absurd h (by simp))
  refine ⟨t, ht, ?_, ?_, hF.2⟩
  · intro pre mid post v hs hmid
    rw [hs] at hc
    exact lineScan_low hc hmid
  · intro pre mid hs hmid
    rw [hs] at hc
    exact hp (lineScan_true hmid c (lineScan_after_error hc))

/-- C12 on the readings 100, 0, 50 and a baseline of four samples 0: the first iteration
ends with the error signal, whose write leaves the report line low. -/
theorem report_line_low_after_error_witness :
    ∃ (t : MCU) (A : List Event) (p : Nat),
      mainLoop 1 (startState [100, 0, 50, 0, 0, 0, 0]) = some t ∧
      newEvents (startState [100, 0, 50, 0, 0, 0, 0]) t =
        A ++ [Event.call Fn.outputDataError 0, Event.write Reg.PORTB p] ∧
      p &&& 4 = 0 ∧ t.PORTB &&& 4 = 0 := by
  have hv : Invalid (baselineOCV (startState [100, 0, 50, 0, 0, 0, 0])) := by decide
  obtain ⟨u, A, p, h1, -, hE, -⟩ := cycle_invalid_shape _ hv
  obtain ⟨t, ht, hw, hp, -⟩ := report_line_low_after_error 1 (startState [100, 0, 50, 0, 0, 0, 0])
  have htu : t = u := by
    rw [mainLoop_succ, h1, Option.some_bind, mainLoop] at ht
    exact (Option.some.inj ht).symm
  subst htu
  have hE2 : newEvents (startState [100, 0, 50, 0, 0, 0, 0]) t =
      A ++ Event.call Fn.outputDataError 0 :: ([] ++ Event.write Reg.PORTB (p &&& 0xFB) :: []) := by
    rw [hE]
    rfl
  exact ⟨t, A, p &&& 0xFB, ht, by rw [hE]; rfl, hw A [] [] _ hE2 (by simp),
    hp A [Event.write Reg.PORTB (p &&& 0xFB)] hE2 (by simp [Event.kind])⟩

theorem lastWrite_bit (evs : List Event) :
    ∀ d, d &&& 2 ≠ 0 → (∀ v, Event.write Reg.PORTB v ∈ evs → v &&& 2 ≠ 0) →
      lastWrite Reg.PORTB d evs &&& 2 ≠ 0 := by
  induction evs with
  | nil => exact fun d hd _ => hd
  | cons e xs ih =>
    intro d hd h
    have hx : ∀ v, Event.write Reg.PORTB v ∈ xs → v &&& 2 ≠ 0 :=
      fun v hv => h v (List.mem_cons_of_mem _ hv)
    cases e with
    | write q v =>
      rw [lastWrite]
      by_cases hq : q = Reg.PORTB
      · rw [if_pos hq]
        exact ih v (h v (by rw [hq]; exact List.mem_cons_self _ _)) hx
      · rw [if_neg hq]
        exact ih d hd hx
    | _ => exact ih d hd hx

theorem muxKept_of_writes {s t : MCU} (r : Run s t)
    (h : isMuxOn s ≠ 0 → ∀ v, Event.write Reg.PORTB v ∈ newEvents s t → v &&& 2 ≠ 0) :
    MuxKept s t := by
  refine ⟨r, fun hs => ⟨?_, h hs⟩⟩
  unfold isMuxOn
  rw [r.PORTB]
  exact lastWrite_bit _ _ hs (h hs)

theorem muxKept_of_quiet {K : List Kind} {s t : MCU} (r : Run s t) (w : Within K s t)
    (h : Kind.write Reg.PORTB ∉ K) : MuxKept s t :=
  muxKept_of_writes r (fun _ _ hv => absurd (w _ hv) h)

theorem muxKept_refl (s : MCU) : MuxKept s s := by
  refine muxKept_of_writes (Run.stay s) (fun _ v hv => ?_)
  rw [newEvents_self] at hv
  exact absurd hv (by simp)

theorem muxKept_trans (a b c : MCU) (h1 : MuxKept a b) (h2 : MuxKept b c) : MuxKept a c := by
  refine muxKept_of_writes (h1.1.andThen h2.1) (fun ha v hv => ?_)
  rw [newEvents_trans h1.1 h2.1, List.mem_append] at hv
  rcases hv with hv | hv
  · exact (h1.2 ha).2 v hv
  · exact (h2.2 (h1.2 ha).1).2 v hv

theorem frame_write_bit {p v x : Nat} (h : Event.write Reg.PORTB x ∈ frameEvents p v) :
    x &&& 2 = p &&& 2 := by
  have hx : x = p &&& 0xFB ∨ x = p &&& 0xFB ||| 4 := by
    unfold frameEvents at h
    rw [List.mem_cons] at h
    rcases h with h | h
    · exact absurd h (by simp)
    · split at h
      · left
        simpa [errorEvents] using h
      · rw [List.mem_append] at h
        rcases h with h | h
        · simpa [triggerEvents] using h
        · rw [List.mem_flatten] at h
          obtain ⟨l, hl, hel⟩ := h
          rw [List.eq_of_mem_replicate hl] at hel
          simpa [tickEvents] using hel
  rcases hx with hx | hx
  · rw [hx, and_FB_and_2]
  · rw [hx, or_4_and_2, and_FB_and_2]

theorem muxKept_transmit (v : Nat) (s : MCU) (r : Nat) (t : MCU)
    (h : transmitValue v s = some (r, t)) : MuxKept s t := by
  obtain ⟨r1, t1, h1, hrun, hev, -⟩ := transmitValue_frame v s
  rw [h] at h1
  have ht : t = t1 := (Prod.mk.inj (Option.some.inj h1)).2
  subst ht
  refine muxKept_of_writes hrun (fun hs x hx => ?_)
  rw [hev] at hx
  rw [frame_write_bit hx]
  exact hs

theorem muxKept_error (s : MCU) : MuxKept s (outputDataError s) := by
  have h := outputDataError_spec s
  refine muxKept_of_writes h.1 (fun hs x hx => ?_)
  rw [h.2.1] at hx
  have : x = s.PORTB &&& 0xFB := by simpa [errorEvents] using hx
  rw [this, and_FB_and_2]
  exact hs

theorem muxKept_closed : Closed MuxKept where
  refl := muxKept_refl
  trans := muxKept_trans
  wdt := fun s => @muxKept_of_quiet [Kind.wdt_reset] _ _ (wdt_reset_spec s).1
    (within_of_events (wdt_reset_spec s).2 (by simp [Event.kind])) (by decide)
  delay := fun n s => @muxKept_of_quiet [Kind.delay_ms] _ _ (delay_ms_spec n s).1
    (within_of_events (delay_ms_spec n s).2 (by simp [Event.kind])) (by decide)
  sample := fun s => muxKept_of_quiet (getAdcValueBusyWait_spec s).2.1 (sample_within s)
    (by decide)
  entry := fun s => @muxKept_of_quiet [Kind.call Fn.getAdcValueBusyWaitWithAveraging] _ _
    (log_spec _ s (by simp [Event.kind]) (by simp [Event.kind])).1
    (within_of_events (log_spec _ s (by simp [Event.kind]) (by simp [Event.kind])).2
      (by simp [Event.kind]))
    (by decide)
  transmit := muxKept_transmit
  error := muxKept_error
  chargerOn := fun s => muxKept_of_quiet (turnOnCharger_spec s).1 (turnOnCharger_within s)
    (by decide)
  chargerOff := fun s => muxKept_of_quiet (turnOffCharger_spec s).1
    (turnOffCharger_within s) (by decide)
  sleep := fun s => @muxKept_of_quiet
    [Kind.write Reg.ADCSRA, Kind.write Reg.PRR, Kind.wdt_reset, Kind.sleep_mode] _ _
    (powerDownSleep_spec s).1
    (within_of_events (powerDownSleep_spec s).2 (by simp [sleepEvents, Event.kind]))
    (by decide)

theorem isMuxOn_turnOnMux (s : MCU) : isMuxOn (turnOnMux s) ≠ 0 := by
  by_cases h : isMuxOn s ≠ 0
  · rw [turnOnMux_on h]
    exact h
  · rw [turnOnMux_off (not_not.mp h)]
    show (s.PORTB ||| 2) &&& 2 ≠ 0
    rw [or_2_and_2]
    decide

theorem isMuxOn_sample (s : MCU) : isMuxOn (getAdcValueBusyWait s).2 = isMuxOn s := by
  unfold isMuxOn
  rw [(reg_of_within (getAdcValueBusyWait_spec s).2.1 (sample_within s)).1 (by decide)]

theorem isMuxOn_toggleMux (s : MCU) : isMuxOn (toggleMux s) ≠ 0 := by
  unfold toggleMux
  exact isMuxOn_turnOnMux _

theorem isMuxOn_probe (s : MCU) : isMuxOn (probeAndSelect s).mcu ≠ 0 := by
  have h : isMuxOn (probeSamples s) ≠ 0 := by
    unfold probeSamples
    rw [isMuxOn_sample]
    exact isMuxOn_turnOnMux _
  rcases probe_mcu_eq s with e | e
  · rw [e]
    exact h
  · rw [e]
    exact isMuxOn_toggleMux _

theorem cycle_mux_on (s : MCU) : ∃ t, cycle s = some t ∧ isMuxOn t ≠ 0 := by
  obtain ⟨t, ht⟩ := cycle_total s
  exact ⟨t, ht, ((closed_after_probe muxKept_closed ht).2 (isMuxOn_probe s)).1⟩

theorem mainLoop_mux_on (n : Nat) :
    ∀ s, isMuxOn s ≠ 0 → ∃ t, mainLoop n s = some t ∧ isMuxOn t ≠ 0 := by
  induction n with
  | zero => exact fun s h => ⟨s, by rw [mainLoop], h⟩
  | succ n ih =>
    intro s _
    obtain ⟨u, h1, h2⟩ := cycle_mux_on s
    obtain ⟨t, h3, h4⟩ := ih u h2
    exact ⟨t, by rw [mainLoop_succ, h1]; exact h3, h4⟩

/-- When the mux is on at the head of a cycle, the cycle begins with the watchdog reset,
the entry of `turnOnMux` and, with nothing in between, the entry of the first
conversion. -/
theorem cycle_head_events {s u : MCU} (h : isMuxOn s ≠ 0) (hc : cycle s = some u) :
    ∃ rest, newEvents s u = Event.wdt_reset :: Event.call Fn.turnOnMux 0 ::
      Event.call Fn.getAdcValueBusyWait 0 :: rest := by
  have hL := lineSafe_closed
  have a1 := wdt_reset_spec s
  have h1 : isMuxOn (wdt_reset s) ≠ 0 := h
  have a2 := turnOnMux_spec (wdt_reset s)
  rw [if_pos h1] at a2
  have a3 := getAdcValueBusyWait_spec (turnOnMux (wdt_reset s))
  have r3 : Run s (getAdcValueBusyWait (turnOnMux (wdt_reset s))).2 :=
    (a1.1.andThen a2.1).andThen a3.2.1
  have b1 : LineSafe (getAdcValueBusyWait (turnOnMux (wdt_reset s))).2 (probeSamples s) := by
    unfold probeSamples
    exact hL.core.trans _ _ _ (hL.muxOff _)
      (hL.core.trans _ _ _ (hL.core.sample _)
        (hL.core.trans _ _ _ (hL.muxOn _) (hL.core.sample _)))
  have b2 : LineSafe (probeSamples s) (probeAndSelect s).mcu := by
    rcases probe_mcu_eq s with e | e
    · rw [e]
      exact hL.core.refl _
    · rw [e]
      exact closed_toggleMux hL _
  have b3 : LineSafe (probeAndSelect s).mcu u := closed_after_probe hL.core hc
  have r4 : Run (getAdcValueBusyWait (turnOnMux (wdt_reset s))).2 u :=
    (b1.1.andThen b2.1).andThen b3.1
  have e : newEvents s u = [Event.wdt_reset] ++ [Event.call Fn.turnOnMux 0] ++
      [Event.call Fn.getAdcValueBusyWait 0,
       Event.write Reg.ADCSRA ((turnOnMux (wdt_reset s)).ADCSRA ||| 0x40),
       Event.adc ((turnOnMux (wdt_reset s)).adcIn (turnOnMux (wdt_reset s)).adcCount % 256)] ++
      newEvents (getAdcValueBusyWait (turnOnMux (wdt_reset s))).2 u := by
    rw [newEvents_trans r3 r4, newEvents_trans (a1.1.andThen a2.1) a3.2.1,
      newEvents_trans a1.1 a2.1, a1.2, a2.2, a3.2.2]
  exact ⟨_, e⟩

/-- C20: whatever the readings are (the state `s` and its analog input are arbitrary, so
the three probe readings and the choice whether to toggle are arbitrary), (1) the channel
switch line (PB1) is on when the probe-and-select step finishes; (2) the cycle ends, the
line is on at its end, and at every point of the log between the end of the probe step
and the end of the cycle (the averaged baseline sample, the offset sample, the monitoring
samples, the frames, the sleeps, the charger switching) PORTB holds a value with PB1 set;
(3) after any number `n + 1` of iterations the line is on, so it is on at the head of the
iteration that follows, whose first `turnOnMux` only logs its entry and returns (no write
of PORTB, no debounce delay): the log of that iteration begins with the watchdog reset,
the entry of `turnOnMux` and the entry of the first conversion. -/
theorem mux_stays_on_after_probe (s : MCU) (n : Nat) :
    isMuxOn (probeAndSelect s).mcu ≠ 0 ∧
    (∃ t, cycle s = some t ∧ isMuxOn t ≠ 0 ∧
      ∀ (pre post : List Event), newEvents (probeAndSelect s).mcu t = pre ++ post →
        lastWrite Reg.PORTB (probeAndSelect s).mcu.PORTB pre &&& 2 ≠ 0) ∧
    (∃ (t u : MCU) (rest : List Event), mainLoop (n + 1) s = some t ∧ isMuxOn t ≠ 0 ∧
      turnOnMux (wdt_reset t) = log (Event.call Fn.turnOnMux 0) (wdt_reset t) ∧
      cycle t = some u ∧
      newEvents t u = Event.wdt_reset :: Event.call Fn.turnOnMux 0 ::
        Event.call Fn.getAdcValueBusyWait 0 :: rest) := by
  refine ⟨isMuxOn_probe s, ?_, ?_⟩
  · obtain ⟨t, ht⟩ := cycle_total s
    have hk := (closed_after_probe muxKept_closed ht).2 (isMuxOn_probe s)
    refine ⟨t, ht, hk.1, fun pre post hs => ?_⟩
    refine lastWrite_bit _ _ (isMuxOn_probe s) (fun v hv => hk.2 v ?_)
    rw [hs]
    exact List.mem_append_left _ hv
  · obtain ⟨t1, h1, h2⟩ := cycle_mux_on s
    obtain ⟨t, h3, h4⟩ := mainLoop_mux_on n t1 h2
    obtain ⟨u, hu⟩ := cycle_total t
    obtain ⟨rest, hr⟩ := cycle_head_events h4 hu
    have h5 : isMuxOn (wdt_reset t) ≠ 0 := h4
    exact ⟨t, u, rest, by rw [mainLoop_succ, h1]; exact h3, h4, turnOnMux_on h5, hu, hr⟩

theorem muxPulses_append (p : Nat) (xs ys : List Event) :
    muxPulses p (xs ++ ys) = muxPulses p xs + muxPulses (lastWrite Reg.PORTB p xs) ys := by
  induction xs generalizing p with
  | nil => simp [muxPulses, lastWrite]
  | cons e xs ih =>
    cases e with
    | write r v =>
      by_cases hr : r = Reg.PORTB
      · simp [muxPulses, lastWrite, hr, ih, Nat.add_assoc]
      · simp [muxPulses, lastWrite, hr, ih]
    | _ => simp [muxPulses, lastWrite, ih]

theorem muxPulses_trans {a b c : MCU} (r1 : Run a b) (r2 : Run b c) :
    muxPulses a.PORTB (newEvents a c) =
      muxPulses a.PORTB (newEvents a b) + muxPulses b.PORTB (newEvents b c) := by
  rw [newEvents_trans r1 r2, muxPulses_append, ← r1.PORTB]

theorem muxPulses_quiet (p : Nat) {evs : List Event}
    (h : ∀ e ∈ evs, e.kind ≠ Kind.write Reg.PORTB) : muxPulses p evs = 0 := by
  induction evs with
  | nil => rfl
  | cons e xs ih =>
    have hx := ih (fun x hx => h x (List.mem_cons_of_mem _ hx))
    have he := h e (List.mem_cons_self _ _)
    cases e with
    | write r v =>
      have hr : r ≠ Reg.PORTB := fun hr => he (by simp [Event.kind, hr])
      simp [muxPulses, hr, hx]
    | _ => simp [muxPulses, hx]

theorem muxPulses_sample (s : MCU) :
    muxPulses s.PORTB (newEvents s (getAdcValueBusyWait s).2) = 0 :=
  muxPulses_quiet _ (fun e he hk => by
    have := sample_within s e he
    rw [hk] at this
    revert this
    decide)

theorem muxPulses_turnOffMux (s : MCU) :
    muxPulses s.PORTB (newEvents s (turnOffMux s)) = 0 := by
  rw [(turnOffMux_spec s).2]
  split
  · simp [muxPulses]
  · simp [muxPulses, and_FD_and_2]

theorem muxPulses_turnOnMux (s : MCU) :
    muxPulses s.PORTB (newEvents s (turnOnMux s)) = if isMuxOn s = 0 then 1 else 0 := by
  rw [(turnOnMux_spec s).2]
  by_cases h : isMuxOn s = 0
  · have h2 : s.PORTB &&& 2 = 0 := h
    rw [if_neg (not_not.mpr h), if_pos h]
    simp [muxPulses, h2, or_2_and_2]
  · rw [if_pos h, if_neg h]
    simp [muxPulses]

theorem toggleMux_events_on {s : MCU} (h : isMuxOn s ≠ 0) :
    newEvents s (toggleMux s) =
      [Event.call Fn.toggleMux 0, Event.call Fn.turnOffMux 0,
       Event.write Reg.PORTB (s.PORTB &&& 0xFD), Event.delay_ms MUXOFFDEBOUNCEDELAYMS,
       Event.call Fn.turnOnMux 0, Event.write Reg.PORTB (s.PORTB &&& 0xFD ||| 2),
       Event.delay_ms MUXONDEBOUNCEDELAYMS] := by
  unfold toggleMux
  dsimp only
  have h1 : isMuxOn (log (Event.call Fn.toggleMux 0) s) ≠ 0 := h
  rw [turnOffMux_on h1]
  have h2 : isMuxOn (delay_ms MUXOFFDEBOUNCEDELAYMS (setPORTB
      ((log (Event.call Fn.toggleMux 0) s).PORTB &&& 0xFD)
      (log (Event.call Fn.turnOffMux 0) (log (Event.call Fn.toggleMux 0) s)))) = 0 :=
    and_FD_and_2 s.PORTB
  rw [turnOnMux_off h2]
  exact newEvents_of_trace (by simp [delay_ms, log, setPORTB])

theorem isMuxOn_probeFirst (s : MCU) : isMuxOn (probeFirst s) ≠ 0 := by
  unfold probeFirst
  rw [isMuxOn_sample]
  exact isMuxOn_turnOnMux _

theorem isMuxOn_probeSamples (s : MCU) : isMuxOn (probeSamples s) ≠ 0 := by
  unfold probeSamples
  rw [isMuxOn_sample]
  exact isMuxOn_turnOnMux _

theorem isMuxOn_turnOffMux (s : MCU) : isMuxOn (turnOffMux s) = 0 := by
  by_cases h : isMuxOn s = 0
  · rw [turnOffMux_off h]
    exact h
  · rw [turnOffMux_on h]
    exact and_FD_and_2 s.PORTB

/-- Between the first and the third sample of the probe step PB1 rises once. -/
theorem muxPulses_probe (s : MCU) :
    muxPulses (probeFirst s).PORTB (newEvents (probeFirst s) (probeSamples s)) = 1 := by
  have e : probeSamples s = (getAdcValueBusyWait (turnOnMux (getAdcValueBusyWait
      (turnOffMux (probeFirst s))).2)).2 := rfl
  rw [e]
  have r1 := (turnOffMux_spec (probeFirst s)).1
  have r2 := (getAdcValueBusyWait_spec (turnOffMux (probeFirst s))).2.1
  have r3 := (turnOnMux_spec (getAdcValueBusyWait (turnOffMux (probeFirst s))).2).1
  have r4 := (getAdcValueBusyWait_spec
    (turnOnMux (getAdcValueBusyWait (turnOffMux (probeFirst s))).2)).2.1
  have hoff : isMuxOn (getAdcValueBusyWait (turnOffMux (probeFirst s))).2 = 0 := by
    rw [isMuxOn_sample]
    exact isMuxOn_turnOffMux _
  rw [muxPulses_trans ((r1.andThen r2).andThen r3) r4, muxPulses_trans (r1.andThen r2) r3,
    muxPulses_trans r1 r2, muxPulses_turnOffMux, muxPulses_sample, muxPulses_turnOnMux,
    muxPulses_sample, if_pos hoff]

theorem probe_mcu_cond (s : MCU) :
    (probeAndSelect s).mcu =
      if (probeAndSelect s).adcInitialValue1 ≤ (probeAndSelect s).adcFloatingValue ∨
          ((probeAndSelect s).adcInitialValue0 < (probeAndSelect s).adcInitialValue1 ∧
           (probeAndSelect s).adcInitialValue0 > (probeAndSelect s).adcFloatingValue)
      then toggleMux (probeSamples s) else probeSamples s := by
  unfold probeAndSelect probeSamples
  dsimp only

/-- C3: with the probe readings `v0`, `vFloat`, `v1` (each in [0,255]), the probe step
selects the lowest connected battery by switching PB1.  The first and the third reading
are taken with PB1 on and one rising edge of PB1 apart, that is on the two channels.
After the third sample the probe step logs nothing more when the toggle condition fails,
and when it holds it runs `toggleMux`, which switches PB1 off, waits 500 ms, switches it
on again and waits 125 ms: one more rising edge, which brings the mux back to the channel
of the first reading.  PB1 is on at the end either way.  With the selected reading read
off these rising edges (`v0` after an odd number of them, `v1` otherwise): if both `v0`
and `v1` are above `vFloat` the selected reading is `min v0 v1`, and if exactly one of
them is above `vFloat` the selected reading is that one. -/
theorem probe_selects_lowest_connected (s : MCU) (v0 vFloat v1 : Nat)
    (h0 : s.adcIn s.adcCount = v0) (hF : s.adcIn (s.adcCount + 1) = vFloat)
    (h1 : s.adcIn (s.adcCount + 2) = v1)
    (b0 : v0 ≤ 255) (bF : vFloat ≤ 255) (b1 : v1 ≤ 255) :
    (probeAndSelect s).adcInitialValue0 = (v0 : Int) ∧
    (probeAndSelect s).adcInitialValue1 = (v1 : Int) ∧
    newEvents s (probeAndSelect s).mcu =
      newEvents s (probeFirst s) ++ newEvents (probeFirst s) (probeSamples s) ++
        newEvents (probeSamples s) (probeAndSelect s).mcu ∧
    isMuxOn (probeFirst s) ≠ 0 ∧ isMuxOn (probeSamples s) ≠ 0 ∧
    muxPulses (probeFirst s).PORTB (newEvents (probeFirst s) (probeSamples s)) = 1 ∧
    newEvents (probeSamples s) (probeAndSelect s).mcu =
      (if v1 ≤ vFloat ∨ (v0 < v1 ∧ v0 > vFloat) then
        [Event.call Fn.toggleMux 0, Event.call Fn.turnOffMux 0,
         Event.write Reg.PORTB ((probeSamples s).PORTB &&& 0xFD),
         Event.delay_ms MUXOFFDEBOUNCEDELAYMS,
         Event.call Fn.turnOnMux 0,
         Event.write Reg.PORTB ((probeSamples s).PORTB &&& 0xFD ||| 2),
         Event.delay_ms MUXONDEBOUNCEDELAYMS]
       else []) ∧
    muxPulses (probeSamples s).PORTB (newEvents (probeSamples s) (probeAndSelect s).mcu) =
      (if v1 ≤ vFloat ∨ (v0 < v1 ∧ v0 > vFloat) then 1 else 0) ∧
    isMuxOn (probeAndSelect s).mcu ≠ 0 ∧
    (vFloat < v0 ∧ vFloat < v1 → selectedReading s = ((min v0 v1 : Nat) : Int)) ∧
    (vFloat < v0 ∧ v1 ≤ vFloat → selectedReading s = (v0 : Int)) ∧
    (v0 ≤ vFloat ∧ vFloat < v1 → selectedReading s = (v1 : Int)) := by
  obtain ⟨-, -, -, e0, eF, e1, -⟩ := probeAndSelect_spec s
  have m0 : v0 % 256 = v0 := Nat.mod_eq_of_lt (by omega)
  have mF : vFloat % 256 = vFloat := Nat.mod_eq_of_lt (by omega)
  have m1 : v1 % 256 = v1 := Nat.mod_eq_of_lt (by omega)
  rw [h0, m0] at e0
  rw [hF, mF] at eF
  rw [h1, m1] at e1
  have hon := isMuxOn_probeSamples s
  have hp2 : (probeSamples s).PORTB &&& 2 ≠ 0 := hon
  have hm := probe_mcu_cond s
  rw [e0, eF, e1] at hm
  have r1 : Run s (probeFirst s) :=
    ((wdt_reset_spec s).1.andThen (turnOnMux_spec _).1).andThen
      (getAdcValueBusyWait_spec _).2.1
  have r2 : Run (probeFirst s) (probeSamples s) :=
    (((turnOffMux_spec (probeFirst s)).1.andThen (getAdcValueBusyWait_spec _).2.1).andThen
      (turnOnMux_spec _).1).andThen (getAdcValueBusyWait_spec _).2.1
  have hE : newEvents (probeSamples s) (probeAndSelect s).mcu =
      (if v1 ≤ vFloat ∨ (v0 < v1 ∧ v0 > vFloat) then
        [Event.call Fn.toggleMux 0, Event.call Fn.turnOffMux 0,
         Event.write Reg.PORTB ((probeSamples s).PORTB &&& 0xFD),
         Event.delay_ms MUXOFFDEBOUNCEDELAYMS,
         Event.call Fn.turnOnMux 0,
         Event.write Reg.PORTB ((probeSamples s).PORTB &&& 0xFD ||| 2),
         Event.delay_ms MUXONDEBOUNCEDELAYMS]
       else []) := by
    by_cases hc : v1 ≤ vFloat ∨ (v0 < v1 ∧ v0 > vFloat)
    · have hci : (v1 : Int) ≤ (vFloat : Int) ∨
          ((v0 : Int) < (v1 : Int) ∧ (v0 : Int) > (vFloat : Int)) := by omega
      rw [if_pos hci] at hm
      rw [if_pos hc, hm, toggleMux_events_on hon]
    · have hci : ¬ ((v1 : Int) ≤ (vFloat : Int) ∨
          ((v0 : Int) < (v1 : Int) ∧ (v0 : Int) > (vFloat : Int))) := by omega
      rw [if_neg hci] at hm
      rw [if_neg hc, hm, newEvents_self]
  have r3 : Run (probeSamples s) (probeAndSelect s).mcu := by
    rcases probe_mcu_eq s with e | e
    · rw [e]
      exact Run.stay _
    · rw [e]
      exact toggleMux_run _
  have hP : muxPulses (probeSamples s).PORTB
      (newEvents (probeSamples s) (probeAndSelect s).mcu) =
      (if v1 ≤ vFloat ∨ (v0 < v1 ∧ v0 > vFloat) then 1 else 0) := by
    rw [hE]
    split
    · simp [muxPulses, and_FD_and_2, or_2_and_2, hp2]
    · rfl
  refine ⟨e0, e1, ?_, isMuxOn_probeFirst s, hon, muxPulses_probe s, hE, hP, isMuxOn_probe s,
    fun h => ?_, fun h => ?_, fun h => ?_⟩
  · rw [newEvents_trans (r1.andThen r2) r3, newEvents_trans r1 r2]
  · unfold selectedReading
    rw [hP, e0, e1]
    by_cases hlt : v0 < v1
    · have hc : v1 ≤ vFloat ∨ (v0 < v1 ∧ v0 > vFloat) := Or.inr ⟨hlt, h.1⟩
      have hmin : min v0 v1 = v0 := Nat.min_eq_left (by omega)
      simp [hc, hmin]
    · have hc : ¬ (v1 ≤ vFloat ∨ (v0 < v1 ∧ v0 > vFloat)) := by omega
      have hmin : min v0 v1 = v1 := Nat.min_eq_right (by omega)
      simp [hc, hmin]
  · unfold selectedReading
    rw [hP, e0, e1]
    have hc : v1 ≤ vFloat ∨ (v0 < v1 ∧ v0 > vFloat) := Or.inl h.2
    simp [hc]
  · unfold selectedReading
    rw [hP, e0, e1]
    have hc : ¬ (v1 ≤ vFloat ∨ (v0 < v1 ∧ v0 > vFloat)) := by omega
    simp [hc]

/-- C3, at the readings (50, 0, 100): both batteries are connected, PB1 is pulsed once
more after the third sample, and the lower reading, 50, is the selected one. -/
theorem probe_selects_lowest_connected_witness :
    muxPulses (probeSamples (startState [50, 0, 100])).PORTB
      (newEvents (probeSamples (startState [50, 0, 100]))
        (probeAndSelect (startState [50, 0, 100])).mcu) = 1 ∧
    selectedReading (startState [50, 0, 100]) = ((min 50 100 : Nat) : Int) :=
  ⟨(probe_selects_lowest_connected (startState [50, 0, 100]) 50 0 100 rfl rfl rfl
      (by decide) (by decide) (by decide)).2.2.2.2.2.2.2.1,
   (probe_selects_lowest_connected (startState [50, 0, 100]) 50 0 100 rfl rfl rfl
      (by decide) (by decide) (by decide)).2.2.2.2.2.2.2.2.2.1 ⟨by decide, by decide⟩⟩

end PowerShuffler
